import Mathlib

/-!
# FTS5 configuration parser: `ext/fts5/fts5_config.c`

A shallow embedding of the hand-written scanners and parsers of
`fts5_config.c`, and theorems about them.

## Memory model

* A byte is a `Char`.  A buffer (`Buf`) is the list of bytes from a pointer up
  to the end of the allocation the pointer points into.  The C string `s` held
  in a buffer of its own is the buffer `s ++ [NUL]`.
* A pointer into a buffer is the suffix of the buffer that starts at the
  pointer; `p++` is `List.tail`, `*p` is the head, and the pointer difference
  `p - pIn` is `pIn.length - p.length`.  A nullable pointer is an `Option Buf`.
* Reading `*p` when the suffix is empty reads a byte beyond the allocation.
  This, a dereference of a NULL pointer and a write beyond the capacity of an
  array are undefined behaviour in C; the embedding makes them explicit as a
  `Fault`, and every function returns a `Res`.
* In-place rewriting (`fts5Dequote`, `fts5TrimString`) returns the rewritten
  buffer.
* Memory allocation (`sqlite3_malloc`, `sqlite3Fts5MallocZero`,
  `sqlite3_mprintf`) is taken to succeed.
* The loops whose body calls other scanners (the entries of a `prefix=` list,
  the tokens of a `tokenize=` list, the arguments of a rank function) run on
  fuel; the callers supply the length of the buffer plus one, and each
  iteration that continues consumes at least one byte (`skipArgsLoop_fuel`,
  `tokenizeLoop_fuel`).
* A `sqlite3_value` is given by what the value accessors of the SQLite core
  report about it; `sqlite3_value_int` hands the integer over as a C `int`.
-/

namespace Fts5

/-- Undefined behaviour made explicit. -/
inductive Fault
  | nullDeref
  | readPastEnd
  | writePastEnd
  | fuel
  deriving DecidableEq, Repr

/-- Result of running a piece of C code: a value, or a fault. -/
inductive Res (α : Type)
  | ok (a : α)
  | fault (f : Fault)
  deriving DecidableEq, Repr

/-- Sequencing: a fault aborts the rest of the computation. -/
def Res.bind {α β : Type} (x : Res α) (f : α → Res β) : Res β :=
  match x with
  | .ok a => f a
  | .fault e => .fault e

instance : Monad Res where
  pure := Res.ok
  bind := Res.bind

/-- Text without its terminator. -/
abbrev Text := List Char

/-- Memory from a pointer to the end of its allocation. -/
abbrev Buf := List Char

/-- The string terminator. -/
def NUL : Char := '\x00'

/-- The single-quote character. -/
def SQ : Char := '\x27'

/-- The double-quote character. -/
def DQ : Char := '\x22'

/-- The back-quote character. -/
def BQ : Char := '\x60'

def SQLITE_OK : Nat := 0
def SQLITE_ERROR : Nat := 1
def SQLITE_NOMEM : Nat := 7

/-- Modelled from the spec: `FTS5_RANK_NAME` is declared in `fts5Int.h`, which is
not part of the sources; the reserved rank name is `rank`. -/
def FTS5_RANK_NAME : Text := "rank".toList

/-- Modelled from the spec: `FTS5_ROWID_NAME` is declared in `fts5Int.h`, which is
not part of the sources; the rowid alias is `rowid`. -/
def FTS5_ROWID_NAME : Text := "rowid".toList

/-- The C string that starts at a pointer: the bytes before the first NUL
(what `%s` prints). -/
def cstr (z : Buf) : Text := z.takeWhile (fun c => c != NUL)

/-- The bytes between two pointers into the same buffer, `pIn ≤ p`
(what `memcpy(dst, pIn, p - pIn)` copies). -/
def between (pIn p : Buf) : Text := pIn.take (pIn.length - p.length)

/-- Modelled from the spec: `sqlite3UpperToLower[]` of the SQLite core, which is
not part of the sources; comparisons are case-insensitive, i.e. the ASCII
capitals are folded to lower case and every other byte is left alone. -/
def upperToLower (c : Char) : Char :=
  if 'A' ≤ c ∧ c ≤ 'Z' then Char.ofNat (c.toNat + 32) else c

/-- Modelled from the spec: `sqlite3_strnicmp` of the SQLite core, which is not
part of the sources.  It compares at most `N` bytes of two strings
case-insensitively:
`while( N-- > 0 && *a!=0 && lower(*a)==lower(*b) ){ a++; b++; }
 return N<0 ? 0 : lower(*a) - lower(*b);`. -/
def sqlite3_strnicmp : Buf → Buf → Nat → Int
  | _, _, 0 => 0
  | zLeft, zRight, N + 1 =>
    let a := zLeft.headD NUL
    let b := zRight.headD NUL
    if a ≠ NUL ∧ upperToLower a = upperToLower b then
      sqlite3_strnicmp zLeft.tail zRight.tail N
    else
      ((upperToLower a).toNat : Int) - ((upperToLower b).toNat : Int)

/-- Modelled from the spec: `sqlite3_stricmp` of the SQLite core, which is not
part of the sources.  It compares two strings case-insensitively:
`while( *a!=0 && lower(*a)==lower(*b) ){ a++; b++; }
 return lower(*a) - lower(*b);`. -/
def sqlite3_stricmp : Text → Text → Int
  | [], [] => 0
  | [], b :: _ => - ((upperToLower b).toNat : Int)
  | a :: _, [] => ((upperToLower a).toNat : Int)
  | a :: zLeft, b :: zRight =>
    if upperToLower a = upperToLower b then sqlite3_stricmp zLeft zRight
    else ((upperToLower a).toNat : Int) - ((upperToLower b).toNat : Int)

/-! ## Scanner primitives -/

def fts5_iswhitespace (x : Char) : Bool := x == ' '

def fts5_isopenquote (x : Char) : Bool :=
  x == DQ || x == SQ || x == '[' || x == BQ

/-- The loop `while( fts5_iswhitespace(*p) ){ p++; }`. -/
def skipSpaces : Buf → Res Buf
  | [] => .fault .readPastEnd
  | c :: r => if fts5_iswhitespace c then skipSpaces r else .ok (c :: r)

def fts5ConfigSkipWhitespace (pIn : Option Buf) : Res (Option Buf) :=
  match pIn with
  | none => .ok none
  | some p => do
    let p ← skipSpaces p
    pure (some p)

/-- The loop condition of `fts5ConfigSkipBareword`. -/
def isBarewordChar (c : Char) : Bool :=
  c != NUL && c != ' ' && c != ':' && c != '!' && c != '@'
    && c != '#' && c != '$' && c != '%' && c != '^' && c != '&'
    && c != '*' && c != '(' && c != ')' && c != '='

/-- The loop of `fts5ConfigSkipBareword`. -/
def barewordLoop : Buf → Res Buf
  | [] => .fault .readPastEnd
  | c :: r => if isBarewordChar c then barewordLoop r else .ok (c :: r)

def fts5ConfigSkipBareword (pIn : Buf) : Res (Option Buf) := do
  let p ← barewordLoop pIn
  if p.length = pIn.length then pure none else pure (some p)

def fts5_isdigit (a : Char) : Bool := decide ('0' ≤ a) && decide (a ≤ '9')

/-- The loop condition of the blob case of `fts5ConfigSkipLiteral`. -/
def isHexChar (c : Char) : Bool :=
  (decide ('a' ≤ c) && decide (c ≤ 'f'))
    || (decide ('A' ≤ c) && decide (c ≤ 'F'))
    || (decide ('0' ≤ c) && decide (c ≤ '9'))

/-- The loop of the blob case of `fts5ConfigSkipLiteral`. -/
def hexLoop : Buf → Res Buf
  | [] => .fault .readPastEnd
  | c :: r => if isHexChar c then hexLoop r else .ok (c :: r)

/-- The loop `while( fts5_isdigit(*p) ) p++;`. -/
def digitLoop : Buf → Res Buf
  | [] => .fault .readPastEnd
  | c :: r => if fts5_isdigit c then digitLoop r else .ok (c :: r)

/-- The loop of the string case of `fts5ConfigSkipLiteral`, entered with `p`
just past the opening quote:
`while( p ){ if( *p==SQ ){ p++; if( *p!=SQ ) break; } p++; if( *p==0 ) p = 0; }`. -/
def stringLoop : Buf → Res (Option Buf)
  | [] => .fault .readPastEnd
  | c :: r =>
    if c = SQ then
      match r with
      | [] => .fault .readPastEnd
      | d :: r2 =>
        if d ≠ SQ then .ok (some (d :: r2))
        else
          match r2 with
          | [] => .fault .readPastEnd
          | e :: r3 => if e = NUL then .ok none else stringLoop (e :: r3)
    else
      match r with
      | [] => .fault .readPastEnd
      | d :: r2 => if d = NUL then .ok none else stringLoop (d :: r2)

def fts5ConfigSkipLiteral (pIn : Option Buf) : Res (Option Buf) :=
  match pIn with
  | none => .ok none
  | some [] => .fault .readPastEnd
  | some (c :: r) =>
    if c = 'n' ∨ c = 'N' then
      if sqlite3_strnicmp "null".toList (c :: r) 4 = 0 then .ok (some ((c :: r).drop 4))
      else .ok none
    else if c = 'x' ∨ c = 'X' then
      match r with
      | [] => .fault .readPastEnd
      | d :: r1 =>
        if d = SQ then do
          let p ← hexLoop r1
          match p with
          | [] => .fault .readPastEnd
          | e :: r2 =>
            if e = SQ ∧ ((c :: r).length - p.length) % 2 = 0 then pure (some r2)
            else pure none
        else .ok none
    else if c = SQ then
      stringLoop r
    else do
      let p := if c = '+' ∨ c = '-' then r else c :: r
      let p ← digitLoop p
      let p ← (match p with
        | [] => Res.fault Fault.readPastEnd
        | e :: r1 =>
          if e = '.' then
            match r1 with
            | [] => Res.fault Fault.readPastEnd
            | e1 :: r2 => if fts5_isdigit e1 then digitLoop r2 else Res.ok p
          else Res.ok p)
      if p.length = (c :: r).length then pure none else pure (some p)

/-- The loop of `fts5Dequote`; `zIn` is the pointer `&z[iIn]`, `out` the bytes
`z[0..iOut)` written so far.  Returns `bRet` and the bytes written. -/
def dequoteLoop (q : Char) : Buf → Text → Res (Nat × Text)
  | [], _ => .fault .readPastEnd
  | c :: r, out =>
    if c = NUL then .ok (1, out)
    else if c = q then
      match r with
      | [] => .fault .readPastEnd
      | d :: r2 =>
        if d ≠ q then .ok (if d = NUL then 0 else 1, out)
        else dequoteLoop q r2 (out ++ [q])
    else dequoteLoop q r (out ++ [c])

/-- Returns `bRet` (0 when well formed) and the buffer after the in-place
rewrite: the dequoted bytes, the terminator written at `z[iOut]`, and the
untouched rest of the buffer. -/
def fts5Dequote (z : Buf) : Res (Nat × Buf) :=
  match z with
  | [] => .fault .readPastEnd
  | q0 :: r => do
    let q := if q0 = '[' then ']' else q0
    let (bRet, out) ← dequoteLoop q r []
    pure (bRet, out ++ NUL :: z.drop (out.length + 1))

def sqlite3Fts5Dequote (z : Buf) : Res Buf :=
  match z with
  | [] => .fault .readPastEnd
  | quote :: _ =>
    if quote = '[' ∨ quote = SQ ∨ quote = DQ ∨ quote = BQ then do
      let (_, z1) ← fts5Dequote z
      pure z1
    else pure z

def strlen : Buf → Res Nat
  | [] => .fault .readPastEnd
  | c :: r => if c = NUL then .ok 0 else do
    let n ← strlen r
    pure (n + 1)

/-- The loop `while( n>0 && fts5_iswhitespace(z[n-1]) ){ z[--n] = 0; }`. -/
def trimLoop (z : Buf) : Nat → Buf
  | 0 => z
  | n + 1 => if fts5_iswhitespace (z.getD n NUL) then trimLoop (z.set n NUL) n else z

/-- Returns the buffer after the in-place rewrite and the returned pointer. -/
def fts5TrimString (z : Buf) : Res (Buf × Buf) := do
  let n ← strlen z
  let z1 := trimLoop z n
  let p ← skipSpaces z1
  pure (z1, p)

/-! ## The configuration object and the directive parser -/

/-- The fields of `Fts5Config` (declared in `fts5Int.h`) that `fts5_config.c`
reads or writes.  `aPrefix` is `none` for a NULL pointer and otherwise the
whole allocated array; the prefix list is its first `nPrefix` entries.
`azCol` holds the `nCol` column names stored so far. -/
structure Fts5Config where
  iCookie : Int
  zDb : Text
  zName : Text
  azCol : List Text
  nCol : Nat
  aPrefix : Option (List Nat)
  nPrefix : Nat
  pTok : Option Nat
  pTokApi : Option Nat
  pgsz : Int
  nAutomerge : Int
  zRank : Option Text
  zRankArgs : Option Text
  deriving DecidableEq, Repr

/-- The object after `memset(pRet, 0, sizeof(Fts5Config))`. -/
def Fts5Config.zero : Fts5Config :=
  { iCookie := 0, zDb := [], zName := [], azCol := [], nCol := 0, aPrefix := none, nPrefix := 0,
    pTok := none, pTokApi := none, pgsz := 0, nAutomerge := 0, zRank := none, zRankArgs := none }

/-- The tokenizer registry behind `Fts5Global`: `sqlite3Fts5GetTokenizer` is an
external collaborator.  Given the `nArg` strings of `azArg` it returns a result
code and the values it stores in `*ppTok` and `*ppTokApi`.  The default
tokenizer is requested with no strings. -/
structure Fts5Global where
  sqlite3Fts5GetTokenizer : List Text → Nat × Option Nat × Option Nat

/-- The prefix lengths stored in a configuration: `aPrefix[0..nPrefix)`. -/
def Fts5Config.prefixList (c : Fts5Config) : Option (List Nat) :=
  c.aPrefix.map (fun a => a.take c.nPrefix)

/-- The loop `while( p[0]>='0' && p[0]<='9' && nPre<1000 ){ nPre = nPre*10 + (p[0]-'0'); p++; }`. -/
def prefixDigits : Nat → Buf → Res (Nat × Buf)
  | _, [] => .fault .readPastEnd
  | nPre, c :: r =>
    if '0' ≤ c ∧ c ≤ '9' ∧ nPre < 1000 then
      prefixDigits (nPre * 10 + (c.toNat - '0'.toNat)) r
    else .ok (nPre, c :: r)

/-- The loop `while( rc==SQLITE_OK && p[0] ){ ... }` of the `prefix` directive.
The state is `rc`, the cursor `p`, the array `aPrefix`, the count `nPrefix`
and the error message. -/
def prefixLoop : Nat → Nat → Buf → List Nat → Nat → Option Text →
    Res (Nat × List Nat × Nat × Option Text)
  | 0, _, _, _, _, _ => .fault .fuel
  | fuel + 1, rc, p, aPrefix, nPrefix, zErr =>
    if rc ≠ SQLITE_OK then .ok (rc, aPrefix, nPrefix, zErr)
    else
      match p with
      | [] => .fault .readPastEnd
      | c :: _ =>
        if c = NUL then .ok (rc, aPrefix, nPrefix, zErr)
        else do
          let p ← skipSpaces p
          let (nPre, p) ← prefixDigits 0 p
          let p ← skipSpaces p
          let (p, rc, zErr) ← (match p with
            | [] => Res.fault Fault.readPastEnd
            | d :: r =>
              if d = ',' then Res.ok (r, rc, zErr)
              else if d ≠ NUL then
                Res.ok (p, SQLITE_ERROR, some "malformed prefix=... directive".toList)
              else Res.ok (p, rc, zErr))
          let (rc, zErr) :=
            if rc = SQLITE_OK ∧ (nPre = 0 ∨ nPre ≥ 1000) then
              (SQLITE_ERROR, some ("prefix length out of range: ".toList ++ Nat.toDigits 10 nPre))
            else (rc, zErr)
          if nPrefix < aPrefix.length then
            prefixLoop fuel rc p (aPrefix.set nPrefix nPre) (nPrefix + 1) zErr
          else .fault .writePastEnd

/-- The loop `for(nArg=0; p && *p; nArg++){ ... }` of the `tokenize` directive.
The state is the cursor `p` and the strings `azArg[0..nArg)`. -/
def tokenizeLoop : Nat → Option Buf → List Text → Res (Option Buf × List Text)
  | 0, _, _ => .fault .fuel
  | _ + 1, none, azArg => .ok (none, azArg)
  | _ + 1, some [], _ => .fault .readPastEnd
  | fuel + 1, some (c :: r), azArg =>
    if c = NUL then .ok (some (c :: r), azArg)
    else do
      let p2 ← skipSpaces (c :: r)
      let p ← (match p2 with
        | [] => Res.fault Fault.readPastEnd
        | c2 :: _ =>
          if c2 = SQ then fts5ConfigSkipLiteral (some p2) else fts5ConfigSkipBareword p2)
      match p with
      | none => tokenizeLoop fuel none azArg
      | some p =>
        let pSpace ← sqlite3Fts5Dequote (between p2 p ++ [NUL])
        let p ← skipSpaces p
        tokenizeLoop fuel (some p) (azArg ++ [cstr pSpace])

/-- Returns `rc`, the updated configuration and `*pzErr`.  `maxPrefix` is
`FTS5_MAX_PREFIX_INDEXES` (declared in `fts5Int.h`, not part of the sources). -/
def fts5ConfigParseSpecial (maxPrefix : Nat) (pGlobal : Fts5Global) (pConfig : Fts5Config)
    (zCmd : Buf) (nCmd : Nat) (zArg : Buf) (zErr : Option Text) :
    Res (Nat × Fts5Config × Option Text) :=
  if sqlite3_strnicmp "prefix".toList zCmd nCmd = 0 then
    match pConfig.aPrefix with
    | some _ =>
      .ok (SQLITE_ERROR, pConfig, some "multiple prefix=... directives".toList)
    | none => do
      let (rc, aPrefix, nPrefix, zErr) ←
        prefixLoop (zArg.length + 1) SQLITE_OK zArg (List.replicate maxPrefix 0)
          pConfig.nPrefix zErr
      pure (rc, { pConfig with aPrefix := some aPrefix, nPrefix := nPrefix }, zErr)
  else if sqlite3_strnicmp "tokenize".toList zCmd nCmd = 0 then do
    let _ ← strlen zArg
    match pConfig.pTok with
    | some _ =>
      pure (SQLITE_ERROR, pConfig, some "multiple tokenize=... directives".toList)
    | none =>
      let (p, azArg) ← tokenizeLoop (zArg.length + 1) (some zArg) []
      match p with
      | none => pure (SQLITE_ERROR, pConfig, some "parse error in tokenize directive".toList)
      | some _ =>
        let (rc, pTok, pTokApi) := pGlobal.sqlite3Fts5GetTokenizer azArg
        pure (rc, { pConfig with pTok := pTok, pTokApi := pTokApi },
          if rc ≠ SQLITE_OK then some "error in tokenizer constructor".toList else zErr)
  else
    .ok (SQLITE_ERROR, pConfig,
      some ("unrecognized directive: \x22".toList ++ cstr zCmd ++ "\x22".toList))

/-! ## The table-argument parser -/

/-- `sqlite3_mprintf("%s", z)`: a fresh buffer holding a copy of the string. -/
def fts5Strdup (z : Text) : Buf := cstr z ++ [NUL]

/-- The tail of the loop body of `sqlite3Fts5ConfigParse`, from
`if( bParseError )` on: `zDup` is the buffer of the argument as rewritten so
far, `zCol` the column name if the argument is one. -/
def configParseColumn (pRet : Fts5Config) (rc : Nat) (zErr : Option Text)
    (bParseError : Nat) (zCol : Option Buf) (zDup : Buf) : Nat × Fts5Config × Option Text :=
  if bParseError ≠ 0 then
    (SQLITE_ERROR, pRet, some ("parse error in \x22".toList ++ cstr zDup ++ "\x22".toList))
  else
    match zCol with
    | some zCol =>
      if 0 = sqlite3_stricmp (cstr zCol) FTS5_RANK_NAME
          ∨ 0 = sqlite3_stricmp (cstr zCol) FTS5_ROWID_NAME then
        (SQLITE_ERROR, pRet, some ("reserved fts5 column name: ".toList ++ cstr zCol))
      else
        (rc, { pRet with azCol := pRet.azCol ++ [cstr zCol], nCol := pRet.nCol + 1 }, zErr)
    | none => (rc, pRet, zErr)

/-- One iteration of the loop `for(i=3; rc==SQLITE_OK && i<nArg; i++)` of
`sqlite3Fts5ConfigParse`, on the argument `azArg[i]`, entered with
`rc==SQLITE_OK`. -/
def configParseArg (maxPrefix : Nat) (pGlobal : Fts5Global) (pRet : Fts5Config)
    (zArg : Text) (zErr : Option Text) : Res (Nat × Fts5Config × Option Text) :=
  let zDup := fts5Strdup zArg
  match zDup with
  | [] => .fault .readPastEnd
  | c0 :: _ =>
    if fts5_isopenquote c0 then do
      let (bParseError, zDup) ← fts5Dequote zDup
      pure (configParseColumn pRet SQLITE_OK zErr bParseError (some zDup) zDup)
    else do
      let z ← fts5ConfigSkipBareword zDup
      match z with
      | none => .fault .nullDeref
      | some [] => .fault .readPastEnd
      | some (c :: z0) =>
        if c = NUL then pure (configParseColumn pRet SQLITE_OK zErr 0 (some zDup) zDup)
        else
          let nCmd := zDup.length - (c :: z0).length
          let z ← skipSpaces (c :: z0)
          match z with
          | [] => .fault .readPastEnd
          | c1 :: z1 =>
            if c1 ≠ '=' then pure (configParseColumn pRet SQLITE_OK zErr 1 none zDup)
            else
              let (zTrim, z) ← fts5TrimString z1
              let zDup := between zDup z1 ++ zTrim
              match z with
              | [] => .fault .readPastEnd
              | c2 :: _ =>
                if fts5_isopenquote c2 then do
                  let (bRet, zDeq) ← fts5Dequote z
                  let zDup := between zDup z ++ zDeq
                  if bRet ≠ 0 then pure (configParseColumn pRet SQLITE_OK zErr 1 none zDup)
                  else fts5ConfigParseSpecial maxPrefix pGlobal pRet zDup nCmd zDeq zErr
                else do
                  let z2 ← fts5ConfigSkipBareword z
                  match z2 with
                  | none => .fault .nullDeref
                  | some [] => .fault .readPastEnd
                  | some (c3 :: _) =>
                    if c3 ≠ NUL then pure (configParseColumn pRet SQLITE_OK zErr 1 none zDup)
                    else fts5ConfigParseSpecial maxPrefix pGlobal pRet zDup nCmd z zErr

/-- The loop `for(i=3; rc==SQLITE_OK && i<nArg; i++)` of `sqlite3Fts5ConfigParse`
over the arguments `azArg[i..nArg)`. -/
def configParseArgs (maxPrefix : Nat) (pGlobal : Fts5Global) :
    List Text → Nat → Fts5Config → Option Text → Res (Nat × Fts5Config × Option Text)
  | [], rc, pRet, zErr => .ok (rc, pRet, zErr)
  | zArg :: rest, rc, pRet, zErr =>
    if rc ≠ SQLITE_OK then .ok (rc, pRet, zErr)
    else do
      let (rc, pRet, zErr) ← configParseArg maxPrefix pGlobal pRet zArg zErr
      configParseArgs maxPrefix pGlobal rest rc pRet zErr

/-- The argument vector `azArg` holds `nArg` strings.  Returns `rc`, `*ppOut`
and `*pzErr` (which the caller passes in as `zErr`, normally `none`). -/
def sqlite3Fts5ConfigParse (maxPrefix : Nat) (pGlobal : Fts5Global) (azArg : List Text)
    (zErr : Option Text) : Res (Nat × Option Fts5Config × Option Text) :=
  match azArg with
  | _ :: zDb :: zName :: rest => do
    let pRet : Fts5Config := { Fts5Config.zero with iCookie := -1, zDb := cstr zDb, zName := cstr zName }
    let (rc, zErr) :=
      if sqlite3_stricmp pRet.zName FTS5_RANK_NAME = 0 then
        (SQLITE_ERROR, some ("reserved fts5 table name: ".toList ++ pRet.zName))
      else (SQLITE_OK, zErr)
    let (rc, pRet, zErr) ← configParseArgs maxPrefix pGlobal rest rc pRet zErr
    let (rc, pRet) :=
      if rc = SQLITE_OK ∧ pRet.pTok = none then
        let (rc, pTok, pTokApi) := pGlobal.sqlite3Fts5GetTokenizer []
        (rc, { pRet with pTok := pTok, pTokApi := pTokApi })
      else (rc, pRet)
    if rc ≠ SQLITE_OK then pure (rc, none, zErr) else pure (rc, some pRet, zErr)
  | _ => .fault .readPastEnd

/-! ## The schema declaration -/

/-- Modelled from the spec: the `%Q` conversion of `sqlite3_mprintf` (SQLite
core, not part of the sources): the string wrapped in single quotes, with
every embedded single quote doubled. -/
def mprintfQ (z : Text) : Text :=
  SQ :: z.flatMap (fun c => if c = SQ then [SQ, SQ] else [c]) ++ [SQ]

/-- The loop `for(i=0; zSql && i<pConfig->nCol; i++)` of
`sqlite3Fts5ConfigDeclareVtab`; `n` is the number of iterations left. -/
def declareVtabLoop (azCol : List Text) : Nat → Nat → Text → Res Text
  | 0, _, zSql => .ok zSql
  | n + 1, i, zSql =>
    match azCol.get? i with
    | none => .fault .readPastEnd
    | some zCol =>
      declareVtabLoop azCol n (i + 1)
        (zSql ++ (if i = 0 then "".toList else ", ".toList) ++ mprintfQ zCol)

/-- The text `zSql` that `sqlite3Fts5ConfigDeclareVtab` hands to
`sqlite3_declare_vtab`. -/
def declareVtabSql (pConfig : Fts5Config) : Res Text := do
  let zSql ← declareVtabLoop pConfig.azCol pConfig.nCol 0 "CREATE TABLE x(".toList
  pure (zSql ++ ", ".toList ++ mprintfQ pConfig.zName ++ " HIDDEN, ".toList
    ++ FTS5_RANK_NAME ++ " HIDDEN)".toList)

/-- Returns `rc`; `sqlite3_declare_vtab` is the host's declaration call, given
here by the result code it returns for a statement text. -/
def sqlite3Fts5ConfigDeclareVtab (sqlite3_declare_vtab : Text → Nat) (pConfig : Fts5Config) :
    Res Nat := do
  let zSql ← declareVtabSql pConfig
  pure (sqlite3_declare_vtab zSql)

/-! ## The rank-spec parser -/

/-- The loop `while( 1 ){ ... }` of `fts5ConfigSkipArgs`, on fuel. -/
def skipArgsLoop : Nat → Option Buf → Res (Option Buf)
  | 0, _ => .fault .fuel
  | fuel + 1, p => do
    let p ← fts5ConfigSkipWhitespace p
    let p ← fts5ConfigSkipLiteral p
    let p ← fts5ConfigSkipWhitespace p
    match p with
    | none => pure none
    | some [] => .fault .readPastEnd
    | some (c :: r) =>
      if c = ')' then pure (some (c :: r))
      else if c ≠ ',' then pure none
      else skipArgsLoop fuel (some r)

def fts5ConfigSkipArgs (pIn : Buf) : Res (Option Buf) :=
  skipArgsLoop (pIn.length + 1) (some pIn)

/-- Returns `rc`, `*pzRank` and `*pzRankArgs`. -/
def fts5ConfigParseRank (zIn : Option Buf) : Res (Nat × Option Text × Option Text) := do
  let p ← fts5ConfigSkipWhitespace zIn
  match p with
  | none => .fault .nullDeref
  | some pRank =>
    let p ← fts5ConfigSkipBareword pRank
    match p with
    | none => pure (SQLITE_ERROR, none, none)
    | some p =>
      let zRank := between pRank p
      let p ← skipSpaces p
      match p with
      | [] => .fault .readPastEnd
      | c :: p =>
        if c ≠ '(' then pure (SQLITE_ERROR, none, none)
        else
          match p with
          | [] => .fault .readPastEnd
          | _ :: _ =>
            let p ← skipSpaces p
            let pArgs := p
            match p with
            | [] => .fault .readPastEnd
            | c :: _ =>
              if c ≠ ')' then do
                let p ← fts5ConfigSkipArgs p
                match p with
                | none => pure (SQLITE_ERROR, none, none)
                | some p =>
                  if p.length ≠ pArgs.length then
                    pure (SQLITE_OK, some zRank, some (between pArgs p))
                  else pure (SQLITE_OK, some zRank, none)
              else pure (SQLITE_OK, some zRank, none)

/-! ## The key/value setter -/

def FTS5_DEFAULT_PAGE_SIZE : Int := 1000
def FTS5_DEFAULT_AUTOMERGE : Int := 4
def FTS5_MAX_PAGE_SIZE : Int := 128 * 1024
def SQLITE_INTEGER : Nat := 1

/-- Modelled from the spec: a `sqlite3_value` of the SQLite core, which is not
part of the sources, given by what its accessors report: the numeric type
(`sqlite3_value_numeric_type`), the value as a 64-bit integer, and the text
(`sqlite3_value_text`, `none` for a NULL pointer). -/
structure sqlite3_value where
  numericType : Nat
  i64 : Int
  zText : Option Text
  deriving DecidableEq, Repr

def sqlite3_value_numeric_type (pVal : sqlite3_value) : Nat := pVal.numericType

/-- Modelled from the spec: `sqlite3_value_int` of the SQLite core, which is not
part of the sources.  The setter receives the value as a C `int`
(`int pgsz = sqlite3_value_int(pVal)`): the 64-bit integer narrowed to 32 bits,
i.e. its residue modulo 2^32 in [-2^31, 2^31). -/
def sqlite3_value_int (pVal : sqlite3_value) : Int :=
  (pVal.i64 + 2 ^ 31) % 2 ^ 32 - 2 ^ 31

/-- The buffer `sqlite3_value_text` returns: the text and its terminator. -/
def sqlite3_value_text (pVal : sqlite3_value) : Option Buf :=
  pVal.zText.map (fun z => cstr z ++ [NUL])

/-- `if( pbBadkey ) *pbBadkey = 1;`, the flag being `none` for a NULL pointer. -/
def setBadkey (pbBadkey : Option Nat) : Option Nat := pbBadkey.map (fun _ => 1)

/-- Returns `rc`, the updated configuration and `*pbBadkey`. -/
def sqlite3Fts5ConfigSetValue (pConfig : Fts5Config) (zKey : Text) (pVal : sqlite3_value)
    (pbBadkey : Option Nat) : Res (Nat × Fts5Config × Option Nat) :=
  if 0 = sqlite3_stricmp zKey "cookie".toList then
    .ok (SQLITE_OK, { pConfig with iCookie := sqlite3_value_int pVal }, pbBadkey)
  else if 0 = sqlite3_stricmp zKey "pgsz".toList then
    let pgsz : Int :=
      if SQLITE_INTEGER = sqlite3_value_numeric_type pVal then sqlite3_value_int pVal else 0
    if pgsz ≤ 0 ∨ pgsz > FTS5_MAX_PAGE_SIZE then .ok (SQLITE_OK, pConfig, setBadkey pbBadkey)
    else .ok (SQLITE_OK, { pConfig with pgsz := pgsz }, pbBadkey)
  else if 0 = sqlite3_stricmp zKey "automerge".toList then
    let nAutomerge : Int :=
      if SQLITE_INTEGER = sqlite3_value_numeric_type pVal then sqlite3_value_int pVal else -1
    if nAutomerge < 0 ∨ nAutomerge > 64 then .ok (SQLITE_OK, pConfig, setBadkey pbBadkey)
    else
      let nAutomerge := if nAutomerge = 1 then FTS5_DEFAULT_AUTOMERGE else nAutomerge
      .ok (SQLITE_OK, { pConfig with nAutomerge := nAutomerge }, pbBadkey)
  else if 0 = sqlite3_stricmp zKey "rank".toList then do
    let (rc, zRank, zRankArgs) ← fts5ConfigParseRank (sqlite3_value_text pVal)
    if rc = SQLITE_OK then
      pure (rc, { pConfig with zRank := zRank, zRankArgs := zRankArgs }, pbBadkey)
    else if rc = SQLITE_ERROR then pure (SQLITE_OK, pConfig, setBadkey pbBadkey)
    else pure (rc, pConfig, pbBadkey)
  else .ok (SQLITE_OK, pConfig, setBadkey pbBadkey)

/-! ## Vocabulary of the specification -/

/-- The closing partner of an opening quote character: `]` for `[`, otherwise
the character itself. -/
def closeQuote (q : Char) : Char := if q = '[' then ']' else q

/-- The text `s` with every occurrence of `c` doubled. -/
def doubleQuotes (c : Char) : Text → Text
  | [] => []
  | x :: s => if x = c then c :: c :: doubleQuotes c s else x :: doubleQuotes c s

/-- The hexadecimal digits. -/
def hexDigits : List Char := "0123456789abcdefABCDEF".toList

/-- The value of a decimal numeral. -/
def decimalValue (ds : Text) : Nat := ds.foldl (fun n c => n * 10 + (c.toNat - '0'.toNat)) 0

/-- A run of `k` spaces. -/
def spaces (k : Nat) : Text := List.replicate k ' '

/-- An entry of a `prefix=` list: the decimal rendering of `n` with `a` spaces
before it and `b` spaces after it; the entry is given as `(a, n, b)`. -/
def prefixEntry (e : Nat × Nat × Nat) : Text := spaces e.1 ++ Nat.toDigits 10 e.2.1 ++ spaces e.2.2

/-- A registry used in examples: it accepts every request and hands back the
number of strings it was given as the tokenizer handle. -/
def sampleGlobal : Fts5Global := ⟨fun azArg => (SQLITE_OK, some azArg.length, some 0)⟩

/-- The array `a` after the values `vs` have been stored from index `k` on. -/
def storeFrom (a : List Nat) (k : Nat) : List Nat → List Nat
  | [] => a
  | v :: vs => storeFrom (a.set k v) (k + 1) vs

/-- The texts `es`, each followed by a comma. -/
def commaRun : List Text → Text
  | [] => []
  | e :: es => e ++ ',' :: commaRun es

/-- The digits `e.2.1` with `e.1` spaces before them and `e.2.2` spaces after
them. -/
def paddedEntry (e : Nat × Text × Nat) : Text := spaces e.1 ++ e.2.1 ++ spaces e.2.2

/-- A column clause and the column name it declares.  A clause is either a
bareword (a non-empty run of bareword characters that does not begin with an
open-quote character, since an argument that begins with one is read as a
quoted name), which declares itself, or a well-formed quoted name: an opening
quote `q`, a NUL-free name `s` with every closing quote doubled, and the
closing quote; it declares `s`. -/
inductive ColumnClause : Text → Text → Prop
  | bareword (c : Char) (w : Text) (hchars : ∀ x ∈ c :: w, isBarewordChar x = true)
      (hq : fts5_isopenquote c = false) : ColumnClause (c :: w) (c :: w)
  | quoted (q : Char) (s : Text) (hq : fts5_isopenquote q = true) (hs : NUL ∉ s) :
      ColumnClause (q :: doubleQuotes (closeQuote q) s ++ [closeQuote q]) s


/-- The sign of a numeric literal: nothing, `+` or `-`. -/
def isSign (s : Text) : Prop := s = [] ∨ s = ['+'] ∨ s = ['-']

/-- The SQL literals of the rank grammar: the keyword `null` in any case; a
blob `x` or `X`, a quote, an even number of hexadecimal digits, a quote; a
string, i.e. a NUL-free text inside single quotes with every embedded quote
doubled; a signed integer; a signed decimal, whose `.` is followed by at least
one digit. -/
inductive SqlLiteral : Text → Prop
  | null (w : Text) (hw : w.map upperToLower = "null".toList) : SqlLiteral w
  | blob (x : Char) (h : Text) (hx : x = 'x' ∨ x = 'X') (hh : ∀ c ∈ h, c ∈ hexDigits)
      (heven : h.length % 2 = 0) : SqlLiteral (x :: SQ :: h ++ [SQ])
  | string (s : Text) (hs : NUL ∉ s) : SqlLiteral (SQ :: doubleQuotes SQ s ++ [SQ])
  | integer (sign ds : Text) (hsign : isSign sign) (hne : ds ≠ [])
      (hds : ∀ c ∈ ds, c.isDigit = true) : SqlLiteral (sign ++ ds)
  | decimal (sign ds fs : Text) (hsign : isSign sign) (hds : ∀ c ∈ ds, c.isDigit = true)
      (hne : fs ≠ []) (hfs : ∀ c ∈ fs, c.isDigit = true) :
      SqlLiteral (sign ++ ds ++ '.' :: fs)

/-- The configuration `sqlite3Fts5ConfigParse` holds when it turns to the
arguments at positions 3 and up. -/
def initialConfig (zDb zName : Text) : Fts5Config :=
  { Fts5Config.zero with iCookie := -1, zDb := cstr zDb, zName := cstr zName }

/-- A token of a `tokenize=` argument and the string it stands for.  A token
is either a bareword (a non-empty run of bareword characters that does not
begin with an open-quote character), which stands for itself, or a well-formed
single-quoted literal: a quote, a NUL-free text `s` with every quote doubled,
and a quote; it stands for `s`. -/
inductive TokenizeToken : Text → Text → Prop
  | bareword (c : Char) (w : Text) (hchars : ∀ x ∈ c :: w, isBarewordChar x = true)
      (hq : fts5_isopenquote c = false) : TokenizeToken (c :: w) (c :: w)
  | quoted (s : Text) (hs : NUL ∉ s) : TokenizeToken (SQ :: doubleQuotes SQ s ++ [SQ]) s

/-- The tokens `ts`, each followed by a run of at least one space: the token
`e.1` is followed by `e.2 + 1` spaces. -/
def spacedRun (ts : List (Text × Nat)) : Text := ts.flatMap (fun e => e.1 ++ spaces (e.2 + 1))
/-! ## Basic facts -/

@[simp] theorem bind_ok {α β : Type} (a : α) (f : α → Res β) : (Res.ok a >>= f) = f a := rfl

@[simp] theorem bind_fault {α β : Type} (e : Fault) (f : α → Res β) :
    (Res.fault e >>= f) = Res.fault e := rfl

@[simp] theorem pure_eq_ok {α : Type} (a : α) : (pure a : Res α) = Res.ok a := rfl

theorem char_eq_of_toNat (c : Char) (n : Nat) (h : c.toNat = n) : c = Char.ofNat n := by
  rw [← h, Char.ofNat_toNat]

theorem char_le_iff (a b : Char) : a ≤ b ↔ a.toNat ≤ b.toNat := by
  rw [Char.le_def]
  exact Iff.rfl

theorem isHexChar_iff (c : Char) : isHexChar c = true ↔ c ∈ hexDigits := by
  constructor
  · intro h
    simp only [isHexChar, Bool.or_eq_true, Bool.and_eq_true, decide_eq_true_eq, char_le_iff,
      show 'a'.toNat = 97 from rfl, show 'f'.toNat = 102 from rfl, show 'A'.toNat = 65 from rfl,
      show 'F'.toNat = 70 from rfl, show '0'.toNat = 48 from rfl, show '9'.toNat = 57 from rfl] at h
    have e := char_eq_of_toNat c
    generalize c.toNat = n at h e
    have hn : n ∈ [48,49,50,51,52,53,54,55,56,57,97,98,99,100,101,102,65,66,67,68,69,70] := by
      simp only [List.mem_cons, List.mem_singleton, List.not_mem_nil, or_false]
      omega
    simp only [List.mem_cons, List.mem_singleton, List.not_mem_nil, or_false] at hn
    rcases hn with h | h | h | h | h | h | h | h | h | h | h | h | h | h | h | h | h | h | h | h | h | h <;>
      (rw [e n rfl, h]; decide)
  · intro h
    simp only [hexDigits, String.toList] at h
    simp only [List.mem_cons, List.mem_singleton, List.not_mem_nil, or_false] at h
    rcases h with h | h | h | h | h | h | h | h | h | h | h | h | h | h | h | h | h | h | h | h | h | h <;>
      (rw [h]; decide)

theorem isdigit_iff (c : Char) : fts5_isdigit c = true ↔ c.isDigit = true := by
  simp only [fts5_isdigit, Char.isDigit, Bool.and_eq_true, decide_eq_true_eq, char_le_iff,
    show '0'.toNat = 48 from rfl, show '9'.toNat = 57 from rfl, ge_iff_le, UInt32.le_def]
  exact Iff.rfl

theorem cstr_append_nul (s : Text) (hs : NUL ∉ s) (r : Buf) : cstr (s ++ NUL :: r) = s := by
  induction s with
  | nil => simp [cstr]
  | cons x s ih =>
    have hx : x ≠ NUL := fun h => hs (by simp [h])
    have hs2 : NUL ∉ s := fun h => hs (by simp [h])
    have := ih hs2
    simp only [cstr] at this ⊢
    simp [hx, this]

theorem cstr_of_nul_free (s : Text) (hs : NUL ∉ s) : cstr s = s := by
  have := cstr_append_nul s hs []
  induction s with
  | nil => simp [cstr]
  | cons x s ih =>
    have hx : x ≠ NUL := fun h => hs (by simp [h])
    have hs2 : NUL ∉ s := fun h => hs (by simp [h])
    have h2 := ih hs2 (cstr_append_nul s hs2 [])
    simp only [cstr] at h2 ⊢
    simp [hx, h2]

theorem openquote_cases (q : Char) (hq : fts5_isopenquote q = true) :
    q = DQ ∨ q = SQ ∨ q = '[' ∨ q = BQ := by
  simpa [fts5_isopenquote, or_assoc] using hq

theorem closeQuote_ne_nul (q : Char) (hq : fts5_isopenquote q = true) : closeQuote q ≠ NUL := by
  rcases openquote_cases q hq with h | h | h | h <;> subst h <;> decide

theorem openquote_ne_nul (q : Char) (hq : fts5_isopenquote q = true) : q ≠ NUL := by
  rcases openquote_cases q hq with h | h | h | h <;> subst h <;> decide

/-! ## Dequoting -/

theorem dequoteLoop_other (q c : Char) (r : Buf) (out : Text) (h0 : c ≠ NUL) (hq : c ≠ q) :
    dequoteLoop q (c :: r) out = dequoteLoop q r (out ++ [c]) := by
  cases r <;> simp [dequoteLoop, h0, hq]

theorem dequoteLoop_doubled (c : Char) (hc : c ≠ NUL) (s : Text) (hs : NUL ∉ s) (out : Text)
    (tl : Buf) :
    dequoteLoop c (doubleQuotes c s ++ c :: NUL :: tl) out = .ok (0, out ++ s) := by
  induction s generalizing out with
  | nil => simp [doubleQuotes, dequoteLoop, hc, Ne.symm hc]
  | cons x s ih =>
    have hx : x ≠ NUL := fun h => hs (by simp [h])
    have hs2 : NUL ∉ s := fun h => hs (by simp [h])
    by_cases hxc : x = c
    · subst hxc
      simp [doubleQuotes, dequoteLoop, hx, ih hs2]
    · simp [doubleQuotes, hxc, dequoteLoop_other c x _ out hx hxc, ih hs2]

theorem doubled_shape (c x : Char) (r : Text) :
    (∃ s, x :: r = doubleQuotes c s ++ [c]) ↔
      (x = c ∧ r = []) ∨ (x ≠ c ∧ ∃ s, r = doubleQuotes c s ++ [c])
        ∨ (x = c ∧ ∃ r2, r = c :: r2 ∧ ∃ s, r2 = doubleQuotes c s ++ [c]) := by
  constructor
  · rintro ⟨s, hs⟩
    cases s with
    | nil => simp [doubleQuotes] at hs; exact Or.inl hs
    | cons y s =>
      by_cases hy : y = c
      · subst hy
        simp [doubleQuotes] at hs
        exact Or.inr (Or.inr ⟨hs.1, _, hs.2, s, rfl⟩)
      · simp [doubleQuotes, hy] at hs
        exact Or.inr (Or.inl ⟨by rw [hs.1]; exact hy, s, hs.2⟩)
  · rintro (⟨h1, h2⟩ | ⟨h1, s, h2⟩ | ⟨h1, r2, h2, s, h3⟩)
    · exact ⟨[], by simp [doubleQuotes, h1, h2]⟩
    · exact ⟨x :: s, by simp [doubleQuotes, h1, h2]⟩
    · exact ⟨c :: s, by simp [doubleQuotes, h1, h2, h3]⟩

theorem dequoteLoop_wellformed (c : Char) (n : Nat) :
    ∀ (body : Text), body.length ≤ n → NUL ∉ body → ∀ out : Text,
      ∃ b o, dequoteLoop c (body ++ [NUL]) out = .ok (b, o) ∧
        (b = 0 ↔ ∃ s, body = doubleQuotes c s ++ [c]) := by
  induction n with
  | zero =>
    intro body hl _ out
    have : body = [] := List.length_eq_zero.mp (Nat.le_zero.mp hl)
    subst this
    exact ⟨1, out, by simp [dequoteLoop], by simp⟩
  | succ n ih =>
    intro body hl hb out
    cases body with
    | nil => exact ⟨1, out, by simp [dequoteLoop], by simp⟩
    | cons x r =>
      have hx : x ≠ NUL := fun h => hb (by simp [h])
      have hr : NUL ∉ r := fun h => hb (by simp [h])
      by_cases hxc : x = c
      · subst hxc
        cases r with
        | nil =>
          refine ⟨0, out, by simp [dequoteLoop, hx, Ne.symm hx], ?_⟩
          simp only [true_iff]
          exact ⟨[], by simp [doubleQuotes]⟩
        | cons d r2 =>
          have hd : d ≠ NUL := fun h => hr (by simp [h])
          have hr2 : NUL ∉ r2 := fun h => hr (by simp [h])
          by_cases hdc : d = x
          · subst hdc
            obtain ⟨b, o, h1, h2⟩ := ih r2 (by simp at hl; omega) hr2 (out ++ [d])
            refine ⟨b, o, by simp [dequoteLoop, hx, h1], ?_⟩
            rw [h2, doubled_shape d d (d :: r2)]
            simp
          · refine ⟨1, out, by simp [dequoteLoop, hx, hdc, hd], ?_⟩
            rw [doubled_shape x x (d :: r2)]
            simp [hdc]
      · obtain ⟨b, o, h1, h2⟩ := ih r (by simp at hl; omega) hr (out ++ [x])
        refine ⟨b, o, by simp [dequoteLoop_other c x _ out hx hxc, h1], ?_⟩
        rw [h2, doubled_shape c x r]
        simp [hxc]

theorem fts5Dequote_doubled (q : Char) (s : Text) (hq : fts5_isopenquote q = true)
    (hs : NUL ∉ s) (tl : Buf) :
    ∃ z, fts5Dequote (q :: doubleQuotes (closeQuote q) s ++ closeQuote q :: NUL :: tl)
        = .ok (0, s ++ NUL :: z) := by
  have h := dequoteLoop_doubled (closeQuote q) (closeQuote_ne_nul q hq) s hs [] tl
  simp only [closeQuote] at h
  simp only [fts5Dequote, closeQuote, List.cons_append, h, bind_ok, pure_eq_ok, List.nil_append]
  exact ⟨_, rfl⟩

/-- C7: for every quote character `q` among the double quote, the single quote,
the back quote and `[`, with closing partner `c`, and every NUL-free body `s`,
`fts5Dequote` applied to the text `q ++ s' ++ c` (`s'` being `s` with every
occurrence of `c` doubled) reports well-formed (returns 0) and rewrites the
text to exactly `s`. -/
theorem fts5Dequote_roundtrip (q : Char) (s : Text) (hq : fts5_isopenquote q = true)
    (hs : NUL ∉ s) :
    ∃ z, fts5Dequote (q :: doubleQuotes (closeQuote q) s ++ [closeQuote q] ++ [NUL]) = .ok (0, z)
      ∧ cstr z = s := by
  obtain ⟨z, hz⟩ := fts5Dequote_doubled q s hq hs []
  refine ⟨s ++ NUL :: z, ?_, cstr_append_nul s hs z⟩
  simpa using hz

/-- C7 at the three examples of the specification: `"a""b"` becomes `a"b`,
`'it''s'` becomes `it's`, and `[name]` becomes `name`. -/
theorem fts5Dequote_roundtrip_witness :
    (fts5_isopenquote DQ = true ∧ NUL ∉ "a\x22b".toList ∧
      ∃ z, fts5Dequote "\x22a\x22\x22b\x22\x00".toList = .ok (0, z) ∧ cstr z = "a\x22b".toList) ∧
    (∃ z, fts5Dequote "\x27it\x27\x27s\x27\x00".toList = .ok (0, z) ∧ cstr z = "it\x27s".toList) ∧
    (∃ z, fts5Dequote "[name]\x00".toList = .ok (0, z) ∧ cstr z = "name".toList) :=
  ⟨⟨by decide, by decide, fts5Dequote_roundtrip DQ "a\x22b".toList (by decide) (by decide)⟩,
   fts5Dequote_roundtrip SQ "it\x27s".toList (by decide) (by decide),
   fts5Dequote_roundtrip '[' "name".toList (by decide) (by decide)⟩

/-- C8: for every text that begins with one of the four quote characters,
`fts5Dequote` reports well-formed (returns 0) exactly when the rest of the text
is a run of characters in which every closing quote is doubled, followed by one
closing quote that ends the text, i.e. when the first unescaped closing quote
is the last character of the text.  In every other case (no unescaped closing
quote before the end, a final quote that is the second half of a doubled
quote, or any character after the closing quote) it reports malformed. -/
theorem fts5Dequote_wellformed_iff (q : Char) (body : Text) (hq : fts5_isopenquote q = true)
    (hb : NUL ∉ body) :
    ∃ bRet z, fts5Dequote (q :: body ++ [NUL]) = .ok (bRet, z) ∧
      (bRet = 0 ↔ ∃ s, body = doubleQuotes (closeQuote q) s ++ [closeQuote q]) := by
  obtain ⟨b, o, h1, h2⟩ := dequoteLoop_wellformed (closeQuote q) body.length body le_rfl hb []
  simp only [closeQuote] at h1
  refine ⟨b, o ++ NUL :: (q :: body ++ [NUL]).drop (o.length + 1), ?_, h2⟩
  simp only [fts5Dequote, List.cons_append, h1, bind_ok, pure_eq_ok]

/-- C8 at the unterminated text `'a''`, whose final quote is the second half
of a doubled quote: it is reported malformed. -/
theorem fts5Dequote_wellformed_iff_witness :
    fts5_isopenquote SQ = true ∧ NUL ∉ "a\x27\x27".toList ∧
      ∃ bRet z, fts5Dequote (SQ :: "a\x27\x27".toList ++ [NUL]) = .ok (bRet, z) ∧
        (bRet = 0 ↔ ∃ s, "a\x27\x27".toList = doubleQuotes (closeQuote SQ) s ++ [closeQuote SQ]) :=
  ⟨by decide, by decide, fts5Dequote_wellformed_iff SQ "a\x27\x27".toList (by decide) (by decide)⟩

/-! ## Literals -/

/-- C9: on the one-character text `'` the string case of
`fts5ConfigSkipLiteral` steps over the terminator and reads the byte that
follows it, which lies beyond the text: the scan does not return failure, it
reads past the end.  On every other text that begins with a single quote the
scan stays inside the text (`stringLoop_terminated`, `stringLoop_unterminated`
below). -/
theorem skipLiteral_lone_quote_reads_past_end :
    fts5ConfigSkipLiteral (some ("\x27".toList ++ [NUL])) = .fault .readPastEnd := by
  decide

theorem stringLoop_other (c : Char) (d : Char) (r : Buf) (hc : c ≠ SQ) (hd : d ≠ NUL) :
    stringLoop (c :: d :: r) = stringLoop (d :: r) := by
  rw [stringLoop.eq_def]
  simp [hc, hd]

theorem stringLoop_pair (e : Char) (r : Buf) (he : e ≠ NUL) :
    stringLoop (SQ :: SQ :: e :: r) = stringLoop (e :: r) := by
  rw [stringLoop.eq_def]
  simp [he]

/-- The string case of `fts5ConfigSkipLiteral` on a terminated string: the
body `s` with its quotes doubled, the closing quote, and a rest that does not
begin with a quote.  The cursor is left just past the closing quote. -/
theorem stringLoop_terminated (s : Text) (hs : NUL ∉ s) (d : Char) (tl : Buf) (hd : d ≠ SQ) :
    stringLoop (doubleQuotes SQ s ++ SQ :: d :: tl) = .ok (some (d :: tl)) := by
  induction s with
  | nil =>
    rw [stringLoop.eq_def]
    simp [doubleQuotes, hd]
  | cons x s ih =>
    have hs2 : NUL ∉ s := fun h => hs (by simp [h])
    obtain ⟨e, r, he, hne⟩ : ∃ e r, doubleQuotes SQ s ++ SQ :: d :: tl = e :: r ∧ e ≠ NUL := by
      cases s with
      | nil => exact ⟨SQ, d :: tl, by simp [doubleQuotes], by decide⟩
      | cons y s =>
        have hy : y ≠ NUL := fun h => hs2 (by simp [h])
        by_cases hyq : y = SQ
        · exact ⟨SQ, SQ :: (doubleQuotes SQ s ++ SQ :: d :: tl), by simp [doubleQuotes, hyq],
            by decide⟩
        · exact ⟨y, doubleQuotes SQ s ++ SQ :: d :: tl, by simp [doubleQuotes, hyq], hy⟩
    have ih2 := ih hs2
    rw [he] at ih2
    by_cases hxq : x = SQ
    · subst hxq
      simp only [doubleQuotes, if_true, List.cons_append, he]
      rw [stringLoop_pair e r hne, ih2]
    · simp only [doubleQuotes, hxq, if_false, List.cons_append, he]
      rw [stringLoop_other x e r hxq hne, ih2]

/-- The string case of `fts5ConfigSkipLiteral` on an unterminated string with
a non-empty body (every quote of the body is one half of a doubled quote): the
scan fails. -/
theorem stringLoop_unterminated (s : Text) (hs : NUL ∉ s) (hne : s ≠ []) :
    stringLoop (doubleQuotes SQ s ++ [NUL]) = .ok none := by
  induction s with
  | nil => exact absurd rfl hne
  | cons x s ih =>
    have hs2 : NUL ∉ s := fun h => hs (by simp [h])
    cases s with
    | nil =>
      by_cases hxq : x = SQ
      · rw [stringLoop.eq_def]
        simp [doubleQuotes, hxq]
      · rw [stringLoop.eq_def]
        simp [doubleQuotes, hxq]
    | cons y s =>
      have hy : y ≠ NUL := fun h => hs2 (by simp [h])
      have ih2 := ih hs2 (by simp)
      obtain ⟨e, r, he, hen⟩ : ∃ e r, doubleQuotes SQ (y :: s) ++ [NUL] = e :: r ∧ e ≠ NUL := by
        by_cases hyq : y = SQ
        · exact ⟨SQ, SQ :: (doubleQuotes SQ s ++ [NUL]), by simp [doubleQuotes, hyq], by decide⟩
        · exact ⟨y, doubleQuotes SQ s ++ [NUL], by simp [doubleQuotes, hyq], hy⟩
      rw [he] at ih2
      by_cases hxq : x = SQ
      · subst hxq
        rw [show doubleQuotes SQ (SQ :: y :: s) ++ [NUL]
          = SQ :: SQ :: (doubleQuotes SQ (y :: s) ++ [NUL]) by simp [doubleQuotes], he,
          stringLoop_pair e r hen, ih2]
      · rw [show doubleQuotes SQ (x :: y :: s) ++ [NUL]
          = x :: (doubleQuotes SQ (y :: s) ++ [NUL]) by simp [doubleQuotes, hxq], he,
          stringLoop_other x e r hxq hen, ih2]

theorem hexLoop_run (h : Text) (e : Char) (r : Buf) (hh : ∀ c ∈ h, isHexChar c = true)
    (he : isHexChar e = false) : hexLoop (h ++ e :: r) = .ok (e :: r) := by
  induction h with
  | nil => simp [hexLoop, he]
  | cons x h ih =>
    have hx : isHexChar x = true := hh x (by simp)
    simp [hexLoop, hx, ih (fun c hc => hh c (by simp [hc]))]

theorem hexLoop_dropWhile (r : Text) :
    hexLoop (r ++ [NUL]) = .ok (r.dropWhile isHexChar ++ [NUL]) := by
  induction r with
  | nil => simp [hexLoop, show isHexChar NUL = false by decide]
  | cons x r ih =>
    by_cases hx : isHexChar x = true
    · simp [hexLoop, hx, ih, List.dropWhile]
    · simp [hexLoop, hx, List.dropWhile]

/-- C10: for every text that begins with `x` or `X`, `fts5ConfigSkipLiteral`
succeeds exactly when the text continues with a single quote, a run of
hexadecimal digits of even length (possibly empty) and a single quote; it then
returns the cursor just past that closing quote.  In every other case (an odd
number of digits, a run not followed by a single quote, a second character
that is not a single quote) it returns failure. -/
theorem skipLiteral_blob (x : Char) (rest : Text) (hx : x = 'x' ∨ x = 'X') :
    (∀ h tail, rest = SQ :: h ++ SQ :: tail → (∀ c ∈ h, c ∈ hexDigits) → h.length % 2 = 0 →
        fts5ConfigSkipLiteral (some (x :: rest ++ [NUL])) = .ok (some (tail ++ [NUL]))) ∧
    ((¬ ∃ h tail, rest = SQ :: h ++ SQ :: tail ∧ (∀ c ∈ h, c ∈ hexDigits) ∧ h.length % 2 = 0) →
        fts5ConfigSkipLiteral (some (x :: rest ++ [NUL])) = .ok none) := by
  have hn : ¬ (x = 'n' ∨ x = 'N') := by rcases hx with h | h <;> subst h <;> decide
  constructor
  · intro h tail hrest hh hlen
    subst hrest
    have hl := hexLoop_run h SQ (tail ++ [NUL]) (fun c hc => (isHexChar_iff c).mpr (hh c hc))
      (by decide)
    simp only [fts5ConfigSkipLiteral, hn, hx, if_true, if_false, List.cons_append,
      List.append_assoc, hl, bind_ok, pure_eq_ok]
    have : (x :: SQ :: (h ++ SQ :: (tail ++ [NUL]))).length - (SQ :: (tail ++ [NUL])).length
        = h.length + 2 := by
      simp only [List.length_cons, List.length_append, List.length_nil]
      omega
    rw [this]
    have h2 : (h.length + 2) % 2 = 0 := by omega
    simp [h2]
  · intro hno
    cases rest with
    | nil => simp [fts5ConfigSkipLiteral, hn, hx, show NUL ≠ SQ by decide]
    | cons d r1 =>
      by_cases hd : d = SQ
      · subst hd
        simp only [fts5ConfigSkipLiteral, hn, hx, if_true, if_false, List.cons_append,
          hexLoop_dropWhile, bind_ok, pure_eq_ok]
        have hsplit : r1 = r1.takeWhile isHexChar ++ r1.dropWhile isHexChar :=
          (List.takeWhile_append_dropWhile isHexChar r1).symm
        cases hdw : r1.dropWhile isHexChar with
        | nil => simp [show NUL ≠ SQ by decide]
        | cons e tl =>
          by_cases he : e = SQ
          · subst he
            have hlen : (x :: SQ :: (r1 ++ [NUL])).length - (SQ :: tl ++ [NUL]).length
                = (r1.takeWhile isHexChar).length + 2 := by
              have := congrArg List.length hsplit
              rw [hdw] at this
              simp only [List.length_cons, List.length_append, List.length_nil] at this ⊢
              omega
            by_cases hpar : (r1.takeWhile isHexChar).length % 2 = 0
            · exfalso
              apply hno
              refine ⟨r1.takeWhile isHexChar, tl, ?_, ?_, hpar⟩
              · show SQ :: r1 = SQ :: (r1.takeWhile isHexChar ++ SQ :: tl)
                rw [← hdw, ← hsplit]
              · intro c hc
                exact (isHexChar_iff c).mp (List.mem_takeWhile_imp hc)
            · simp only [List.cons_append] at hlen ⊢
              rw [hlen]
              simp only [true_and, ite_eq_right_iff, reduceCtorEq, imp_false]
              omega
          · simp [he]
      · simp [fts5ConfigSkipLiteral, hn, hx, hd]

/-- C10 at the two examples of the specification: `x'AB12'` is accepted with
the cursor at the end of the text, and `x'A'` (odd digit count) is rejected. -/
theorem skipLiteral_blob_witness :
    ('x' = 'x' ∨ 'x' = 'X') ∧
    fts5ConfigSkipLiteral (some ("x\x27AB12\x27".toList ++ [NUL])) = .ok (some [NUL]) ∧
    fts5ConfigSkipLiteral (some ("x\x27A\x27".toList ++ [NUL])) = .ok none :=
  ⟨Or.inl rfl,
   (skipLiteral_blob 'x' "\x27AB12\x27".toList (Or.inl rfl)).1 "AB12".toList [] rfl
     (by decide) (by decide),
   by decide⟩

/-! ## The `prefix` directive -/

theorem skipSpaces_stop (c : Char) (r : Buf) (hc : c ≠ ' ') : skipSpaces (c :: r) = .ok (c :: r) := by
  simp [skipSpaces, fts5_iswhitespace, hc]

theorem skipSpaces_spaces (k : Nat) (c : Char) (r : Buf) (hc : c ≠ ' ') :
    skipSpaces (spaces k ++ c :: r) = .ok (c :: r) := by
  induction k with
  | zero => simpa [spaces] using skipSpaces_stop c r hc
  | succ k ih =>
    simp only [spaces] at ih
    simp [spaces, List.replicate_succ, skipSpaces, fts5_iswhitespace, ih]

theorem isDigit_iff (c : Char) : c.isDigit = true ↔ ('0' ≤ c ∧ c ≤ '9') := by
  rw [← isdigit_iff]
  simp [fts5_isdigit]

theorem le_foldl_digits (ds : Text) (acc : Nat) :
    acc ≤ ds.foldl (fun n c => n * 10 + (c.toNat - '0'.toNat)) acc := by
  induction ds generalizing acc with
  | nil => simp
  | cons d ds ih =>
    simp only [List.foldl_cons]
    exact le_trans (by omega) (ih _)

theorem prefixDigits_all (ds : Text) (e : Char) (r : Buf) (acc : Nat)
    (hds : ∀ c ∈ ds, c.isDigit = true) (he : e.isDigit = false)
    (hv : ds ≠ [] → ds.foldl (fun n c => n * 10 + (c.toNat - '0'.toNat)) acc < 10000) :
    prefixDigits acc (ds ++ e :: r)
      = .ok (ds.foldl (fun n c => n * 10 + (c.toNat - '0'.toNat)) acc, e :: r) := by
  induction ds generalizing acc with
  | nil =>
    have : ¬ ('0' ≤ e ∧ e ≤ '9') := by
      rw [← isDigit_iff]; simp [he]
    simp only [List.nil_append, prefixDigits, List.foldl_nil]
    rw [if_neg (fun h => this ⟨h.1, h.2.1⟩)]
  | cons d ds ih =>
    have hd : '0' ≤ d ∧ d ≤ '9' := (isDigit_iff d).mp (hds d (by simp))
    have hv1 := hv (by simp)
    simp only [List.foldl_cons] at hv1
    have hacc : acc < 1000 := by
      have := le_foldl_digits ds (acc * 10 + (d.toNat - '0'.toNat))
      omega
    simp only [List.cons_append, prefixDigits, List.foldl_cons]
    rw [if_pos ⟨hd.1, hd.2, hacc⟩]
    exact ih _ (fun c hc => hds c (by simp [hc])) (fun _ => hv1)

theorem prefixDigits_saturates (ds : Text) (tl : Buf) (acc : Nat)
    (hds : ∀ c ∈ ds, c.isDigit = true) (hacc : acc < 1000)
    (hv : 10000 ≤ ds.foldl (fun n c => n * 10 + (c.toNat - '0'.toNat)) acc) :
    ∃ n d r, prefixDigits acc (ds ++ tl) = .ok (n, d :: r) ∧ d.isDigit = true := by
  induction ds generalizing acc with
  | nil => simp at hv; omega
  | cons d ds ih =>
    have hd : '0' ≤ d ∧ d ≤ '9' := (isDigit_iff d).mp (hds d (by simp))
    have h0 : '0'.toNat = 48 := rfl
    have hd9 : d.toNat - '0'.toNat ≤ 9 := by
      have := (char_le_iff d '9').mp hd.2
      have h9 : '9'.toNat = 57 := rfl
      omega
    simp only [List.cons_append, prefixDigits]
    rw [if_pos ⟨hd.1, hd.2, hacc⟩]
    simp only [List.foldl_cons] at hv
    by_cases hlt : acc * 10 + (d.toNat - '0'.toNat) < 1000
    · exact ih _ (fun c hc => hds c (by simp [hc])) hlt hv
    · cases ds with
      | nil =>
        simp only [List.foldl_nil] at hv
        omega
      | cons d2 ds2 =>
        refine ⟨acc * 10 + (d.toNat - '0'.toNat), d2, ds2 ++ tl, ?_, hds d2 (by simp)⟩
        show prefixDigits _ (d2 :: (ds2 ++ tl)) = _
        simp only [prefixDigits]
        rw [if_neg (fun h => hlt h.2.2)]

theorem digit_ne_space (c : Char) (h : c.isDigit = true) : c ≠ ' ' := by
  rintro rfl; exact absurd h (by decide)

theorem digit_ne_nul (c : Char) (h : c.isDigit = true) : c ≠ NUL := by
  rintro rfl; exact absurd h (by decide)

theorem spaces_cons_head (b : Nat) (t : Char) (rest : Buf) :
    ∃ e r, spaces b ++ t :: rest = e :: r ∧ (e = ' ' ∨ e = t) := by
  cases b with
  | zero => exact ⟨t, rest, by simp [spaces], Or.inr rfl⟩
  | succ b => exact ⟨' ', spaces b ++ t :: rest, by simp [spaces, List.replicate_succ], Or.inl rfl⟩

/-- One iteration of the loop of the `prefix` directive on an entry whose
digits are all consumed: the entry is `a` spaces, the digits `ds`, `b` spaces,
and it is followed by a comma or by the end of the text. -/
theorem prefixLoop_entry (fuel a b : Nat) (ds : Text) (t : Char) (rest : Buf)
    (arr : List Nat) (k : Nat) (zErr : Option Text)
    (hne : ds ≠ []) (hds : ∀ c ∈ ds, c.isDigit = true) (hv : decimalValue ds < 10000)
    (ht : t = ',' ∨ t = NUL) :
    prefixLoop (fuel + 1) SQLITE_OK (spaces a ++ ds ++ spaces b ++ t :: rest) arr k zErr =
      if k < arr.length then
        prefixLoop fuel
          (if decimalValue ds = 0 ∨ decimalValue ds ≥ 1000 then SQLITE_ERROR else SQLITE_OK)
          (if t = ',' then rest else t :: rest)
          (arr.set k (decimalValue ds)) (k + 1)
          (if decimalValue ds = 0 ∨ decimalValue ds ≥ 1000 then
            some ("prefix length out of range: ".toList ++ Nat.toDigits 10 (decimalValue ds))
          else zErr)
      else .fault .writePastEnd := by
  obtain ⟨d0, ds', rfl⟩ := List.exists_cons_of_ne_nil hne
  have hd0 : d0.isDigit = true := hds d0 (by simp)
  have ht_sp : t ≠ ' ' := by rcases ht with h | h <;> subst h <;> decide
  have ht_dig : t.isDigit = false := by rcases ht with h | h <;> subst h <;> decide
  obtain ⟨e, r, her, he⟩ := spaces_cons_head b t rest
  have he_dig : e.isDigit = false := by
    rcases he with h | h
    · subst h; decide
    · subst h; exact ht_dig
  have h1 : skipSpaces (spaces a ++ (d0 :: ds') ++ spaces b ++ t :: rest)
      = .ok ((d0 :: ds') ++ (spaces b ++ t :: rest)) := by
    have := skipSpaces_spaces a d0 (ds' ++ (spaces b ++ t :: rest)) (digit_ne_space d0 hd0)
    simpa [List.append_assoc] using this
  have h2 : prefixDigits 0 ((d0 :: ds') ++ (spaces b ++ t :: rest))
      = .ok (decimalValue (d0 :: ds'), spaces b ++ t :: rest) := by
    rw [her]
    exact prefixDigits_all (d0 :: ds') e r 0 hds he_dig (fun _ => hv)
  have h3 : skipSpaces (spaces b ++ t :: rest) = .ok (t :: rest) :=
    skipSpaces_spaces b t rest ht_sp
  have hhead : ∃ c p, spaces a ++ (d0 :: ds') ++ spaces b ++ t :: rest = c :: p ∧ c ≠ NUL := by
    cases a with
    | zero =>
      exact ⟨d0, ds' ++ spaces b ++ t :: rest, by simp [spaces], digit_ne_nul d0 hd0⟩
    | succ a =>
      exact ⟨' ', spaces a ++ (d0 :: ds') ++ spaces b ++ t :: rest,
        by simp [spaces, List.replicate_succ], by decide⟩
  obtain ⟨c, p, hp, hc⟩ := hhead
  rw [hp] at h1 ⊢
  simp only [prefixLoop, ne_eq, not_true_eq_false, if_false, hc, h1, bind_ok, h2, h3]
  rcases ht with h | h
  · subst h
    simp only [if_true, bind_ok, true_and]
    by_cases hk : k < arr.length
    · by_cases hr : decimalValue (d0 :: ds') = 0 ∨ decimalValue (d0 :: ds') ≥ 1000 <;>
        simp [hr, hk]
    · simp [hk]
  · subst h
    simp only [show ¬ (NUL = ',') by decide, if_false, not_true_eq_false, bind_ok, if_true,
      true_and]
    by_cases hk : k < arr.length
    · by_cases hr : decimalValue (d0 :: ds') = 0 ∨ decimalValue (d0 :: ds') ≥ 1000 <;>
        simp [hr, hk]
    · simp [hk]

theorem length_storeFrom (vs : List Nat) (arr : List Nat) (k : Nat) :
    (storeFrom arr k vs).length = arr.length := by
  induction vs generalizing arr k with
  | nil => rfl
  | cons v vs ih => simp [storeFrom, ih]

theorem take_set_succ (arr : List Nat) (k v : Nat) (hk : k < arr.length) :
    (arr.set k v).take (k + 1) = arr.take k ++ [v] := by
  rw [List.set_eq_take_append_cons_drop, if_pos hk]
  have hl : (arr.take k).length = k := by simp; omega
  rw [List.take_append_eq_append_take, hl]
  simp [List.take_take, hl]

theorem take_storeFrom (vs : List Nat) (arr : List Nat) (k : Nat)
    (h : k + vs.length ≤ arr.length) :
    (storeFrom arr k vs).take (k + vs.length) = arr.take k ++ vs := by
  induction vs generalizing arr k with
  | nil => simp [storeFrom]
  | cons v vs ih =>
    simp only [List.length_cons] at h
    have hk : k < arr.length := by omega
    have := ih (arr.set k v) (k + 1) (by simp; omega)
    simp only [storeFrom, List.length_cons]
    rw [show k + (vs.length + 1) = k + 1 + vs.length by omega, this, take_set_succ arr k v hk]
    simp

theorem intercalate_comma_append (pre : List Text) (x : Text) (post : List Text) :
    List.intercalate [','] (pre ++ x :: post) = commaRun pre ++ List.intercalate [','] (x :: post) := by
  induction pre with
  | nil => simp [commaRun]
  | cons e pre ih =>
    cases pre with
    | nil => simp [commaRun, List.intercalate]
    | cons e2 pre2 =>
      have : List.intercalate [','] (e :: e2 :: (pre2 ++ x :: post))
          = e ++ ',' :: List.intercalate [','] (e2 :: (pre2 ++ x :: post)) := by
        simp [List.intercalate]
      simp only [List.cons_append] at ih ⊢
      rw [this, ih]
      simp [commaRun]

/-- The loop of the `prefix` directive over a run of valid entries, each
followed by a comma: one iteration per entry, and the values are stored in
order from index `k` on. -/
theorem prefixLoop_valid_run (es : List (Nat × Text × Nat))
    (hvalid : ∀ e ∈ es, e.2.1 ≠ [] ∧ (∀ c ∈ e.2.1, c.isDigit = true)
      ∧ 1 ≤ decimalValue e.2.1 ∧ decimalValue e.2.1 ≤ 999)
    (fuel : Nat) (rest : Buf) (arr : List Nat) (k : Nat) (zErr : Option Text)
    (hk : k + es.length ≤ arr.length) :
    prefixLoop (fuel + es.length) SQLITE_OK (commaRun (es.map paddedEntry) ++ rest) arr k zErr
      = prefixLoop fuel SQLITE_OK rest
          (storeFrom arr k (es.map (fun e => decimalValue e.2.1))) (k + es.length) zErr := by
  induction es generalizing arr k with
  | nil => simp [commaRun, storeFrom]
  | cons e es ih =>
    obtain ⟨hne, hds, h1, h999⟩ := hvalid e (by simp)
    simp only [List.length_cons] at hk
    have hstep := prefixLoop_entry (fuel + es.length) e.1 e.2.2 e.2.1 ',' (commaRun (es.map paddedEntry) ++ rest)
      arr k zErr hne hds (by omega) (Or.inl rfl)
    have hnr : ¬ (decimalValue e.2.1 = 0 ∨ decimalValue e.2.1 ≥ 1000) := by omega
    rw [if_pos (show k < arr.length by omega)] at hstep
    simp only [hnr, if_false, if_true] at hstep
    have hbuf : commaRun (List.map paddedEntry (e :: es)) ++ rest
        = spaces e.1 ++ e.2.1 ++ spaces e.2.2 ++ ',' :: (commaRun (es.map paddedEntry) ++ rest) := by
      simp [commaRun, paddedEntry, List.append_assoc]
    rw [hbuf, List.length_cons, show fuel + (es.length + 1) = fuel + es.length + 1 by omega, hstep,
      ih (fun x hx => hvalid x (by simp [hx])) _ _ (by simp; omega)]
    simp only [List.map_cons, storeFrom]
    rw [show k + 1 + es.length = k + (es.length + 1) by omega]

theorem digitChar_spec (k : Nat) (hk : k < 10) :
    (Nat.digitChar k).isDigit = true ∧ (Nat.digitChar k).toNat - '0'.toNat = k := by
  interval_cases k <;> exact ⟨by decide, by decide⟩

theorem toDigitsCore_spec (fuel : Nat) :
    ∀ (n : Nat) (acc : List Char), n < fuel →
      ∃ pre, Nat.toDigitsCore 10 fuel n acc = pre ++ acc ∧ pre ≠ []
        ∧ (∀ c ∈ pre, c.isDigit = true)
        ∧ ∀ a, pre.foldl (fun m c => m * 10 + (c.toNat - '0'.toNat)) a = a * 10 ^ pre.length + n := by
  induction fuel with
  | zero => intro n _ h; omega
  | succ fuel ih =>
    intro n acc h
    have hd := digitChar_spec (n % 10) (Nat.mod_lt _ (by decide))
    simp only [Nat.toDigitsCore]
    by_cases h0 : n / 10 = 0
    · rw [if_pos h0]
      refine ⟨[Nat.digitChar (n % 10)], by simp, by simp, by simpa using hd.1, ?_⟩
      intro a
      simp only [List.foldl_cons, List.foldl_nil, hd.2, List.length_singleton, pow_one]
      omega
    · rw [if_neg h0]
      obtain ⟨pre, h1, _, h3, h4⟩ := ih (n / 10) (Nat.digitChar (n % 10) :: acc) (by omega)
      refine ⟨pre ++ [Nat.digitChar (n % 10)], by simp [h1], by simp, ?_, ?_⟩
      · intro c hc
        rcases List.mem_append.mp hc with h | h
        · exact h3 c h
        · simp only [List.mem_singleton] at h
          rw [h]; exact hd.1
      · intro a
        simp only [List.foldl_append, h4, List.foldl_cons, List.foldl_nil, hd.2,
          List.length_append, List.length_singleton, pow_succ]
        have := Nat.div_add_mod n 10
        nlinarith [this]

theorem toDigits_spec (n : Nat) :
    Nat.toDigits 10 n ≠ [] ∧ (∀ c ∈ Nat.toDigits 10 n, c.isDigit = true)
      ∧ decimalValue (Nat.toDigits 10 n) = n := by
  obtain ⟨pre, h1, h2, h3, h4⟩ := toDigitsCore_spec (n + 1) n [] (by omega)
  simp only [List.append_nil] at h1
  simp only [Nat.toDigits, h1, decimalValue]
  exact ⟨h2, h3, by simpa using h4 0⟩

theorem length_commaRun_ge (xs : List Text) : xs.length ≤ (commaRun xs).length := by
  induction xs with
  | nil => simp [commaRun]
  | cons x xs ih => simp [commaRun]; omega

theorem storeFrom_concat (vs : List Nat) (v : Nat) (arr : List Nat) (k : Nat) :
    storeFrom arr k (vs ++ [v]) = (storeFrom arr k vs).set (k + vs.length) v := by
  induction vs generalizing arr k with
  | nil => simp [storeFrom]
  | cons w vs ih =>
    show storeFrom (arr.set k w) (k + 1) (vs ++ [v]) = _
    rw [ih]
    simp only [storeFrom, List.length_cons]
    rw [show k + 1 + vs.length = k + (vs.length + 1) by omega]

/-- The loop of the `prefix` directive on a non-empty list of valid entries
separated by commas, up to the end of the text. -/
theorem prefixLoop_valid_list (init : List (Nat × Text × Nat)) (last : Nat × Text × Nat)
    (hvalid : ∀ e ∈ init ++ [last], e.2.1 ≠ [] ∧ (∀ c ∈ e.2.1, c.isDigit = true)
      ∧ 1 ≤ decimalValue e.2.1 ∧ decimalValue e.2.1 ≤ 999)
    (arr : List Nat) (zErr : Option Text) (hk : init.length + 1 ≤ arr.length) :
    prefixLoop ((List.intercalate [','] ((init ++ [last]).map paddedEntry) ++ [NUL]).length + 1)
        SQLITE_OK (List.intercalate [','] ((init ++ [last]).map paddedEntry) ++ [NUL]) arr 0 zErr
      = .ok (SQLITE_OK, storeFrom arr 0 ((init ++ [last]).map (fun e => decimalValue e.2.1)),
          init.length + 1, zErr) := by
  obtain ⟨hne, hds, h1, h999⟩ := hvalid last (by simp)
  have hbuf : List.intercalate [','] ((init ++ [last]).map paddedEntry) ++ [NUL]
      = commaRun (init.map paddedEntry) ++ (paddedEntry last ++ [NUL]) := by
    rw [List.map_append, List.map_cons, List.map_nil, intercalate_comma_append]
    simp [List.intercalate]
  have hlen := length_commaRun_ge (init.map paddedEntry)
  rw [List.length_map] at hlen
  rw [hbuf]
  obtain ⟨f, hf⟩ : ∃ f, (commaRun (init.map paddedEntry) ++ (paddedEntry last ++ [NUL])).length + 1
      = (f + 2) + init.length := by
    refine ⟨(commaRun (init.map paddedEntry) ++ (paddedEntry last ++ [NUL])).length + 1
      - init.length - 2, ?_⟩
    simp only [List.length_append, List.length_singleton]
    omega
  rw [hf, prefixLoop_valid_run init (fun e he => hvalid e (by simp [he])) (f + 2) _ arr 0 zErr
    (by omega)]
  have hstep := prefixLoop_entry (f + 1) last.1 last.2.2 last.2.1 NUL []
    (storeFrom arr 0 (init.map (fun e => decimalValue e.2.1))) (0 + init.length) zErr hne hds
    (by omega) (Or.inr rfl)
  have hnr : ¬ (decimalValue last.2.1 = 0 ∨ decimalValue last.2.1 ≥ 1000) := by omega
  rw [if_pos (show 0 + init.length < (storeFrom arr 0 (init.map
    (fun e => decimalValue e.2.1))).length by rw [length_storeFrom]; omega)] at hstep
  simp only [hnr, if_false, show ¬ (NUL = ',') by decide] at hstep
  have hb2 : paddedEntry last ++ [NUL] = spaces last.1 ++ last.2.1 ++ spaces last.2.2 ++ [NUL] := by
    simp [paddedEntry]
  rw [hb2, hstep, List.map_append, List.map_cons, List.map_nil, storeFrom_concat]
  simp [prefixLoop, SQLITE_OK]

theorem prefixList_of_store (c : Fts5Config) (arr vs : List Nat) (h : vs.length ≤ arr.length) :
    ({ c with aPrefix := some (storeFrom arr 0 vs), nPrefix := vs.length } : Fts5Config).prefixList
      = some vs := by
  have := take_storeFrom vs arr 0 (by omega)
  simp only [Nat.zero_add, List.take_zero, List.nil_append] at this
  simp [Fts5Config.prefixList, this]

/-- C2: on a configuration with no prefix list yet, the prefix directive
applied to the decimal renderings of a non-empty list of integers in [1,999],
no longer than `FTS5_MAX_PREFIX_INDEXES`, joined by commas and each optionally
surrounded by spaces, returns `SQLITE_OK` and leaves the prefix list equal to
that list of integers in input order, with `nPrefix` equal to its length.  An
entry `(a, n, b)` stands for the integer `n` with `a` spaces before it and `b`
spaces after it. -/
theorem prefix_directive_parses (maxPrefix : Nat) (pGlobal : Fts5Global) (pConfig : Fts5Config)
    (zCmd : Buf) (nCmd : Nat) (zErr : Option Text) (es : List (Nat × Nat × Nat))
    (hcmd : sqlite3_strnicmp "prefix".toList zCmd nCmd = 0)
    (hnone : pConfig.aPrefix = none) (hn0 : pConfig.nPrefix = 0)
    (hne : es ≠ []) (hlen : es.length ≤ maxPrefix)
    (hrange : ∀ e ∈ es, 1 ≤ e.2.1 ∧ e.2.1 ≤ 999) :
    ∃ cfg, fts5ConfigParseSpecial maxPrefix pGlobal pConfig zCmd nCmd
        (List.intercalate [','] (es.map prefixEntry) ++ [NUL]) zErr = .ok (SQLITE_OK, cfg, zErr)
      ∧ cfg.prefixList = some (es.map (fun e => e.2.1)) ∧ cfg.nPrefix = es.length := by
  rcases List.eq_nil_or_concat es with h | ⟨init, last, h⟩
  · exact absurd h hne
  rw [List.concat_eq_append] at h
  subst h
  let tr : Nat × Nat × Nat → Nat × Text × Nat := fun e => (e.1, Nat.toDigits 10 e.2.1, e.2.2)
  have htext : (init ++ [last]).map prefixEntry = (init.map tr ++ [tr last]).map paddedEntry := by
    simp [tr, prefixEntry, paddedEntry]
  have hvals : (init.map tr ++ [tr last]).map (fun e => decimalValue e.2.1)
      = (init ++ [last]).map (fun e => e.2.1) := by
    simp [tr, (toDigits_spec _).2.2]
  have hvalid : ∀ e ∈ init.map tr ++ [tr last], e.2.1 ≠ [] ∧ (∀ c ∈ e.2.1, c.isDigit = true)
      ∧ 1 ≤ decimalValue e.2.1 ∧ decimalValue e.2.1 ≤ 999 := by
    intro e he
    have : ∃ x ∈ init ++ [last], tr x = e := by
      rcases List.mem_append.mp he with h | h
      · obtain ⟨x, hx, rfl⟩ := List.mem_map.mp h
        exact ⟨x, by simp [hx], rfl⟩
      · simp only [List.mem_singleton] at h
        exact ⟨last, by simp, h.symm⟩
    obtain ⟨x, hx, rfl⟩ := this
    have hs := toDigits_spec x.2.1
    have hr := hrange x hx
    exact ⟨hs.1, hs.2.1, by simp only [tr, hs.2.2]; exact hr.1, by simp only [tr, hs.2.2]; exact hr.2⟩
  simp only [List.length_append, List.length_singleton] at hlen
  have hloop := prefixLoop_valid_list (init.map tr) (tr last) hvalid (List.replicate maxPrefix 0)
    zErr (by simp; omega)
  rw [← htext, hvals, List.length_map] at hloop
  refine ⟨{ pConfig with
    aPrefix := some (storeFrom (List.replicate maxPrefix 0) 0 ((init ++ [last]).map (fun e => e.2.1))),
    nPrefix := ((init ++ [last]).map (fun e => e.2.1)).length }, ?_, ?_, by simp⟩
  · simp only [fts5ConfigParseSpecial, hcmd, if_true, hnone, hn0, hloop, bind_ok, pure_eq_ok]
    simp
  · exact prefixList_of_store pConfig _ _ (by simp; omega)

/-- C2 on the text `1, 20 ,300` with the capacity 31 of the SQLite sources. -/
theorem prefix_directive_parses_witness :
    (sqlite3_strnicmp "prefix".toList "prefix".toList 6 = 0
      ∧ Fts5Config.zero.aPrefix = none ∧ Fts5Config.zero.nPrefix = 0
      ∧ [(0, 1, 0), (1, 20, 1), (0, 300, 0)] ≠ ([] : List (Nat × Nat × Nat))
      ∧ [(0, 1, 0), (1, 20, 1), (0, 300, 0)].length ≤ 31
      ∧ ∀ e ∈ [(0, 1, 0), (1, 20, 1), (0, 300, 0)], 1 ≤ e.2.1 ∧ e.2.1 ≤ 999) ∧
    ∃ cfg, fts5ConfigParseSpecial 31 sampleGlobal Fts5Config.zero "prefix".toList 6
        ("1, 20 ,300".toList ++ [NUL]) none = .ok (SQLITE_OK, cfg, none)
      ∧ cfg.prefixList = some [1, 20, 300] ∧ cfg.nPrefix = 3 :=
  ⟨⟨by decide, rfl, rfl, by decide, by decide, by decide⟩,
   prefix_directive_parses 31 sampleGlobal Fts5Config.zero "prefix".toList 6 none
    [(0, 1, 0), (1, 20, 1), (0, 300, 0)] (by decide) rfl rfl (by decide) (by decide) (by decide)⟩

/-- One iteration of the loop of the `prefix` directive on an entry of value
10000 or more: the digit loop stops once the accumulator has reached 1000, the
next digit is taken for a bad separator, and the loop ends with the
`malformed` message. -/
theorem prefixLoop_saturated (fuel : Nat) (ds : Text) (tl : Buf) (arr : List Nat) (k : Nat)
    (zErr : Option Text) (hds : ∀ c ∈ ds, c.isDigit = true) (hv : 10000 ≤ decimalValue ds)
    (hk : k < arr.length) :
    ∃ arr1, prefixLoop (fuel + 2) SQLITE_OK (ds ++ tl) arr k zErr
      = .ok (SQLITE_ERROR, arr1, k + 1, some "malformed prefix=... directive".toList) := by
  obtain ⟨n, d, r, h2, hd⟩ := prefixDigits_saturates ds tl 0 hds (by omega) hv
  cases ds with
  | nil => simp [decimalValue] at hv
  | cons d0 ds1 =>
    have hd0 : d0.isDigit = true := hds d0 (by simp)
    have h1 : skipSpaces (d0 :: (ds1 ++ tl)) = .ok (d0 :: (ds1 ++ tl)) :=
      skipSpaces_stop d0 _ (digit_ne_space d0 hd0)
    have h3 : skipSpaces (d :: r) = .ok (d :: r) := skipSpaces_stop d r (digit_ne_space d hd)
    have hdc : d ≠ ',' := by rintro rfl; exact absurd hd (by decide)
    have hdn : d ≠ NUL := digit_ne_nul d hd
    refine ⟨arr.set k n, ?_⟩
    simp only [List.cons_append] at h2 ⊢
    simp only [prefixLoop, ne_eq, not_true_eq_false, if_false, digit_ne_nul d0 hd0, h1, bind_ok,
      h2, h3, hdc, hdn, not_false_eq_true, if_true, hk]
    simp [SQLITE_OK, SQLITE_ERROR]

theorem replicate_concat_one (n : Nat) (x : Text) :
    List.replicate (n + 1) x = List.replicate n x ++ [x] := by
  exact List.replicate_succ' n x

/-- C5: whatever the capacity `FTS5_MAX_PREFIX_INDEXES` of the `aPrefix` array
is, the prefix directive applied to a list of one more entry than the capacity
(here each entry is `1`) stores the last entry at index
`FTS5_MAX_PREFIX_INDEXES`, beyond the end of the array. -/
theorem prefix_directive_overflow (maxPrefix : Nat) (pGlobal : Fts5Global)
    (zErr : Option Text) :
    fts5ConfigParseSpecial maxPrefix pGlobal Fts5Config.zero "prefix".toList 6
        (List.intercalate [','] (List.replicate (maxPrefix + 1) "1".toList) ++ [NUL]) zErr
      = .fault .writePastEnd := by
  let e1 : Nat × Text × Nat := (0, "1".toList, 0)
  have hpad : paddedEntry e1 = "1".toList := by decide
  have hbuf : List.intercalate [','] (List.replicate (maxPrefix + 1) "1".toList) ++ [NUL]
      = commaRun ((List.replicate maxPrefix e1).map paddedEntry) ++ ("1".toList ++ [NUL]) := by
    rw [replicate_concat_one, intercalate_comma_append, List.map_replicate, hpad]
    simp [List.intercalate]
  have hvalid : ∀ e ∈ List.replicate maxPrefix e1, e.2.1 ≠ [] ∧ (∀ c ∈ e.2.1, c.isDigit = true)
      ∧ 1 ≤ decimalValue e.2.1 ∧ decimalValue e.2.1 ≤ 999 := by
    intro e he
    rw [List.eq_of_mem_replicate he]
    decide
  have hlen := length_commaRun_ge ((List.replicate maxPrefix e1).map paddedEntry)
  simp only [List.length_map, List.length_replicate] at hlen
  obtain ⟨f, hf⟩ : ∃ f, (commaRun ((List.replicate maxPrefix e1).map paddedEntry)
      ++ ("1".toList ++ [NUL])).length + 1 = (f + 1) + (List.replicate maxPrefix e1).length := by
    refine ⟨(commaRun ((List.replicate maxPrefix e1).map paddedEntry)
      ++ ("1".toList ++ [NUL])).length - maxPrefix, ?_⟩
    simp only [List.length_append, List.length_replicate]
    omega
  have hrun := prefixLoop_valid_run (List.replicate maxPrefix e1) hvalid (f + 1)
    ("1".toList ++ [NUL]) (List.replicate maxPrefix 0) 0 zErr (by simp)
  have hstep := prefixLoop_entry f 0 0 "1".toList NUL []
    (storeFrom (List.replicate maxPrefix 0) 0
      ((List.replicate maxPrefix e1).map (fun e => decimalValue e.2.1)))
    (0 + (List.replicate maxPrefix e1).length) zErr (by decide) (by decide) (by decide)
    (Or.inr rfl)
  rw [if_neg (by rw [length_storeFrom]; simp)] at hstep
  have hb2 : "1".toList ++ [NUL] = spaces 0 ++ "1".toList ++ spaces 0 ++ [NUL] := by decide
  rw [← hb2] at hstep
  simp only [fts5ConfigParseSpecial, show sqlite3_strnicmp "prefix".toList "prefix".toList 6 = 0
    by decide, if_true, show Fts5Config.zero.aPrefix = none from rfl,
    show Fts5Config.zero.nPrefix = 0 from rfl]
  rw [hbuf, hf, hrun, hstep]
  rfl

/-- C3 fails on an entry of five digits: the text `12345` is reported as a
malformed directive, not as a prefix length out of range. -/
theorem prefix_five_digits_malformed :
    (∃ cfg, fts5ConfigParseSpecial 31 sampleGlobal Fts5Config.zero "prefix".toList 6
        ("12345".toList ++ [NUL]) none
      = .ok (SQLITE_ERROR, cfg, some "malformed prefix=... directive".toList))
    ∧ "malformed prefix=... directive".toList ≠ "prefix length out of range: 12345".toList :=
  ⟨⟨_, rfl⟩, by decide⟩

theorem intercalate_comma_cons (x : Text) (post : List Text) :
    ∃ t rest, List.intercalate [','] (x :: post) ++ [NUL] = x ++ t :: rest ∧ (t = ',' ∨ t = NUL) := by
  cases post with
  | nil => exact ⟨NUL, [], by simp [List.intercalate], Or.inr rfl⟩
  | cons y post =>
    exact ⟨',', List.intercalate [','] (y :: post) ++ [NUL], by simp [List.intercalate], Or.inl rfl⟩

/-- C3, amended: on a configuration with no prefix list yet, for a
comma-separated list of unsigned decimal integers whose first entry that is 0
or at least 1000 is among the first `FTS5_MAX_PREFIX_INDEXES` entries, the
prefix directive fails.  When the value of that entry is 0 or lies in
[1000, 9999] the message is `prefix length out of range: N` naming the value;
when it is 10000 or more the message is `malformed prefix=... directive`. -/
theorem prefix_directive_out_of_range (maxPrefix : Nat) (pGlobal : Fts5Global)
    (pConfig : Fts5Config) (zCmd : Buf) (nCmd : Nat) (zErr : Option Text)
    (pre : List Text) (bad : Text) (post : List Text)
    (hcmd : sqlite3_strnicmp "prefix".toList zCmd nCmd = 0)
    (hnone : pConfig.aPrefix = none) (hn0 : pConfig.nPrefix = 0)
    (hpre : ∀ e ∈ pre, e ≠ [] ∧ (∀ c ∈ e, c.isDigit = true)
      ∧ 1 ≤ decimalValue e ∧ decimalValue e ≤ 999)
    (hbad : bad ≠ [] ∧ (∀ c ∈ bad, c.isDigit = true)
      ∧ (decimalValue bad = 0 ∨ 1000 ≤ decimalValue bad))
    (hcap : pre.length < maxPrefix) :
    ∃ cfg, fts5ConfigParseSpecial maxPrefix pGlobal pConfig zCmd nCmd
        (List.intercalate [','] (pre ++ bad :: post) ++ [NUL]) zErr
      = .ok (SQLITE_ERROR, cfg,
          some (if decimalValue bad < 10000 then
            "prefix length out of range: ".toList ++ Nat.toDigits 10 (decimalValue bad)
          else "malformed prefix=... directive".toList)) := by
  obtain ⟨hne, hds, hrange⟩ := hbad
  let tr : Text → Nat × Text × Nat := fun ds => (0, ds, 0)
  have hmap : (pre.map tr).map paddedEntry = pre := by
    rw [List.map_map]
    have : paddedEntry ∘ tr = id := by
      funext ds
      simp [tr, paddedEntry, spaces]
    rw [this, List.map_id]
  have hvalid : ∀ e ∈ pre.map tr, e.2.1 ≠ [] ∧ (∀ c ∈ e.2.1, c.isDigit = true)
      ∧ 1 ≤ decimalValue e.2.1 ∧ decimalValue e.2.1 ≤ 999 := by
    intro e he
    obtain ⟨x, hx, rfl⟩ := List.mem_map.mp he
    exact hpre x hx
  obtain ⟨t, rest, htl, ht⟩ := intercalate_comma_cons bad post
  have hbuf : List.intercalate [','] (pre ++ bad :: post) ++ [NUL]
      = commaRun ((pre.map tr).map paddedEntry) ++ (bad ++ t :: rest) := by
    rw [intercalate_comma_append, hmap, List.append_assoc, htl]
  have hlen := length_commaRun_ge ((pre.map tr).map paddedEntry)
  simp only [List.length_map] at hlen
  obtain ⟨f, hf⟩ : ∃ f, (commaRun ((pre.map tr).map paddedEntry) ++ (bad ++ t :: rest)).length + 1
      = (f + 2) + (pre.map tr).length := by
    refine ⟨(commaRun ((pre.map tr).map paddedEntry) ++ (bad ++ t :: rest)).length + 1
      - pre.length - 2, ?_⟩
    simp only [List.length_append, List.length_cons, List.length_map]
    omega
  have hrun := prefixLoop_valid_run (pre.map tr) hvalid (f + 2) (bad ++ t :: rest)
    (List.replicate maxPrefix 0) 0 zErr (by simp; omega)
  have hk : 0 + (pre.map tr).length < (storeFrom (List.replicate maxPrefix 0) 0
      ((pre.map tr).map (fun e => decimalValue e.2.1))).length := by
    rw [length_storeFrom]; simp; omega
  simp only [fts5ConfigParseSpecial, hcmd, if_true, hnone, hn0]
  rw [hbuf, hf, hrun]
  by_cases hv : decimalValue bad < 10000
  · have hstep := prefixLoop_entry (f + 1) 0 0 bad t rest
      (storeFrom (List.replicate maxPrefix 0) 0 ((pre.map tr).map (fun e => decimalValue e.2.1)))
      (0 + (pre.map tr).length) zErr hne hds hv ht
    rw [if_pos hk] at hstep
    have hr : decimalValue bad = 0 ∨ decimalValue bad ≥ 1000 := hrange
    simp only [hr, if_true, spaces, List.replicate_zero, List.nil_append, List.append_nil]
      at hstep
    rw [hstep]
    simp [prefixLoop, SQLITE_OK, SQLITE_ERROR, hv]
  · obtain ⟨arr1, h⟩ := prefixLoop_saturated f bad (t :: rest) _ _ zErr hds (by omega) hk
    rw [h]
    simp [hv]

/-- C3, amended, on the texts `5,1000,7` (second entry out of range) and
`5,12345` (second entry of five digits). -/
theorem prefix_directive_out_of_range_witness :
    (sqlite3_strnicmp "prefix".toList "prefix".toList 6 = 0
      ∧ Fts5Config.zero.aPrefix = none ∧ Fts5Config.zero.nPrefix = 0
      ∧ (∀ e ∈ ["5".toList], e ≠ [] ∧ (∀ c ∈ e, c.isDigit = true)
          ∧ 1 ≤ decimalValue e ∧ decimalValue e ≤ 999)
      ∧ ("1000".toList ≠ [] ∧ (∀ c ∈ "1000".toList, c.isDigit = true)
          ∧ (decimalValue "1000".toList = 0 ∨ 1000 ≤ decimalValue "1000".toList))
      ∧ ["5".toList].length < 31) ∧
    (∃ cfg, fts5ConfigParseSpecial 31 sampleGlobal Fts5Config.zero "prefix".toList 6
        ("5,1000,7".toList ++ [NUL]) none
      = .ok (SQLITE_ERROR, cfg, some "prefix length out of range: 1000".toList)) ∧
    (∃ cfg, fts5ConfigParseSpecial 31 sampleGlobal Fts5Config.zero "prefix".toList 6
        ("5,12345".toList ++ [NUL]) none
      = .ok (SQLITE_ERROR, cfg, some "malformed prefix=... directive".toList)) :=
  ⟨⟨by decide, rfl, rfl, by decide, by decide, by decide⟩,
   prefix_directive_out_of_range 31 sampleGlobal Fts5Config.zero "prefix".toList 6 none
      ["5".toList] "1000".toList ["7".toList] (by decide) rfl rfl (by decide) (by decide)
      (by decide),
   prefix_directive_out_of_range 31 sampleGlobal Fts5Config.zero "prefix".toList 6 none
      ["5".toList] "12345".toList [] (by decide) rfl rfl (by decide) (by decide) (by decide)⟩

/-! ## Directive names -/

theorem char_toNat_inj (a b : Char) (h : a.toNat = b.toNat) : a = b := by
  rw [char_eq_of_toNat a a.toNat rfl, char_eq_of_toNat b b.toNat rfl, h]

theorem upperToLower_eq_nul (c : Char) (h : upperToLower c = NUL) : c = NUL := by
  by_cases hc : 'A' ≤ c ∧ c ≤ 'Z'
  · exfalso
    have e := char_eq_of_toNat c
    have h1 := (char_le_iff 'A' c).mp hc.1
    have h2 := (char_le_iff c 'Z').mp hc.2
    rw [show 'A'.toNat = 65 from rfl] at h1
    rw [show 'Z'.toNat = 90 from rfl] at h2
    generalize c.toNat = n at e h1 h2
    have hcn := e n rfl
    subst hcn
    interval_cases n <;> exact absurd h (by decide)
  · simpa [upperToLower, hc] using h

theorem bareword_ne_nul (c : Char) (h : isBarewordChar c = true) : c ≠ NUL := by
  rintro rfl; exact absurd h (by decide)

/-- When `sqlite3_strnicmp` finds the first `cmd.length` bytes of a NUL-free
directive name equal to a keyword, the name is, up to case, an initial segment
of the keyword. -/
theorem strnicmp_zero_prefix (cmd : Text) (hnul : NUL ∉ cmd) :
    ∀ (kw : Text) (rest : Buf), sqlite3_strnicmp kw (cmd ++ rest) cmd.length = 0 →
      cmd.map upperToLower <+: kw.map upperToLower := by
  induction cmd with
  | nil => intro kw rest _; simp
  | cons b cmd ih =>
    intro kw rest h
    have hb : b ≠ NUL := fun hb => hnul (by simp [hb])
    have hcmd : NUL ∉ cmd := fun hc => hnul (by simp [hc])
    simp only [List.length_cons, List.cons_append, sqlite3_strnicmp, List.headD_cons,
      List.tail_cons] at h
    by_cases hcond : kw.headD NUL ≠ NUL ∧ upperToLower (kw.headD NUL) = upperToLower b
    · rw [if_pos hcond] at h
      cases kw with
      | nil => simp at hcond
      | cons a kw =>
        simp only [List.headD_cons] at hcond
        simp only [List.tail_cons] at h
        simp only [List.map_cons, hcond.2]
        exact (List.prefix_cons_inj _).mpr (ih hcmd kw rest h)
    · rw [if_neg hcond] at h
      exfalso
      have heq : upperToLower (kw.headD NUL) = upperToLower b :=
        char_toNat_inj _ _ (by omega)
      have hk : kw.headD NUL = NUL := by
        by_contra hne
        exact hcond ⟨hne, heq⟩
      rw [hk] at heq
      exact hb (upperToLower_eq_nul b (by rw [← heq]; decide))

/-- C4 fails on abbreviations: the one-letter directive name `p` selects the
prefix directive and stores a prefix list, and `tok` selects the tokenize
directive and binds a tokenizer. -/
theorem abbreviated_directive_accepted :
    (∃ cfg, fts5ConfigParseSpecial 31 sampleGlobal Fts5Config.zero ("p=7".toList ++ [NUL]) 1
        ("7".toList ++ [NUL]) none = .ok (SQLITE_OK, cfg, none)
      ∧ cfg.prefixList = some [7]) ∧
    (∃ cfg, fts5ConfigParseSpecial 31 sampleGlobal Fts5Config.zero ("tok=porter".toList ++ [NUL]) 3
        ("porter".toList ++ [NUL]) none = .ok (SQLITE_OK, cfg, none)
      ∧ cfg.pTok = some 1) :=
  ⟨⟨_, rfl, by decide⟩, ⟨_, rfl, by decide⟩⟩

/-- C4, amended: for every directive name (a non-empty bareword, the first
`nCmd` bytes of `zCmd`) that is not, up to case, an initial segment of `prefix`
or of `tokenize`, the directive parser returns `SQLITE_ERROR` with the message
`unrecognized directive: "..."` quoting the text at `zCmd`, and leaves the
configuration (prefix list and tokenizer binding included) unchanged. -/
theorem unrecognized_directive (maxPrefix : Nat) (pGlobal : Fts5Global) (pConfig : Fts5Config)
    (cmd : Text) (rest : Buf) (zArg : Buf) (zErr : Option Text)
    (hne : cmd ≠ []) (hbw : ∀ c ∈ cmd, isBarewordChar c = true)
    (hp : ¬ (cmd.map upperToLower <+: "prefix".toList))
    (ht : ¬ (cmd.map upperToLower <+: "tokenize".toList)) :
    fts5ConfigParseSpecial maxPrefix pGlobal pConfig (cmd ++ rest) cmd.length zArg zErr
      = .ok (SQLITE_ERROR, pConfig,
          some ("unrecognized directive: \x22".toList ++ cstr (cmd ++ rest) ++ "\x22".toList)) := by
  have hnul : NUL ∉ cmd := fun h => bareword_ne_nul NUL (hbw NUL h) rfl
  have h1 : sqlite3_strnicmp "prefix".toList (cmd ++ rest) cmd.length ≠ 0 := by
    intro h
    exact hp (by simpa using strnicmp_zero_prefix cmd hnul "prefix".toList rest h)
  have h2 : sqlite3_strnicmp "tokenize".toList (cmd ++ rest) cmd.length ≠ 0 := by
    intro h
    exact ht (by simpa using strnicmp_zero_prefix cmd hnul "tokenize".toList rest h)
  simp only [fts5ConfigParseSpecial, h1, h2, if_false]

/-- C4, amended, on the directive `colour=red`. -/
theorem unrecognized_directive_witness :
    ("colour".toList ≠ [] ∧ (∀ c ∈ "colour".toList, isBarewordChar c = true)
      ∧ ¬ ("colour".toList.map upperToLower <+: "prefix".toList)
      ∧ ¬ ("colour".toList.map upperToLower <+: "tokenize".toList)) ∧
    fts5ConfigParseSpecial 31 sampleGlobal Fts5Config.zero ("colour=red".toList ++ [NUL]) 6
        ("red".toList ++ [NUL]) none
      = .ok (SQLITE_ERROR, Fts5Config.zero,
          some "unrecognized directive: \x22colour=red\x22".toList) :=
  ⟨⟨by decide, by decide, by decide, by decide⟩,
   unrecognized_directive 31 sampleGlobal Fts5Config.zero "colour".toList ("=red".toList ++ [NUL])
    ("red".toList ++ [NUL]) none (by decide) (by decide) (by decide) (by decide)⟩

/-! ## The table-argument parser -/

theorem toNat_eq_zero_nul (c : Char) (h : c.toNat = 0) : c = NUL :=
  char_toNat_inj c NUL (by rw [h]; rfl)

theorem stricmp_zero (a : Text) :
    ∀ b : Text, NUL ∉ a → NUL ∉ b → sqlite3_stricmp a b = 0 →
      a.map upperToLower = b.map upperToLower := by
  induction a with
  | nil =>
    intro b _ hb h
    cases b with
    | nil => rfl
    | cons y b =>
      exfalso
      simp only [sqlite3_stricmp] at h
      have : (upperToLower y).toNat = 0 := by omega
      exact hb (by rw [upperToLower_eq_nul y (toNat_eq_zero_nul _ this)]; simp)
  | cons x a ih =>
    intro b ha hb h
    cases b with
    | nil =>
      exfalso
      simp only [sqlite3_stricmp] at h
      have : (upperToLower x).toNat = 0 := by omega
      exact ha (by rw [upperToLower_eq_nul x (toNat_eq_zero_nul _ this)]; simp)
    | cons y b =>
      simp only [sqlite3_stricmp] at h
      by_cases hxy : upperToLower x = upperToLower y
      · rw [if_pos hxy] at h
        simp only [List.map_cons, hxy]
        rw [ih b (fun h => ha (by simp [h])) (fun h => hb (by simp [h])) h]
      · rw [if_neg hxy] at h
        exact absurd (char_toNat_inj _ _ (by omega)) hxy

theorem barewordLoop_word (w : Text) (hw : ∀ c ∈ w, isBarewordChar c = true) (tl : Buf) :
    barewordLoop (w ++ NUL :: tl) = .ok (NUL :: tl) := by
  induction w with
  | nil => simp [barewordLoop, show isBarewordChar NUL = false by decide]
  | cons c w ih =>
    simp [barewordLoop, hw c (by simp), ih (fun x hx => hw x (by simp [hx]))]

theorem nul_not_mem_doubleQuotes (c : Char) (hc : c ≠ NUL) (s : Text) (hs : NUL ∉ s) :
    NUL ∉ doubleQuotes c s := by
  induction s with
  | nil => simp [doubleQuotes]
  | cons x s ih =>
    have hx : NUL ≠ x := fun h => hs (by simp [h])
    have hs2 : NUL ∉ s := fun h => hs (by simp [h])
    by_cases hxc : x = c
    · simp [doubleQuotes, hxc, Ne.symm hc, ih hs2]
    · simp [doubleQuotes, hxc, hx, ih hs2]

theorem configParseColumn_accept (pRet : Fts5Config) (zErr : Option Text) (zCol : Buf)
    (name : Text) (hname : cstr zCol = name) (hnul : NUL ∉ name)
    (hres : name.map upperToLower ≠ FTS5_RANK_NAME ∧ name.map upperToLower ≠ FTS5_ROWID_NAME) :
    configParseColumn pRet SQLITE_OK zErr 0 (some zCol) zCol
      = (SQLITE_OK, { pRet with azCol := pRet.azCol ++ [name], nCol := pRet.nCol + 1 }, zErr) := by
  have h1 : ¬ (0 = sqlite3_stricmp name FTS5_RANK_NAME) := by
    intro h
    have e := stricmp_zero name FTS5_RANK_NAME hnul (by decide) h.symm
    exact hres.1 (e.trans (by decide))
  have h2 : ¬ (0 = sqlite3_stricmp name FTS5_ROWID_NAME) := by
    intro h
    have e := stricmp_zero name FTS5_ROWID_NAME hnul (by decide) h.symm
    exact hres.2 (e.trans (by decide))
  simp [configParseColumn, hname, h1, h2]

/-- One column clause is accepted and its name appended to the column list. -/
theorem configParseArg_column (maxPrefix : Nat) (pGlobal : Fts5Global) (pRet : Fts5Config)
    (zErr : Option Text) (arg name : Text) (hcl : ColumnClause arg name)
    (hres : name.map upperToLower ≠ FTS5_RANK_NAME ∧ name.map upperToLower ≠ FTS5_ROWID_NAME) :
    configParseArg maxPrefix pGlobal pRet arg zErr
      = .ok (SQLITE_OK, { pRet with azCol := pRet.azCol ++ [name], nCol := pRet.nCol + 1 },
          zErr) := by
  cases hcl with
  | bareword c w hchars hq =>
    have hnul : NUL ∉ c :: w := fun h => bareword_ne_nul NUL (hchars NUL h) rfl
    have hdup : fts5Strdup (c :: w) = c :: (w ++ [NUL]) := by
      simp [fts5Strdup, cstr_of_nul_free _ hnul]
    have hloop := barewordLoop_word (c :: w) hchars []
    simp only [List.cons_append] at hloop
    have hcol := configParseColumn_accept pRet zErr (c :: (w ++ [NUL])) (c :: w)
      (by simpa using cstr_append_nul (c :: w) hnul []) hnul hres
    simp only [configParseArg, hdup, hq, fts5ConfigSkipBareword, hloop, bind_ok, pure_eq_ok]
    simp [hcol]
  | quoted q _ hq hs =>
    have hc := closeQuote_ne_nul q hq
    have hnul : NUL ∉ q :: doubleQuotes (closeQuote q) name ++ [closeQuote q] := by
      have := nul_not_mem_doubleQuotes (closeQuote q) hc name hs
      simp [Ne.symm (openquote_ne_nul q hq), Ne.symm hc, this]
    have hdup : fts5Strdup (q :: doubleQuotes (closeQuote q) name ++ [closeQuote q])
        = q :: doubleQuotes (closeQuote q) name ++ closeQuote q :: NUL :: [] := by
      rw [fts5Strdup, cstr_of_nul_free _ hnul]
      simp
    obtain ⟨z, hz⟩ := fts5Dequote_doubled q name hq hs []
    have hcol := configParseColumn_accept pRet zErr (name ++ NUL :: z) name
      (cstr_append_nul name hs z) hs hres
    rw [configParseArg, hdup]
    simp only [List.cons_append, hq, if_true] at hz ⊢
    simp only [hz, bind_ok, pure_eq_ok, hcol]

theorem configParseArgs_columns (maxPrefix : Nat) (pGlobal : Fts5Global) (cols names : List Text)
    (hcols : List.Forall₂ ColumnClause cols names)
    (hres : ∀ n ∈ names,
      n.map upperToLower ≠ FTS5_RANK_NAME ∧ n.map upperToLower ≠ FTS5_ROWID_NAME) :
    ∀ (pRet : Fts5Config) (zErr : Option Text),
      configParseArgs maxPrefix pGlobal cols SQLITE_OK pRet zErr
        = .ok (SQLITE_OK,
            { pRet with azCol := pRet.azCol ++ names, nCol := pRet.nCol + cols.length }, zErr) := by
  induction hcols with
  | nil => intro pRet zErr; simp [configParseArgs]
  | @cons arg name cols names hcl _ ih =>
    intro pRet zErr
    have h1 := configParseArg_column maxPrefix pGlobal pRet zErr arg name hcl
      (hres name (by simp))
    simp only [configParseArgs, ne_eq, not_true_eq_false, if_false, h1, bind_ok,
      ih (fun n hn => hres n (by simp [hn]))]
    simp [Nat.add_assoc, Nat.add_comm 1]

/-- C1 fails on a bareword that begins with an open-quote character, and on a
table name that is `rank` in another case.  The arguments `[abc` and `[abc]x`
are non-empty runs of bareword characters, which `fts5ConfigSkipBareword`
consumes whole; `sqlite3Fts5ConfigParse` reads an argument that begins with an
open-quote character as a quoted name, finds it ill formed, and fails with
`parse error in "abc"`.  The table name `RANK` is not `rank`, and is rejected as
a reserved table name. -/
theorem configParse_openquote_bareword_rejected :
    ((∀ c ∈ "[abc".toList, isBarewordChar c = true)
      ∧ fts5ConfigSkipBareword ("[abc".toList ++ [NUL]) = .ok (some [NUL])
      ∧ sqlite3Fts5ConfigParse 31 sampleGlobal
          ["fts5".toList, "main".toList, "t".toList, "[abc".toList] none
        = .ok (SQLITE_ERROR, none, some "parse error in \x22abc\x22".toList))
    ∧ ((∀ c ∈ "[abc]x".toList, isBarewordChar c = true)
      ∧ fts5ConfigSkipBareword ("[abc]x".toList ++ [NUL]) = .ok (some [NUL])
      ∧ sqlite3Fts5ConfigParse 31 sampleGlobal
          ["fts5".toList, "main".toList, "t".toList, "[abc]x".toList] none
        = .ok (SQLITE_ERROR, none, some "parse error in \x22abc\x22".toList))
    ∧ ("RANK".toList ≠ "rank".toList
      ∧ sqlite3Fts5ConfigParse 31 sampleGlobal
          ["fts5".toList, "main".toList, "RANK".toList, "a".toList] none
        = .ok (SQLITE_ERROR, none, some "reserved fts5 table name: RANK".toList)) :=
  ⟨⟨by decide, rfl, rfl⟩, ⟨by decide, rfl, rfl⟩, ⟨by decide, rfl⟩⟩

/-- C1, amended: for every argument vector whose candidate arguments (positions
3 and up) are column clauses only, each a non-empty bareword that does not
begin with an open-quote character or a well-formed quoted name, none of whose
names is, up to case, `rank` or `rowid` (duplicates allowed), and whose table
name is not, up to case, `rank`, `sqlite3Fts5ConfigParse` returns `SQLITE_OK`
when the default-tokenizer lookup does, and the configuration it hands back
lists the (dequoted) names in argument order, with `nCol` the number of
candidate arguments. -/
theorem configParse_columns (maxPrefix : Nat) (pGlobal : Fts5Global) (zModule zDb zName : Text)
    (cols names : List Text) (zErr : Option Text) (pTok pTokApi : Option Nat)
    (hname : NUL ∉ zName) (htable : zName.map upperToLower ≠ FTS5_RANK_NAME)
    (hcols : List.Forall₂ ColumnClause cols names)
    (hres : ∀ n ∈ names,
      n.map upperToLower ≠ FTS5_RANK_NAME ∧ n.map upperToLower ≠ FTS5_ROWID_NAME)
    (htok : pGlobal.sqlite3Fts5GetTokenizer [] = (SQLITE_OK, pTok, pTokApi)) :
    ∃ cfg, sqlite3Fts5ConfigParse maxPrefix pGlobal (zModule :: zDb :: zName :: cols) zErr
        = .ok (SQLITE_OK, some cfg, zErr)
      ∧ cfg.azCol = names ∧ cfg.nCol = cols.length := by
  have ht : ¬ (sqlite3_stricmp (cstr zName) FTS5_RANK_NAME = 0) := by
    intro h
    rw [cstr_of_nul_free zName hname] at h
    have e := stricmp_zero zName FTS5_RANK_NAME hname (by decide) h
    exact htable (e.trans (by decide))
  have hargs := configParseArgs_columns maxPrefix pGlobal cols names hcols hres
  let cfg : Fts5Config :=
    { Fts5Config.zero with
      iCookie := -1
      zDb := cstr zDb
      zName := cstr zName
      azCol := names
      nCol := cols.length
      pTok := pTok
      pTokApi := pTokApi }
  refine ⟨cfg, ?_, rfl, rfl⟩
  simp only [sqlite3Fts5ConfigParse, ht, if_false, hargs, bind_ok, pure_eq_ok, htok]
  simp [Fts5Config.zero, SQLITE_OK, cfg]

/-- C1, amended, on `CREATE VIRTUAL TABLE t USING fts5(a, "b c", [d], a)`. -/
theorem configParse_columns_witness :
    (NUL ∉ "t".toList ∧ "t".toList.map upperToLower ≠ FTS5_RANK_NAME
      ∧ List.Forall₂ ColumnClause
          ["a".toList, "\x22b c\x22".toList, "[d]".toList, "a".toList]
          ["a".toList, "b c".toList, "d".toList, "a".toList]
      ∧ (∀ n ∈ ["a".toList, "b c".toList, "d".toList, "a".toList],
          n.map upperToLower ≠ FTS5_RANK_NAME ∧ n.map upperToLower ≠ FTS5_ROWID_NAME)
      ∧ sampleGlobal.sqlite3Fts5GetTokenizer [] = (SQLITE_OK, some 0, some 0)) ∧
    ∃ cfg, sqlite3Fts5ConfigParse 31 sampleGlobal
        ["fts5".toList, "main".toList, "t".toList,
          "a".toList, "\x22b c\x22".toList, "[d]".toList, "a".toList] none
        = .ok (SQLITE_OK, some cfg, none)
      ∧ cfg.azCol = ["a".toList, "b c".toList, "d".toList, "a".toList] ∧ cfg.nCol = 4 :=
  have hcols : List.Forall₂ ColumnClause
      ["a".toList, "\x22b c\x22".toList, "[d]".toList, "a".toList]
      ["a".toList, "b c".toList, "d".toList, "a".toList] :=
    .cons (.bareword 'a' [] (by decide) (by decide))
      (.cons (.quoted DQ "b c".toList (by decide) (by decide))
        (.cons (.quoted '[' "d".toList (by decide) (by decide))
          (.cons (.bareword 'a' [] (by decide) (by decide)) .nil)))
  ⟨⟨by decide, by decide, hcols, by decide, rfl⟩,
   configParse_columns 31 sampleGlobal "fts5".toList "main".toList "t".toList
    ["a".toList, "\x22b c\x22".toList, "[d]".toList, "a".toList]
    ["a".toList, "b c".toList, "d".toList, "a".toList] none (some 0) (some 0)
    (by decide) (by decide) hcols (by decide) rfl⟩

/-- C6: on the empty candidate argument, on an argument that begins with a
space or with `=`, and on a directive whose right-hand side is empty, the
bareword scan returns NULL and `sqlite3Fts5ConfigParse` dereferences it: no
parse error is reported. -/
theorem configParse_null_bareword_deref :
    sqlite3Fts5ConfigParse 31 sampleGlobal
        ["fts5".toList, "main".toList, "t".toList, "".toList] none = .fault .nullDeref
    ∧ sqlite3Fts5ConfigParse 31 sampleGlobal
        ["fts5".toList, "main".toList, "t".toList, " x".toList] none = .fault .nullDeref
    ∧ sqlite3Fts5ConfigParse 31 sampleGlobal
        ["fts5".toList, "main".toList, "t".toList, "=x".toList] none = .fault .nullDeref
    ∧ sqlite3Fts5ConfigParse 31 sampleGlobal
        ["fts5".toList, "main".toList, "t".toList, "prefix=".toList] none = .fault .nullDeref :=
  ⟨rfl, rfl, rfl, rfl⟩


/-! ## Repeated prefix directives -/

/-- C16: when the configuration already holds a prefix list, the prefix
directive fails for every argument text with the message
"multiple prefix=... directives" and hands the configuration back unchanged,
so the prefix list and its count are the ones held before. -/
theorem multiple_prefix_directive (maxPrefix : Nat) (pGlobal : Fts5Global)
    (pConfig : Fts5Config) (aPrefix : List Nat) (zCmd : Buf) (nCmd : Nat) (zArg : Buf)
    (zErr : Option Text)
    (hcmd : sqlite3_strnicmp "prefix".toList zCmd nCmd = 0)
    (hheld : pConfig.aPrefix = some aPrefix) :
    fts5ConfigParseSpecial maxPrefix pGlobal pConfig zCmd nCmd zArg zErr
      = .ok (SQLITE_ERROR, pConfig, some "multiple prefix=... directives".toList) := by
  unfold fts5ConfigParseSpecial
  rw [if_pos hcmd, hheld]

theorem multiple_prefix_directive_witness :
    fts5ConfigParseSpecial 31 sampleGlobal
        { Fts5Config.zero with aPrefix := some (2 :: 3 :: List.replicate 29 0), nPrefix := 2 }
        "prefix=4\x00".toList 6 "4\x00".toList none
      = .ok (SQLITE_ERROR,
          { Fts5Config.zero with aPrefix := some (2 :: 3 :: List.replicate 29 0), nPrefix := 2 },
          some "multiple prefix=... directives".toList) :=
  multiple_prefix_directive 31 sampleGlobal _ (2 :: 3 :: List.replicate 29 0) _ 6 _ none
    (by decide) rfl

/-! ## The schema declaration -/

theorem get?_append_length (pre : List Text) (c : Text) (cols : List Text) :
    (pre ++ c :: cols).get? pre.length = some c := by
  induction pre with
  | nil => rfl
  | cons x pre ih => simpa using ih

theorem declareVtabLoop_later (cols : List Text) :
    ∀ (pre : List Text) (zSql : Text), pre ≠ [] →
      declareVtabLoop (pre ++ cols) cols.length pre.length zSql
        = .ok (zSql ++ cols.flatMap (fun c => ", ".toList ++ mprintfQ c)) := by
  induction cols with
  | nil => intro pre zSql _; simp [declareVtabLoop]
  | cons c cols ih =>
    intro pre zSql hpre
    have h := ih (pre ++ [c]) (zSql ++ ", ".toList ++ mprintfQ c) (by simp)
    simp only [List.append_assoc, List.singleton_append, List.length_append,
      List.length_singleton] at h
    have hlen : pre.length ≠ 0 := fun h0 => hpre (List.length_eq_zero.mp h0)
    simp only [declareVtabLoop, List.length_cons, get?_append_length, if_neg hlen,
      List.append_assoc]
    rw [h]
    simp [List.flatMap_cons, List.append_assoc]

theorem intercalate_cons_flatMap (sep x : Text) (l : List Text) :
    List.intercalate sep (x :: l) = x ++ l.flatMap (fun y => sep ++ y) := by
  induction l generalizing x with
  | nil => simp [List.intercalate]
  | cons y l ih =>
    have h : List.intercalate sep (x :: y :: l) = x ++ sep ++ List.intercalate sep (y :: l) := by
      simp [List.intercalate]
    rw [h, ih y, List.flatMap_cons]
    simp [List.append_assoc]

theorem flatMap_map_sep (sep : Text) (f : Text → Text) (l : List Text) :
    (l.map f).flatMap (fun y => sep ++ y) = l.flatMap (fun c => sep ++ f c) := by
  induction l with
  | nil => rfl
  | cons d l ih => rw [List.map_cons, List.flatMap_cons, List.flatMap_cons, ih]

theorem declareVtabLoop_columns (cols : List Text) (zSql : Text) :
    declareVtabLoop cols cols.length 0 zSql
      = .ok (zSql ++ List.intercalate ", ".toList (cols.map mprintfQ)) := by
  cases cols with
  | nil => simp [declareVtabLoop, List.intercalate]
  | cons c cols =>
    have h := declareVtabLoop_later cols [c] (zSql ++ mprintfQ c) (by simp)
    simp only [List.singleton_append, List.length_singleton] at h
    have e : declareVtabLoop (c :: cols) (c :: cols).length 0 zSql
        = declareVtabLoop (c :: cols) cols.length 1 (zSql ++ mprintfQ c) := by
      simp [declareVtabLoop]
    rw [e, h, List.map_cons, intercalate_cons_flatMap, List.append_assoc, flatMap_map_sep]

/-- The statement text for a configuration whose `nCol` columns are `azCol`. -/
theorem declareVtabSql_columns (pConfig : Fts5Config) (hn : pConfig.nCol = pConfig.azCol.length) :
    declareVtabSql pConfig
      = .ok ("CREATE TABLE x(".toList
          ++ List.intercalate ", ".toList (pConfig.azCol.map mprintfQ)
          ++ ", ".toList ++ mprintfQ pConfig.zName ++ " HIDDEN, rank HIDDEN)".toList) := by
  unfold declareVtabSql
  rw [hn, declareVtabLoop_columns]
  simp [FTS5_RANK_NAME, List.append_assoc]

/-- C19, the failing input: for a table `t` with no columns the statement text
begins with a comma, `CREATE TABLE x(, 't' HIDDEN, rank HIDDEN)`, while for the
two columns `a` and `it's` it is the text the claim describes. -/
theorem declareVtab_no_columns_leading_comma :
    declareVtabSql { Fts5Config.zero with zName := "t".toList }
        = .ok "CREATE TABLE x(, 't' HIDDEN, rank HIDDEN)".toList
    ∧ declareVtabSql
        { Fts5Config.zero with
          zName := "t".toList, azCol := ["a".toList, "it's".toList], nCol := 2 }
        = .ok "CREATE TABLE x('a', 'it''s', 't' HIDDEN, rank HIDDEN)".toList :=
  ⟨rfl, rfl⟩

theorem mprintfQ_eq (z : Text) : mprintfQ z = SQ :: doubleQuotes SQ z ++ [SQ] := by
  unfold mprintfQ
  congr 2
  induction z with
  | nil => rfl
  | cons c z ih =>
    rw [List.flatMap_cons, ih, doubleQuotes]
    by_cases h : c = SQ <;> simp [h]

/-! ## The key/value setter -/

theorem value_int_of_int32 (pVal : sqlite3_value)
    (h : -2 ^ 31 ≤ pVal.i64 ∧ pVal.i64 < 2 ^ 31) : sqlite3_value_int pVal = pVal.i64 := by
  unfold sqlite3_value_int
  omega

/-- The `pgsz` branch of the setter, in terms of the `int` that
`sqlite3_value_int` reports. -/
theorem setValue_pgsz (pConfig : Fts5Config) (pVal : sqlite3_value) (pbBadkey : Option Nat) :
    sqlite3Fts5ConfigSetValue pConfig "pgsz".toList pVal pbBadkey
      = if pVal.numericType = SQLITE_INTEGER ∧ 0 < sqlite3_value_int pVal
            ∧ sqlite3_value_int pVal ≤ 131072 then
          .ok (SQLITE_OK, { pConfig with pgsz := sqlite3_value_int pVal }, pbBadkey)
        else .ok (SQLITE_OK, pConfig, setBadkey pbBadkey) := by
  have h1 : ¬ (0 = sqlite3_stricmp "pgsz".toList "cookie".toList) := by decide
  have h2 : 0 = sqlite3_stricmp "pgsz".toList "pgsz".toList := by decide
  unfold sqlite3Fts5ConfigSetValue
  rw [if_neg h1, if_pos h2]
  simp only [sqlite3_value_numeric_type, FTS5_MAX_PAGE_SIZE]
  generalize sqlite3_value_int pVal = v
  by_cases ht : pVal.numericType = SQLITE_INTEGER
  · simp only [ht, if_true, true_and]
    split_ifs <;> first | rfl | omega
  · have ht2 : ¬ SQLITE_INTEGER = pVal.numericType := fun h => ht h.symm
    simp [ht, ht2]

/-- The `automerge` branch of the setter, in terms of the `int` that
`sqlite3_value_int` reports. -/
theorem setValue_automerge (pConfig : Fts5Config) (pVal : sqlite3_value)
    (pbBadkey : Option Nat) :
    sqlite3Fts5ConfigSetValue pConfig "automerge".toList pVal pbBadkey
      = if pVal.numericType = SQLITE_INTEGER ∧ 0 ≤ sqlite3_value_int pVal
            ∧ sqlite3_value_int pVal ≤ 64 then
          .ok (SQLITE_OK,
            { pConfig with
              nAutomerge := if sqlite3_value_int pVal = 1 then 4 else sqlite3_value_int pVal },
            pbBadkey)
        else .ok (SQLITE_OK, pConfig, setBadkey pbBadkey) := by
  have h1 : ¬ (0 = sqlite3_stricmp "automerge".toList "cookie".toList) := by decide
  have h2 : ¬ (0 = sqlite3_stricmp "automerge".toList "pgsz".toList) := by decide
  have h3 : 0 = sqlite3_stricmp "automerge".toList "automerge".toList := by decide
  unfold sqlite3Fts5ConfigSetValue
  rw [if_neg h1, if_neg h2, if_pos h3]
  simp only [sqlite3_value_numeric_type, FTS5_DEFAULT_AUTOMERGE]
  generalize sqlite3_value_int pVal = v
  by_cases ht : pVal.numericType = SQLITE_INTEGER
  · simp only [ht, if_true, true_and]
    split_ifs <;> first | rfl | omega
  · have ht2 : ¬ SQLITE_INTEGER = pVal.numericType := fun h => ht h.symm
    simp [ht, ht2]

/-- For a value that fits in a C `int`, the `pgsz` branch stores the value when
it is integral and lies in (0, 131072], and otherwise raises the bad-key flag
and leaves the configuration unchanged. -/
theorem setValue_pgsz_int32 (pConfig : Fts5Config) (pVal : sqlite3_value)
    (pbBadkey : Option Nat) (h : -2 ^ 31 ≤ pVal.i64 ∧ pVal.i64 < 2 ^ 31) :
    sqlite3Fts5ConfigSetValue pConfig "pgsz".toList pVal pbBadkey
      = if pVal.numericType = SQLITE_INTEGER ∧ 0 < pVal.i64 ∧ pVal.i64 ≤ 131072 then
          .ok (SQLITE_OK, { pConfig with pgsz := pVal.i64 }, pbBadkey)
        else .ok (SQLITE_OK, pConfig, setBadkey pbBadkey) := by
  rw [setValue_pgsz, value_int_of_int32 pVal h]

/-- For a value that fits in a C `int`, the `automerge` branch stores the value
(4 in place of 1) when it is integral and lies in [0, 64], and otherwise raises
the bad-key flag and leaves the configuration unchanged. -/
theorem setValue_automerge_int32 (pConfig : Fts5Config) (pVal : sqlite3_value)
    (pbBadkey : Option Nat) (h : -2 ^ 31 ≤ pVal.i64 ∧ pVal.i64 < 2 ^ 31) :
    sqlite3Fts5ConfigSetValue pConfig "automerge".toList pVal pbBadkey
      = if pVal.numericType = SQLITE_INTEGER ∧ 0 ≤ pVal.i64 ∧ pVal.i64 ≤ 64 then
          .ok (SQLITE_OK,
            { pConfig with nAutomerge := if pVal.i64 = 1 then 4 else pVal.i64 }, pbBadkey)
        else .ok (SQLITE_OK, pConfig, setBadkey pbBadkey) := by
  rw [setValue_automerge, value_int_of_int32 pVal h]

/-- C14, the failing input: the integral value 4294971392 (2^32 + 4096), which
is greater than 131072, reaches the range check as the `int` 4096; the setter
stores 4096 as the page size and does not raise the bad-key flag.  The value
131073, which fits in an `int`, is rejected as the claim says. -/
theorem setValue_pgsz_wide_integer (pConfig : Fts5Config) (pbBadkey : Option Nat) :
    sqlite3Fts5ConfigSetValue pConfig "pgsz".toList ⟨SQLITE_INTEGER, 4294971392, none⟩ pbBadkey
        = .ok (SQLITE_OK, { pConfig with pgsz := 4096 }, pbBadkey)
    ∧ sqlite3Fts5ConfigSetValue pConfig "pgsz".toList ⟨SQLITE_INTEGER, 131073, none⟩ pbBadkey
        = .ok (SQLITE_OK, pConfig, setBadkey pbBadkey) := by
  constructor <;> rw [setValue_pgsz] <;> simp [sqlite3_value_int, SQLITE_INTEGER]

/-- C15, the failing input: the integral value 4294967301 (2^32 + 5), which lies
outside [0, 64], reaches the range check as the `int` 5; the setter stores 5 as
the automerge level and does not raise the bad-key flag.  The value 65, which
fits in an `int`, is rejected, and the value 1 stores the level 4. -/
theorem setValue_automerge_wide_integer (pConfig : Fts5Config) (pbBadkey : Option Nat) :
    sqlite3Fts5ConfigSetValue pConfig "automerge".toList ⟨SQLITE_INTEGER, 4294967301, none⟩
        pbBadkey
        = .ok (SQLITE_OK, { pConfig with nAutomerge := 5 }, pbBadkey)
    ∧ sqlite3Fts5ConfigSetValue pConfig "automerge".toList ⟨SQLITE_INTEGER, 65, none⟩ pbBadkey
        = .ok (SQLITE_OK, pConfig, setBadkey pbBadkey)
    ∧ sqlite3Fts5ConfigSetValue pConfig "automerge".toList ⟨SQLITE_INTEGER, 1, none⟩ pbBadkey
        = .ok (SQLITE_OK, { pConfig with nAutomerge := 4 }, pbBadkey) := by
  refine ⟨?_, ?_, ?_⟩ <;> rw [setValue_automerge] <;> simp [sqlite3_value_int, SQLITE_INTEGER]

/-! ## Number literals -/

/-- C11, the failing input: on the text `+` the scan succeeds having consumed
the sign alone, a span with no digit; likewise on `-x`.  On `12.` the cursor
stops at the dot, and on `abc`, where nothing would be consumed, the scan
fails. -/
theorem skipLiteral_bare_sign :
    fts5ConfigSkipLiteral (some "+\x00".toList) = .ok (some "\x00".toList)
    ∧ fts5ConfigSkipLiteral (some "-x\x00".toList) = .ok (some "x\x00".toList)
    ∧ fts5ConfigSkipLiteral (some "12.\x00".toList) = .ok (some ".\x00".toList)
    ∧ fts5ConfigSkipLiteral (some "abc\x00".toList) = .ok none :=
  ⟨rfl, rfl, rfl, rfl⟩

theorem digitLoop_run (ds : Text) (hds : ∀ c ∈ ds, c.isDigit = true) (e : Char) (r : Buf)
    (he : fts5_isdigit e = false) : digitLoop (ds ++ e :: r) = .ok (e :: r) := by
  induction ds with
  | nil => simp [digitLoop, he]
  | cons x ds ih =>
    have hx : fts5_isdigit x = true := (isdigit_iff x).mpr (hds x (by simp))
    simp [digitLoop, hx, ih (fun c hc => hds c (by simp [hc]))]

/-- The number case of `fts5ConfigSkipLiteral`, entered with the cursor `p`
just past the sign, if there is one. -/
theorem skipLiteral_number (c : Char) (r : Buf)
    (hn : ¬ (c = 'n' ∨ c = 'N')) (hx : ¬ (c = 'x' ∨ c = 'X')) (hq : c ≠ SQ) :
    fts5ConfigSkipLiteral (some (c :: r))
      = (do
          let p ← digitLoop (if c = '+' ∨ c = '-' then r else c :: r)
          let p ← (match p with
            | [] => Res.fault Fault.readPastEnd
            | e :: r1 =>
              if e = '.' then
                match r1 with
                | [] => Res.fault Fault.readPastEnd
                | e1 :: r2 => if fts5_isdigit e1 then digitLoop r2 else Res.ok p
              else Res.ok p)
          if p.length = (c :: r).length then pure none else pure (some p)) := by
  rw [fts5ConfigSkipLiteral.eq_def]
  simp only [if_neg hn, if_neg hx, if_neg hq]

/-- An unsigned numeral: digits, or digits (possibly none), a dot and at least
one digit, before a character `d` that is neither a digit nor a dot. -/
theorem number_tail (ds : Text) (hds : ∀ c ∈ ds, c.isDigit = true)
    (frac : Text) (hfrac : frac = [] ∨ ∃ f fs, frac = '.' :: f :: fs ∧
      ∀ c ∈ f :: fs, c.isDigit = true)
    (d : Char) (tl : Buf) (hd : fts5_isdigit d = false) (hdot : d ≠ '.') :
    (do
      let p ← digitLoop (ds ++ frac ++ d :: tl)
      (match p with
        | [] => Res.fault Fault.readPastEnd
        | e :: r1 =>
          if e = '.' then
            match r1 with
            | [] => Res.fault Fault.readPastEnd
            | e1 :: r2 => if fts5_isdigit e1 then digitLoop r2 else Res.ok p
          else Res.ok p)) = Res.ok (d :: tl) := by
  rcases hfrac with rfl | ⟨f, fs, rfl, hfs⟩
  · rw [List.append_nil, digitLoop_run ds hds d tl hd]
    simp [hdot]
  · have hdotnd : fts5_isdigit '.' = false := by decide
    have hf : fts5_isdigit f = true := (isdigit_iff f).mpr (hfs f (by simp))
    rw [List.append_assoc, List.cons_append, digitLoop_run ds hds '.' _ hdotnd]
    simp only [bind_ok, if_true, List.cons_append, hf]
    exact digitLoop_run fs (fun c hc => hfs c (by simp [hc])) d tl hd

theorem bind_assoc_res {α β γ : Type} (x : Res α) (f : α → Res β) (g : β → Res γ) :
    ((x >>= f) >>= g) = (x >>= fun a => f a >>= g) := by
  cases x <;> rfl

theorem numeral_head (c : Char) (h : c.isDigit = true ∨ c = '.') :
    ¬ (c = 'n' ∨ c = 'N') ∧ ¬ (c = 'x' ∨ c = 'X') ∧ c ≠ SQ ∧ ¬ (c = '+' ∨ c = '-')
      ∧ c ≠ ' ' := by
  rcases h with h | rfl
  · refine ⟨?_, ?_, ?_, ?_, ?_⟩
    · rintro (rfl | rfl) <;> exact absurd h (by decide)
    · rintro (rfl | rfl) <;> exact absurd h (by decide)
    · rintro rfl; exact absurd h (by decide)
    · rintro (rfl | rfl) <;> exact absurd h (by decide)
    · rintro rfl; exact absurd h (by decide)
  · decide

/-- A numeral, i.e. a sign, digits and a fraction that are not all empty, is
consumed whole before a character that is neither a digit nor a dot. -/
theorem skipLiteral_numeral (sign ds frac : Text) (hsign : isSign sign)
    (hds : ∀ c ∈ ds, c.isDigit = true)
    (hfrac : frac = [] ∨ ∃ f fs, frac = '.' :: f :: fs ∧ ∀ c ∈ f :: fs, c.isDigit = true)
    (hne : ds ++ frac ≠ [])
    (d : Char) (tl : Buf) (hd : fts5_isdigit d = false) (hdot : d ≠ '.') :
    fts5ConfigSkipLiteral (some (sign ++ (ds ++ frac ++ d :: tl))) = .ok (some (d :: tl)) := by
  have htail := number_tail ds hds frac hfrac d tl hd hdot
  obtain ⟨c, r, hcr, hc⟩ : ∃ c r, ds ++ frac ++ d :: tl = c :: r
      ∧ (c.isDigit = true ∨ c = '.') := by
    cases ds with
    | nil =>
      rcases hfrac with rfl | ⟨f, fs, rfl, _⟩
      · exact absurd rfl hne
      · exact ⟨'.', _, rfl, Or.inr rfl⟩
    | cons x ds => exact ⟨x, _, rfl, Or.inl (hds x (by simp))⟩
  have hlen : (d :: tl).length < (c :: r).length := by
    rw [← hcr]
    have : 0 < (ds ++ frac).length := List.length_pos.mpr hne
    simp only [List.length_append, List.length_cons] at this ⊢
    omega
  obtain ⟨h1, h2, h3, h4, _⟩ := numeral_head c hc
  rw [hcr] at htail ⊢
  simp only [List.length_cons] at hlen
  rcases hsign with rfl | rfl | rfl
  · rw [List.nil_append, skipLiteral_number c r h1 h2 h3, if_neg h4, ← bind_assoc_res,
      htail, bind_ok, if_neg (by simp only [List.length_cons]; omega)]
    rfl
  · rw [List.singleton_append, skipLiteral_number '+' _ (by decide) (by decide) (by decide),
      if_pos (Or.inl rfl), ← bind_assoc_res, htail, bind_ok,
      if_neg (by simp only [List.length_cons]; omega)]
    rfl
  · rw [List.singleton_append, skipLiteral_number '-' _ (by decide) (by decide) (by decide),
      if_pos (Or.inr rfl), ← bind_assoc_res, htail, bind_ok,
      if_neg (by simp only [List.length_cons]; omega)]
    rfl

/-! ## The literals of the rank grammar -/

theorem upperToLower_eq_n (c : Char) (h : upperToLower c = 'n') : c = 'n' ∨ c = 'N' := by
  by_cases hc : 'A' ≤ c ∧ c ≤ 'Z'
  · have e := char_eq_of_toNat c
    have h1 := (char_le_iff 'A' c).mp hc.1
    have h2 := (char_le_iff c 'Z').mp hc.2
    rw [show 'A'.toNat = 65 from rfl] at h1
    rw [show 'Z'.toNat = 90 from rfl] at h2
    generalize c.toNat = n at e h1 h2
    have hcn := e n rfl
    subst hcn
    interval_cases n <;> first | exact absurd h (by decide) | decide
  · left
    simpa [upperToLower, hc] using h

theorem strnicmp_of_map_eq (kw : Text) (hnul : NUL ∉ kw) :
    ∀ (w : Text) (rest : Buf), kw.map upperToLower = w.map upperToLower →
      sqlite3_strnicmp kw (w ++ rest) kw.length = 0 := by
  induction kw with
  | nil => intro w rest _; rfl
  | cons k kw ih =>
    intro w rest h
    cases w with
    | nil => simp at h
    | cons x w =>
      simp only [List.map_cons, List.cons.injEq] at h
      have hk : k ≠ NUL := fun e => hnul (by simp [e])
      simp only [List.length_cons, sqlite3_strnicmp, List.cons_append, List.headD_cons,
        List.tail_cons, ne_eq, hk, not_false_eq_true, h.1, and_self, if_true]
      exact ih (fun hm => hnul (by simp [hm])) w rest h.2

theorem skipLiteral_null (w : Text) (hw : w.map upperToLower = "null".toList) (tl : Buf) :
    fts5ConfigSkipLiteral (some (w ++ tl)) = .ok (some tl) := by
  have hlen : w.length = 4 := by
    have := congrArg List.length hw
    simpa using this
  match w, hlen, hw with
  | [a, b, c, d], _, hw =>
    simp only [List.map_cons, List.map_nil, String.toList, List.cons.injEq] at hw
    have ha := upperToLower_eq_n a hw.1
    have hcmp := strnicmp_of_map_eq "null".toList (by decide) [a, b, c, d] tl
      (by simp [hw.1, hw.2.1, hw.2.2.1, hw.2.2.2.1]; decide)
    rw [fts5ConfigSkipLiteral.eq_def]
    simp only [List.cons_append, List.nil_append, if_pos ha]
    rw [if_pos (by simpa using hcmp)]
    rfl

theorem skipLiteral_blob_run (x : Char) (h : Text) (hx : x = 'x' ∨ x = 'X')
    (hh : ∀ c ∈ h, c ∈ hexDigits) (heven : h.length % 2 = 0) (tl : Buf) :
    fts5ConfigSkipLiteral (some (x :: SQ :: h ++ SQ :: tl)) = .ok (some tl) := by
  have hn : ¬ (x = 'n' ∨ x = 'N') := by rcases hx with rfl | rfl <;> decide
  have hrun := hexLoop_run h SQ tl (fun c hc => (isHexChar_iff c).mpr (hh c hc)) (by decide)
  rw [fts5ConfigSkipLiteral.eq_def]
  simp only [List.cons_append, if_neg hn, if_pos hx, if_true, hrun, bind_ok, true_and,
    List.length_cons, List.length_append]
  rw [if_pos (by omega)]
  rfl

theorem skipLiteral_string (s : Text) (hs : NUL ∉ s) (d : Char) (tl : Buf) (hd : d ≠ SQ) :
    fts5ConfigSkipLiteral (some (SQ :: doubleQuotes SQ s ++ SQ :: d :: tl))
      = .ok (some (d :: tl)) := by
  rw [fts5ConfigSkipLiteral.eq_def]
  simp only [List.cons_append]
  rw [if_neg (by decide), if_neg (by decide), if_pos trivial]
  exact stringLoop_terminated s hs d tl hd

/-- Every literal of the rank grammar is consumed whole before a space, a comma
or a closing parenthesis. -/
theorem skipLiteral_literal (lit : Text) (hlit : SqlLiteral lit) (d : Char) (tl : Buf)
    (hd : d = ' ' ∨ d = ',' ∨ d = ')') :
    fts5ConfigSkipLiteral (some (lit ++ d :: tl)) = .ok (some (d :: tl)) := by
  have hdig : fts5_isdigit d = false := by rcases hd with rfl | rfl | rfl <;> decide
  have hdot : d ≠ '.' := by rcases hd with rfl | rfl | rfl <;> decide
  have hsq : d ≠ SQ := by rcases hd with rfl | rfl | rfl <;> decide
  cases hlit with
  | null _ hw => exact skipLiteral_null lit hw (d :: tl)
  | blob x h hx hh heven =>
    have := skipLiteral_blob_run x h hx hh heven (d :: tl)
    simpa [List.append_assoc] using this
  | string s hs =>
    have := skipLiteral_string s hs d tl hsq
    simpa [List.append_assoc] using this
  | integer sign ds hsign hne hds =>
    have := skipLiteral_numeral sign ds [] hsign hds (Or.inl rfl) (by simpa using hne) d tl
      hdig hdot
    simpa [List.append_assoc] using this
  | decimal sign ds fs hsign hds hne hfs =>
    obtain ⟨f, fs, rfl⟩ := List.exists_cons_of_ne_nil hne
    have := skipLiteral_numeral sign ds ('.' :: f :: fs) hsign hds
      (Or.inr ⟨f, fs, rfl, hfs⟩) (by simp) d tl hdig hdot
    simpa [List.append_assoc] using this

theorem literal_head (lit : Text) (hlit : SqlLiteral lit) :
    ∃ c r, lit = c :: r ∧ c ≠ ' ' ∧ c ≠ ')' := by
  cases hlit with
  | null _ hw =>
    cases lit with
    | nil => simp at hw
    | cons a w =>
      simp only [List.map_cons, String.toList, List.cons.injEq] at hw
      rcases upperToLower_eq_n a hw.1 with rfl | rfl
      · exact ⟨_, w, rfl, by decide, by decide⟩
      · exact ⟨_, w, rfl, by decide, by decide⟩
  | blob x h hx hh heven =>
    rcases hx with rfl | rfl
    · exact ⟨_, _, rfl, by decide, by decide⟩
    · exact ⟨_, _, rfl, by decide, by decide⟩
  | string s hs => exact ⟨SQ, _, rfl, by decide, by decide⟩
  | integer sign ds hsign hne hds =>
    obtain ⟨x, ds, rfl⟩ := List.exists_cons_of_ne_nil hne
    have hx := hds x (by simp)
    have h1 : x ≠ ' ' := by rintro rfl; exact absurd hx (by decide)
    have h2 : x ≠ ')' := by rintro rfl; exact absurd hx (by decide)
    rcases hsign with rfl | rfl | rfl
    · exact ⟨x, ds, rfl, h1, h2⟩
    · exact ⟨'+', _, rfl, by decide, by decide⟩
    · exact ⟨'-', _, rfl, by decide, by decide⟩
  | decimal sign ds fs hsign hds hne hfs =>
    rcases hsign with rfl | rfl | rfl
    · cases ds with
      | nil => exact ⟨'.', fs, rfl, by decide, by decide⟩
      | cons x ds =>
        have hx := hds x (by simp)
        have h1 : x ≠ ' ' := by rintro rfl; exact absurd hx (by decide)
        have h2 : x ≠ ')' := by rintro rfl; exact absurd hx (by decide)
        exact ⟨x, _, rfl, h1, h2⟩
    · exact ⟨'+', _, rfl, by decide, by decide⟩
    · exact ⟨'-', _, rfl, by decide, by decide⟩

/-! ## The rank-spec parser -/

theorem barewordLoop_run (w : Text) (hw : ∀ c ∈ w, isBarewordChar c = true) (e : Char)
    (tl : Buf) (he : isBarewordChar e = false) : barewordLoop (w ++ e :: tl) = .ok (e :: tl) := by
  induction w with
  | nil => simp [barewordLoop, he]
  | cons c w ih =>
    simp [barewordLoop, hw c (by simp), ih (fun x hx => hw x (by simp [hx]))]

theorem between_append (s : Text) (p : Buf) : between (s ++ p) p = s := by
  simp [between]

/-- One argument of the list: spaces, a literal, spaces, and after them a comma
or a closing parenthesis, at which the cursor is left. -/
theorem skipArgs_item (a b : Nat) (lit : Text) (hlit : SqlLiteral lit) (t : Char) (rest : Buf)
    (ht : t = ',' ∨ t = ')') :
    (do
      let p ← fts5ConfigSkipWhitespace (some (spaces a ++ lit ++ spaces b ++ t :: rest))
      let p ← fts5ConfigSkipLiteral p
      fts5ConfigSkipWhitespace p) = .ok (some (t :: rest)) := by
  obtain ⟨c, r, rfl, hc, _⟩ := literal_head lit hlit
  obtain ⟨e, r2, he, hee⟩ := spaces_cons_head b t rest
  have htsp : t ≠ ' ' := by rcases ht with rfl | rfl <;> decide
  have hd : e = ' ' ∨ e = ',' ∨ e = ')' := by
    rcases hee with rfl | rfl
    · exact Or.inl rfl
    · exact Or.inr ht
  have h1 : skipSpaces (spaces a ++ c :: (r ++ spaces b ++ t :: rest))
      = .ok (c :: (r ++ spaces b ++ t :: rest)) := skipSpaces_spaces a c _ hc
  have h2 := skipLiteral_literal (c :: r) hlit e r2 hd
  rw [← he] at h2
  have h3 : skipSpaces (spaces b ++ t :: rest) = .ok (t :: rest) := skipSpaces_spaces b t _ htsp
  simp only [List.append_assoc, List.cons_append] at h1 h2 ⊢
  simp only [fts5ConfigSkipWhitespace, h1, bind_ok, pure_eq_ok, h2, h3]

theorem intercalate_comma_cons_cons (x y : Text) (l : List Text) :
    List.intercalate [','] (x :: y :: l) = x ++ ',' :: List.intercalate [','] (y :: l) := by
  simp [List.intercalate]

/-- The loop of `fts5ConfigSkipArgs` on a non-empty list of literals separated
by commas, each with spaces around it, and followed by `)`: it stops at the
closing parenthesis. -/
theorem skipArgsLoop_items (items : List (Nat × Text × Nat)) (tl : Buf) :
    items ≠ [] → (∀ e ∈ items, SqlLiteral e.2.1) →
    ∀ fuel, items.length ≤ fuel →
      skipArgsLoop fuel
          (some (List.intercalate [','] (items.map paddedEntry) ++ ')' :: tl))
        = .ok (some (')' :: tl)) := by
  induction items with
  | nil => intro h; exact absurd rfl h
  | cons e items ih =>
    intro _ hlit fuel hfuel
    obtain ⟨fuel, rfl⟩ : ∃ k, fuel = k + 1 := ⟨fuel - 1, by simp at hfuel; omega⟩
    cases items with
    | nil =>
      have hstep := skipArgs_item e.1 e.2.2 e.2.1 (hlit e (by simp)) ')' tl (Or.inr rfl)
      have htxt : List.intercalate [','] (List.map paddedEntry [e]) ++ ')' :: tl
          = spaces e.1 ++ e.2.1 ++ spaces e.2.2 ++ ')' :: tl := by
        simp [List.intercalate, paddedEntry]
      rw [htxt, skipArgsLoop, ← bind_assoc_res, ← bind_assoc_res]
      rw [bind_assoc_res (fts5ConfigSkipWhitespace _), hstep]
      rfl
    | cons e2 items =>
      have hrec := ih (by simp) (fun x hx => hlit x (by simp [hx])) fuel
        (by simp at hfuel ⊢; omega)
      have hstep := skipArgs_item e.1 e.2.2 e.2.1 (hlit e (by simp)) ','
        (List.intercalate [','] ((e2 :: items).map paddedEntry) ++ ')' :: tl) (Or.inl rfl)
      have htxt : List.intercalate [','] (List.map paddedEntry (e :: e2 :: items)) ++ ')' :: tl
          = spaces e.1 ++ e.2.1 ++ spaces e.2.2
            ++ ',' :: (List.intercalate [','] ((e2 :: items).map paddedEntry) ++ ')' :: tl) := by
        rw [List.map_cons, List.map_cons, intercalate_comma_cons_cons]
        simp [paddedEntry, List.append_assoc]
      rw [htxt, skipArgsLoop, ← bind_assoc_res, ← bind_assoc_res]
      rw [bind_assoc_res (fts5ConfigSkipWhitespace _), hstep]
      simp only [bind_ok]
      rw [if_neg (by decide), if_neg (by decide)]
      exact hrec

theorem length_intercalate_comma_ge (xs : List Text) :
    xs.length ≤ (List.intercalate [','] xs).length + 1 := by
  induction xs with
  | nil => simp
  | cons x xs ih =>
    cases xs with
    | nil => simp
    | cons y xs =>
      rw [intercalate_comma_cons_cons]
      simp only [List.length_cons, List.length_append] at ih ⊢
      omega

theorem dropWhile_spaces (k : Nat) (c : Char) (r : Text) (hc : c ≠ ' ') :
    (spaces k ++ c :: r).dropWhile (fun x => x = ' ') = c :: r := by
  induction k with
  | zero => simp [spaces, List.dropWhile, hc]
  | succ k ih =>
    simp only [spaces] at ih
    simp [spaces, List.replicate_succ, List.dropWhile, ih]

theorem spaces_add (a b : Nat) : spaces a ++ spaces b = spaces (a + b) := by
  unfold spaces
  rw [List.replicate_add]

/-- The leading spaces of the first argument, split off the argument list. -/
theorem intercalate_padded_head (e : Nat × Text × Nat) (rest : List (Nat × Text × Nat)) :
    List.intercalate [','] ((e :: rest).map paddedEntry)
      = spaces e.1 ++ List.intercalate [','] (((0, e.2.1, e.2.2) :: rest).map paddedEntry) := by
  cases rest with
  | nil => simp [List.intercalate, paddedEntry, spaces]
  | cons e2 rest =>
    rw [List.map_cons, List.map_cons, intercalate_comma_cons_cons, List.map_cons, List.map_cons,
      intercalate_comma_cons_cons]
    simp [paddedEntry, spaces, List.append_assoc]

/-- The argument list starts with the first character of its first literal
once the leading spaces are split off. -/
theorem intercalate_padded_cons (lit : Text) (b : Nat) (rest : List (Nat × Text × Nat))
    (hlit : SqlLiteral lit) :
    ∃ c r, List.intercalate [','] (((0, lit, b) :: rest).map paddedEntry) = c :: r
      ∧ c ≠ ' ' ∧ c ≠ ')' := by
  obtain ⟨c, r, rfl, h1, h2⟩ := literal_head lit hlit
  cases rest with
  | nil =>
    exact ⟨c, r ++ spaces b, by simp [List.intercalate, paddedEntry, spaces], h1, h2⟩
  | cons e2 rest =>
    refine ⟨c, r ++ spaces b ++ ',' :: List.intercalate [','] ((e2 :: rest).map paddedEntry),
      ?_, h1, h2⟩
    rw [List.map_cons, List.map_cons, intercalate_comma_cons_cons]
    simp [paddedEntry, spaces]

/-- The rank parser up to the opening parenthesis: a bareword `f`, with
optional spaces before and after it, is copied out as the function name. -/
theorem parseRank_name (a0 a1 : Nat) (f : Text) (hne : f ≠ [])
    (hf : ∀ c ∈ f, isBarewordChar c = true) (x : Char) (xs : Buf) :
    fts5ConfigParseRank (some (spaces a0 ++ f ++ spaces a1 ++ '(' :: x :: xs))
      = (do
          let p ← skipSpaces (x :: xs)
          match p with
          | [] => Res.fault Fault.readPastEnd
          | c :: _ =>
            if c ≠ ')' then do
              let q ← fts5ConfigSkipArgs p
              match q with
              | none => pure (SQLITE_ERROR, none, none)
              | some q =>
                if q.length ≠ p.length then pure (SQLITE_OK, some f, some (between p q))
                else pure (SQLITE_OK, some f, none)
            else pure (SQLITE_OK, some f, none)) := by
  obtain ⟨c, w, rfl⟩ := List.exists_cons_of_ne_nil hne
  have hc : c ≠ ' ' := by
    have := hf c (by simp)
    rintro rfl
    exact absurd this (by decide)
  obtain ⟨e, r, he, hee⟩ := spaces_cons_head a1 '(' (x :: xs)
  have hnb : isBarewordChar e = false := by rcases hee with rfl | rfl <;> decide
  have h1 : skipSpaces (spaces a0 ++ c :: (w ++ (spaces a1 ++ '(' :: x :: xs)))
      = .ok (c :: (w ++ (spaces a1 ++ '(' :: x :: xs))) := skipSpaces_spaces a0 c _ hc
  have h2 : barewordLoop (c :: (w ++ (spaces a1 ++ '(' :: x :: xs)))
      = .ok (spaces a1 ++ '(' :: x :: xs) := by
    have := barewordLoop_run (c :: w) hf e r hnb
    rw [← he] at this
    simpa using this
  have h3 : skipSpaces (spaces a1 ++ '(' :: x :: xs) = .ok ('(' :: x :: xs) :=
    skipSpaces_spaces a1 '(' _ (by decide)
  have h4 : between (c :: (w ++ (spaces a1 ++ '(' :: x :: xs))) (spaces a1 ++ '(' :: x :: xs)
      = c :: w := by
    have := between_append (c :: w) (spaces a1 ++ '(' :: x :: xs)
    simpa using this
  have h5 : ¬ ((spaces a1 ++ '(' :: x :: xs).length
      = (c :: (w ++ (spaces a1 ++ '(' :: x :: xs))).length) := by
    simp only [List.length_cons, List.length_append]
    omega
  unfold fts5ConfigParseRank
  simp only [List.append_assoc, List.cons_append, fts5ConfigSkipWhitespace, h1, bind_ok,
    pure_eq_ok, fts5ConfigSkipBareword, h2, if_neg h5, h3, h4, ne_eq, not_true_eq_false,
    if_false]

/-- C12: for every bareword `f` and every list of SQL literals, each given with
the numbers of spaces before and after it, the rank parser applied to optional
spaces, `f`, optional spaces, `(`, optional spaces, the literals separated by
commas, and `)` succeeds and returns the name `f` together with raw arguments
that are null when the list is empty and otherwise the text from the first
non-space character after `(` up to but excluding `)`. -/
theorem parseRank_grammar (a0 a1 a2 : Nat) (f : Text) (items : List (Nat × Text × Nat))
    (hne : f ≠ []) (hf : ∀ c ∈ f, isBarewordChar c = true)
    (hlit : ∀ e ∈ items, SqlLiteral e.2.1) :
    fts5ConfigParseRank (some (spaces a0 ++ f ++ spaces a1 ++ "(".toList ++ spaces a2
        ++ List.intercalate [','] (items.map paddedEntry) ++ ")".toList ++ [NUL]))
      = .ok (SQLITE_OK, some f,
          if items = [] then none
          else some ((spaces a2 ++ List.intercalate [','] (items.map paddedEntry)).dropWhile
            (fun c => c = ' '))) := by
  cases items with
  | nil =>
    obtain ⟨x, xs, hx, _⟩ := spaces_cons_head a2 ')' [NUL]
    have hsp : skipSpaces (spaces a2 ++ ')' :: [NUL]) = .ok (')' :: [NUL]) :=
      skipSpaces_spaces a2 ')' _ (by decide)
    have htxt : spaces a0 ++ f ++ spaces a1 ++ "(".toList ++ spaces a2
        ++ List.intercalate [','] (([] : List (Nat × Text × Nat)).map paddedEntry)
        ++ ")".toList ++ [NUL]
        = spaces a0 ++ f ++ spaces a1 ++ '(' :: x :: xs := by
      rw [← hx]
      simp [List.intercalate, List.append_assoc]
    rw [htxt, parseRank_name a0 a1 f hne hf x xs, ← hx, hsp]
    rfl
  | cons e rest =>
    obtain ⟨c, r, hbody, hc, hcp⟩ :=
      intercalate_padded_cons e.2.1 e.2.2 rest (hlit e (by simp))
    have hsplit := intercalate_padded_head e rest
    obtain ⟨x, xs, hx, _⟩ := spaces_cons_head (a2 + e.1) c (r ++ ')' :: [NUL])
    have hsp : skipSpaces (spaces (a2 + e.1) ++ c :: (r ++ ')' :: [NUL]))
        = .ok (c :: (r ++ ')' :: [NUL])) := skipSpaces_spaces (a2 + e.1) c _ hc
    have htxt : spaces a0 ++ f ++ spaces a1 ++ "(".toList ++ spaces a2
        ++ List.intercalate [','] ((e :: rest).map paddedEntry) ++ ")".toList ++ [NUL]
        = spaces a0 ++ f ++ spaces a1 ++ '(' :: x :: xs := by
      rw [← hx, hsplit, hbody, ← spaces_add]
      simp [List.append_assoc]
    have hloop := skipArgsLoop_items ((0, e.2.1, e.2.2) :: rest) [NUL] (by simp)
      (by
        intro y hy
        rcases List.mem_cons.mp hy with rfl | hy
        · exact hlit e (by simp)
        · exact hlit y (by simp [hy]))
      ((c :: (r ++ ')' :: [NUL])).length + 1)
      (by
        have := length_intercalate_comma_ge (((0, e.2.1, e.2.2) :: rest).map paddedEntry)
        rw [hbody] at this
        simp only [List.length_map, List.length_cons, List.length_append] at this ⊢
        omega)
    rw [hbody] at hloop
    have hargs : fts5ConfigSkipArgs (c :: (r ++ ')' :: [NUL])) = .ok (some (')' :: [NUL])) := by
      unfold fts5ConfigSkipArgs
      simpa using hloop
    have hbetween : between (c :: (r ++ ')' :: [NUL])) (')' :: [NUL]) = c :: r := by
      have := between_append (c :: r) (')' :: [NUL])
      simpa using this
    have hdrop : (spaces a2 ++ List.intercalate [','] ((e :: rest).map paddedEntry)).dropWhile
        (fun c => c = ' ') = c :: r := by
      rw [hsplit, hbody, ← List.append_assoc, spaces_add]
      exact dropWhile_spaces (a2 + e.1) c r hc
    rw [htxt, parseRank_name a0 a1 f hne hf x xs, ← hx, hsp, hdrop]
    simp only [bind_ok, ne_eq, hcp, not_false_eq_true, if_true, hargs, pure_eq_ok, hbetween,
      List.length_cons, List.length_append, List.length_nil, if_false, reduceCtorEq]
    rw [if_pos (by omega)]

theorem parseRank_grammar_witness :
    fts5ConfigParseRank (some "bm25(1.0, 2)\x00".toList)
        = .ok (SQLITE_OK, some "bm25".toList, some "1.0, 2".toList)
    ∧ fts5ConfigParseRank (some "bm25()\x00".toList)
        = .ok (SQLITE_OK, some "bm25".toList, none) := by
  have hb : ∀ c ∈ "bm25".toList, isBarewordChar c = true := by decide
  have l1 : SqlLiteral "1.0".toList :=
    SqlLiteral.decimal [] ['1'] ['0'] (Or.inl rfl) (by decide) (by decide) (by decide)
  have l2 : SqlLiteral "2".toList :=
    SqlLiteral.integer [] ['2'] (Or.inl rfl) (by decide) (by decide)
  have h1 := parseRank_grammar 0 0 0 "bm25".toList [(0, "1.0".toList, 0), (1, "2".toList, 0)]
    (by decide) hb
    (by
      intro e he
      rcases List.mem_cons.mp he with rfl | he
      · exact l1
      · rcases List.mem_cons.mp he with rfl | he
        · exact l2
        · simp at he)
  have h2 := parseRank_grammar 0 0 0 "bm25".toList [] (by decide) hb (by simp)
  exact ⟨h1, h2⟩

/-! ## Reserved column names -/

theorem stricmp_of_map_eq (a : Text) :
    ∀ b : Text, a.map upperToLower = b.map upperToLower → sqlite3_stricmp a b = 0 := by
  induction a with
  | nil =>
    intro b h
    cases b with
    | nil => rfl
    | cons y b => simp at h
  | cons x a ih =>
    intro b h
    cases b with
    | nil => simp at h
    | cons y b =>
      simp only [List.map_cons, List.cons.injEq] at h
      simp only [sqlite3_stricmp, h.1, if_true]
      exact ih b h.2

theorem configParseColumn_reserved (pRet : Fts5Config) (zErr : Option Text) (zCol : Buf)
    (name : Text) (hname : cstr zCol = name)
    (hres : name.map upperToLower = FTS5_RANK_NAME ∨ name.map upperToLower = FTS5_ROWID_NAME) :
    configParseColumn pRet SQLITE_OK zErr 0 (some zCol) zCol
      = (SQLITE_ERROR, pRet, some ("reserved fts5 column name: ".toList ++ name)) := by
  have h : 0 = sqlite3_stricmp name FTS5_RANK_NAME ∨ 0 = sqlite3_stricmp name FTS5_ROWID_NAME := by
    rcases hres with h | h
    · exact Or.inl (stricmp_of_map_eq name FTS5_RANK_NAME (h.trans (by decide))).symm
    · exact Or.inr (stricmp_of_map_eq name FTS5_ROWID_NAME (h.trans (by decide))).symm
  simp only [configParseColumn, hname, ne_eq, not_true_eq_false, if_false, if_pos h]

theorem configParseArg_reserved (maxPrefix : Nat) (pGlobal : Fts5Global) (pRet : Fts5Config)
    (zErr : Option Text) (arg name : Text) (hcl : ColumnClause arg name)
    (hres : name.map upperToLower = FTS5_RANK_NAME ∨ name.map upperToLower = FTS5_ROWID_NAME) :
    configParseArg maxPrefix pGlobal pRet arg zErr
      = .ok (SQLITE_ERROR, pRet, some ("reserved fts5 column name: ".toList ++ name)) := by
  cases hcl with
  | bareword c w hchars hq =>
    have hnul : NUL ∉ c :: w := fun h => bareword_ne_nul NUL (hchars NUL h) rfl
    have hdup : fts5Strdup (c :: w) = c :: (w ++ [NUL]) := by
      simp [fts5Strdup, cstr_of_nul_free _ hnul]
    have hloop := barewordLoop_word (c :: w) hchars []
    simp only [List.cons_append] at hloop
    have hcol := configParseColumn_reserved pRet zErr (c :: (w ++ [NUL])) (c :: w)
      (by simpa using cstr_append_nul (c :: w) hnul []) hres
    simp only [configParseArg, hdup, hq, fts5ConfigSkipBareword, hloop, bind_ok, pure_eq_ok]
    simp [hcol]
  | quoted q _ hq hs =>
    have hc := closeQuote_ne_nul q hq
    have hnul : NUL ∉ q :: doubleQuotes (closeQuote q) name ++ [closeQuote q] := by
      have := nul_not_mem_doubleQuotes (closeQuote q) hc name hs
      simp [Ne.symm (openquote_ne_nul q hq), Ne.symm hc, this]
    have hdup : fts5Strdup (q :: doubleQuotes (closeQuote q) name ++ [closeQuote q])
        = q :: doubleQuotes (closeQuote q) name ++ closeQuote q :: NUL :: [] := by
      rw [fts5Strdup, cstr_of_nul_free _ hnul]
      simp
    obtain ⟨z, hz⟩ := fts5Dequote_doubled q name hq hs []
    have hcol := configParseColumn_reserved pRet zErr (name ++ NUL :: z) name
      (cstr_append_nul name hs z) hres
    rw [configParseArg, hdup]
    simp only [List.cons_append, hq, if_true] at hz ⊢
    simp only [hz, bind_ok, pure_eq_ok, hcol]

theorem configParseArgs_failed (maxPrefix : Nat) (pGlobal : Fts5Global) (args : List Text)
    (rc : Nat) (pRet : Fts5Config) (zErr : Option Text) (hrc : rc ≠ SQLITE_OK) :
    configParseArgs maxPrefix pGlobal args rc pRet zErr = .ok (rc, pRet, zErr) := by
  cases args with
  | nil => rfl
  | cons a args => simp [configParseArgs, hrc]

theorem configParseArgs_append (maxPrefix : Nat) (pGlobal : Fts5Global) (pre rest : List Text) :
    ∀ (rc : Nat) (pRet : Fts5Config) (zErr : Option Text),
      configParseArgs maxPrefix pGlobal (pre ++ rest) rc pRet zErr
        = (configParseArgs maxPrefix pGlobal pre rc pRet zErr >>= fun r =>
            configParseArgs maxPrefix pGlobal rest r.1 r.2.1 r.2.2) := by
  induction pre with
  | nil => intro rc pRet zErr; rfl
  | cons a pre ih =>
    intro rc pRet zErr
    by_cases hrc : rc = SQLITE_OK
    · subst hrc
      simp only [List.cons_append, configParseArgs, ne_eq, not_true_eq_false, if_false]
      rw [bind_assoc_res]
      congr 1
      funext r
      exact ih r.1 r.2.1 r.2.2
    · simp only [List.cons_append, configParseArgs, ne_eq, hrc, not_false_eq_true, if_true,
        bind_ok]
      exact (configParseArgs_failed maxPrefix pGlobal rest rc pRet zErr hrc).symm

/-- C17: for every argument vector that holds a column clause whose name,
given as a bareword or inside any of the four quote forms, is up to case
`rank` or `rowid`, and whose earlier arguments were all processed with success
(the table name is not `rank` up to case, and the loop over the arguments
before the clause ends with `SQLITE_OK`), `sqlite3Fts5ConfigParse` fails with
the message "reserved fts5 column name: " followed by the name, and hands back
no configuration object, whatever arguments follow the clause. -/
theorem configParse_reserved_column (maxPrefix : Nat) (pGlobal : Fts5Global)
    (zModule zDb zName : Text) (pre post : List Text) (arg name : Text)
    (zErr zErr1 : Option Text) (cfg1 : Fts5Config)
    (hname : NUL ∉ zName) (htable : zName.map upperToLower ≠ FTS5_RANK_NAME)
    (hpre : configParseArgs maxPrefix pGlobal pre SQLITE_OK (initialConfig zDb zName) zErr
      = .ok (SQLITE_OK, cfg1, zErr1))
    (hcl : ColumnClause arg name)
    (hres : name.map upperToLower = FTS5_RANK_NAME ∨ name.map upperToLower = FTS5_ROWID_NAME) :
    sqlite3Fts5ConfigParse maxPrefix pGlobal (zModule :: zDb :: zName :: (pre ++ arg :: post))
        zErr
      = .ok (SQLITE_ERROR, none, some ("reserved fts5 column name: ".toList ++ name)) := by
  have ht : ¬ (sqlite3_stricmp (cstr zName) FTS5_RANK_NAME = 0) := by
    intro h
    rw [cstr_of_nul_free zName hname] at h
    have e := stricmp_zero zName FTS5_RANK_NAME hname (by decide) h
    exact htable (e.trans (by decide))
  have harg := configParseArg_reserved maxPrefix pGlobal cfg1 zErr1 arg name hcl hres
  have hpost := configParseArgs_failed maxPrefix pGlobal post SQLITE_ERROR cfg1
    (some ("reserved fts5 column name: ".toList ++ name)) (by decide)
  have hall : configParseArgs maxPrefix pGlobal (pre ++ arg :: post) SQLITE_OK
      (initialConfig zDb zName) zErr
      = .ok (SQLITE_ERROR, cfg1, some ("reserved fts5 column name: ".toList ++ name)) := by
    rw [configParseArgs_append, hpre, bind_ok]
    simp only [configParseArgs, ne_eq, not_true_eq_false, if_false, harg, bind_ok, hpost]
  unfold initialConfig at hall
  simp only [sqlite3Fts5ConfigParse, ht, if_false, hall, bind_ok, pure_eq_ok]
  simp [SQLITE_ERROR, SQLITE_OK]

theorem configParse_reserved_column_witness :
    sqlite3Fts5ConfigParse 31 sampleGlobal
        ["fts5".toList, "main".toList, "t".toList,
          "a".toList, "prefix=2".toList, "[RowID]".toList, "b".toList] none
      = .ok (SQLITE_ERROR, none, some "reserved fts5 column name: RowID".toList) :=
  configParse_reserved_column 31 sampleGlobal "fts5".toList "main".toList "t".toList
    ["a".toList, "prefix=2".toList] ["b".toList] "[RowID]".toList "RowID".toList none none
    { initialConfig "main".toList "t".toList with
      azCol := ["a".toList], nCol := 1, aPrefix := some (2 :: List.replicate 30 0), nPrefix := 1 }
    (by decide) (by decide) rfl
    (ColumnClause.quoted '[' "RowID".toList rfl (by decide)) (Or.inr (by decide))

/-! ## A lone quote as the last character -/

/-- The setter, on the key `rank`, when the rank parser reports
`SQLITE_ERROR`: it returns `SQLITE_OK`, raises the bad-key flag and hands the
configuration back unchanged. -/
theorem setValue_rank_of_error (pConfig : Fts5Config) (pVal : sqlite3_value)
    (pbBadkey : Option Nat) (zRank zRankArgs : Option Text)
    (h : fts5ConfigParseRank (sqlite3_value_text pVal) = .ok (SQLITE_ERROR, zRank, zRankArgs)) :
    sqlite3Fts5ConfigSetValue pConfig "rank".toList pVal pbBadkey
      = .ok (SQLITE_OK, pConfig, setBadkey pbBadkey) := by
  have h1 : ¬ (0 = sqlite3_stricmp "rank".toList "cookie".toList) := by decide
  have h2 : ¬ (0 = sqlite3_stricmp "rank".toList "pgsz".toList) := by decide
  have h3 : ¬ (0 = sqlite3_stricmp "rank".toList "automerge".toList) := by decide
  have h4 : 0 = sqlite3_stricmp "rank".toList "rank".toList := by decide
  unfold sqlite3Fts5ConfigSetValue
  rw [if_neg h1, if_neg h2, if_neg h3, if_pos h4, h]
  rfl

/-- C13, the failing input: on the rank text `bm25(` followed by a single
quote, whose argument is an unterminated string, the scan of the argument reads
the byte after the terminator of the text, so the setter does not get as far as
returning success and raising the bad-key flag.  On `bm25`, `bm25(abc)` and
`bm25(1 2)` it does what the claim says. -/
theorem setValue_rank_lone_quote (pConfig : Fts5Config) (pbBadkey : Option Nat) :
    sqlite3Fts5ConfigSetValue pConfig "rank".toList ⟨3, 0, some "bm25(\x27".toList⟩ pbBadkey
        = .fault .readPastEnd
    ∧ fts5ConfigParseRank (some "bm25(\x27\x00".toList) = .fault .readPastEnd
    ∧ sqlite3Fts5ConfigSetValue pConfig "rank".toList ⟨3, 0, some "bm25".toList⟩ pbBadkey
        = .ok (SQLITE_OK, pConfig, setBadkey pbBadkey)
    ∧ sqlite3Fts5ConfigSetValue pConfig "rank".toList ⟨3, 0, some "bm25(abc)".toList⟩ pbBadkey
        = .ok (SQLITE_OK, pConfig, setBadkey pbBadkey)
    ∧ sqlite3Fts5ConfigSetValue pConfig "rank".toList ⟨3, 0, some "bm25(1 2)".toList⟩ pbBadkey
        = .ok (SQLITE_OK, pConfig, setBadkey pbBadkey) :=
  ⟨rfl, rfl, setValue_rank_of_error pConfig _ pbBadkey none none rfl,
    setValue_rank_of_error pConfig _ pbBadkey none none rfl,
    setValue_rank_of_error pConfig _ pbBadkey none none rfl⟩

/-- C18, the failing input: the argument text `porter` followed by a space and
a single quote, whose last token is an unterminated quoted literal, makes the
token loop read the byte after the terminator.  When the text reaches the
directive through `sqlite3Fts5ConfigParse`, where the bytes after the
terminator are what the dequoting of the argument left behind, the directive
written `tokenize="a"" '"` is accepted and the registry is called with three
strings, the last two empty, while `tokenize="porter 'abc"` is rejected as a
parse error. -/
theorem tokenize_lone_quote :
    fts5ConfigParseSpecial 31 sampleGlobal Fts5Config.zero "tokenize\x00".toList 8
        "porter \x27\x00".toList none = .fault .readPastEnd
    ∧ tokenizeLoop 9 (some "a\x22 \x27\x00\x27\x22\x00".toList) []
        = .ok (some "\x00".toList, ["a\x22".toList, [], []])
    ∧ sqlite3Fts5ConfigParse 31 sampleGlobal
        ["fts5".toList, "main".toList, "t".toList, "a".toList,
          "tokenize=\x22a\x22\x22 \x27\x22".toList] none
        = .ok (SQLITE_OK,
            some { initialConfig "main".toList "t".toList with
              azCol := ["a".toList], nCol := 1, pTok := some 3, pTokApi := some 0 }, none)
    ∧ sqlite3Fts5ConfigParse 31 sampleGlobal
        ["fts5".toList, "main".toList, "t".toList, "a".toList,
          "tokenize=\x22porter \x27abc\x22".toList] none
        = .ok (SQLITE_ERROR, none, some "parse error in tokenize directive".toList) :=
  ⟨rfl, rfl, rfl, rfl⟩

/-- C20, the failing input: at a single quote that is the last character of
its text, `fts5ConfigSkipLiteral` reads the byte after the terminator; when the
bytes there are a quote and a double quote, as the dequoting of
`tokenize="a"" '"` leaves them, the scan succeeds and returns a cursor two
bytes past the terminator of the text. -/
theorem skipLiteral_beyond_terminator :
    fts5ConfigSkipLiteral (some "\x27\x00".toList) = .fault .readPastEnd
    ∧ fts5ConfigSkipLiteral (some "\x27\x00\x27\x22\x00".toList) = .ok (some "\x22\x00".toList)
    ∧ between "\x27\x00\x27\x22\x00".toList "\x22\x00".toList = "\x27\x00\x27".toList :=
  ⟨rfl, rfl, rfl⟩

/-! ## Progress and termination of the scanning loops -/

theorem bind_ne_fuel {α β : Type} (x : Res α) (f : α → Res β) (hx : x ≠ .fault .fuel)
    (hf : ∀ a, x = .ok a → f a ≠ .fault .fuel) : (x >>= f) ≠ .fault .fuel := by
  cases x with
  | ok a => exact hf a rfl
  | fault e =>
    intro h
    rw [bind_fault] at h
    exact hx (by rw [Res.fault.inj h])

theorem skipSpaces_cases (b : Buf) :
    skipSpaces b = .fault .readPastEnd
      ∨ ∃ p, skipSpaces b = .ok p ∧ p.length ≤ b.length ∧ 0 < p.length := by
  induction b with
  | nil => exact Or.inl rfl
  | cons c r ih =>
    by_cases hc : fts5_iswhitespace c = true
    · simp only [skipSpaces, hc, if_true]
      rcases ih with h | ⟨p, h, hl, hp⟩
      · exact Or.inl h
      · exact Or.inr ⟨p, h, by simp only [List.length_cons]; omega, hp⟩
    · simp only [skipSpaces, hc]
      exact Or.inr ⟨c :: r, rfl, le_refl _, by simp⟩

theorem barewordLoop_cases (b : Buf) :
    barewordLoop b = .fault .readPastEnd
      ∨ ∃ p, barewordLoop b = .ok p ∧ p.length ≤ b.length ∧ 0 < p.length := by
  induction b with
  | nil => exact Or.inl rfl
  | cons c r ih =>
    by_cases hc : isBarewordChar c = true
    · simp only [barewordLoop, hc, if_true]
      rcases ih with h | ⟨p, h, hl, hp⟩
      · exact Or.inl h
      · exact Or.inr ⟨p, h, by simp only [List.length_cons]; omega, hp⟩
    · simp only [barewordLoop, hc]
      exact Or.inr ⟨c :: r, rfl, le_refl _, by simp⟩

theorem digitLoop_cases (b : Buf) :
    digitLoop b = .fault .readPastEnd
      ∨ ∃ p, digitLoop b = .ok p ∧ p.length ≤ b.length ∧ 0 < p.length := by
  induction b with
  | nil => exact Or.inl rfl
  | cons c r ih =>
    by_cases hc : fts5_isdigit c = true
    · simp only [digitLoop, hc, if_true]
      rcases ih with h | ⟨p, h, hl, hp⟩
      · exact Or.inl h
      · exact Or.inr ⟨p, h, by simp only [List.length_cons]; omega, hp⟩
    · simp only [digitLoop, hc]
      exact Or.inr ⟨c :: r, rfl, le_refl _, by simp⟩

theorem hexLoop_cases (b : Buf) :
    hexLoop b = .fault .readPastEnd
      ∨ ∃ p, hexLoop b = .ok p ∧ p.length ≤ b.length ∧ 0 < p.length := by
  induction b with
  | nil => exact Or.inl rfl
  | cons c r ih =>
    by_cases hc : isHexChar c = true
    · simp only [hexLoop, hc, if_true]
      rcases ih with h | ⟨p, h, hl, hp⟩
      · exact Or.inl h
      · exact Or.inr ⟨p, h, by simp only [List.length_cons]; omega, hp⟩
    · simp only [hexLoop, hc]
      exact Or.inr ⟨c :: r, rfl, le_refl _, by simp⟩

/-- A successful scan by `fts5ConfigSkipBareword` leaves the cursor strictly
ahead of where it started and inside the buffer. -/
theorem skipBareword_cases (b : Buf) :
    fts5ConfigSkipBareword b = .fault .readPastEnd ∨ fts5ConfigSkipBareword b = .ok none
      ∨ ∃ p, fts5ConfigSkipBareword b = .ok (some p) ∧ p.length < b.length ∧ 0 < p.length := by
  unfold fts5ConfigSkipBareword
  rcases barewordLoop_cases b with h | ⟨p, h, hl, hp⟩
  · rw [h]; exact Or.inl rfl
  · rw [h]
    by_cases he : p.length = b.length
    · simp only [bind_ok, he, if_true]
      exact Or.inr (Or.inl rfl)
    · simp only [bind_ok, he, if_false]
      exact Or.inr (Or.inr ⟨p, rfl, by omega, hp⟩)

theorem stringLoop_cases (n : Nat) :
    ∀ b : Buf, b.length ≤ n →
      stringLoop b = .fault .readPastEnd ∨ stringLoop b = .ok none
        ∨ ∃ p, stringLoop b = .ok (some p) ∧ p.length < b.length := by
  induction n with
  | zero =>
    intro b hb
    have : b = [] := List.length_eq_zero.mp (Nat.le_zero.mp hb)
    subst this
    exact Or.inl rfl
  | succ n ih =>
    intro b hb
    rw [stringLoop.eq_def]
    match b, hb with
    | [], _ => exact Or.inl rfl
    | [_], _ => simp
    | c :: d :: r2, hb =>
      simp only [List.length_cons] at hb
      by_cases hc : c = SQ
      · by_cases hd : d = SQ
        · match r2, hb with
          | [], _ => simp [hc, hd]
          | e :: r3, hb =>
            by_cases he : e = NUL
            · simp [hc, hd, he]
            · simp only [hc, hd, if_true, ne_eq, not_true_eq_false, if_false, he]
              rcases ih (e :: r3) (by simp only [List.length_cons] at hb ⊢; omega)
                with h | h | ⟨p, h, hl⟩
              · exact Or.inl h
              · exact Or.inr (Or.inl h)
              · exact Or.inr (Or.inr ⟨p, h, by simp only [List.length_cons] at hl ⊢; omega⟩)
        · simp only [hc, if_true, ne_eq, hd, not_false_eq_true]
          exact Or.inr (Or.inr ⟨d :: r2, rfl, by simp⟩)
      · by_cases hd : d = NUL
        · simp [hc, hd]
        · simp only [hc, if_false, hd]
          rcases ih (d :: r2) (by simp only [List.length_cons]; omega) with h | h | ⟨p, h, hl⟩
          · exact Or.inl h
          · exact Or.inr (Or.inl h)
          · exact Or.inr (Or.inr ⟨p, h, by simp only [List.length_cons] at hl ⊢; omega⟩)

/-- A successful scan by `fts5ConfigSkipLiteral` leaves the cursor strictly
ahead of where it started. -/
theorem skipLiteral_cases (b : Buf) :
    fts5ConfigSkipLiteral (some b) = .fault .readPastEnd
      ∨ fts5ConfigSkipLiteral (some b) = .ok none
      ∨ ∃ p, fts5ConfigSkipLiteral (some b) = .ok (some p) ∧ p.length < b.length := by
  rw [fts5ConfigSkipLiteral.eq_def]
  match b with
  | [] => exact Or.inl rfl
  | c :: r =>
    simp only []
    by_cases hn : c = 'n' ∨ c = 'N'
    · rw [if_pos hn]
      by_cases hcmp : sqlite3_strnicmp "null".toList (c :: r) 4 = 0
      · rw [if_pos hcmp]
        exact Or.inr (Or.inr ⟨_, rfl, by simp only [List.length_drop, List.length_cons]; omega⟩)
      · rw [if_neg hcmp]
        exact Or.inr (Or.inl rfl)
    · rw [if_neg hn]
      by_cases hx : c = 'x' ∨ c = 'X'
      · rw [if_pos hx]
        match r with
        | [] => exact Or.inl rfl
        | d :: r1 =>
          simp only []
          by_cases hd : d = SQ
          · rw [if_pos hd]
            rcases hexLoop_cases r1 with h | ⟨p, h, hl, hp⟩
            · rw [h]; exact Or.inl rfl
            · rw [h]
              match p, hl, hp with
              | e :: r2, hl, _ =>
                simp only [bind_ok, pure_eq_ok]
                split_ifs
                · exact Or.inr (Or.inr ⟨r2, rfl,
                    by simp only [List.length_cons] at hl ⊢; omega⟩)
                · exact Or.inr (Or.inl rfl)
          · rw [if_neg hd]
            exact Or.inr (Or.inl rfl)
      · rw [if_neg hx]
        by_cases hq : c = SQ
        · rw [if_pos hq]
          rcases stringLoop_cases r.length r (le_refl _) with h | h | ⟨p, h, hl⟩
          · exact Or.inl h
          · exact Or.inr (Or.inl h)
          · exact Or.inr (Or.inr ⟨p, h, by simp only [List.length_cons]; omega⟩)
        · rw [if_neg hq]
          have hp0 : (if c = '+' ∨ c = '-' then r else c :: r).length ≤ (c :: r).length := by
            split_ifs <;> simp
          rcases digitLoop_cases (if c = '+' ∨ c = '-' then r else c :: r)
            with h | ⟨p1, h, hl1, hp1⟩
          · rw [h]; exact Or.inl rfl
          · rw [h, bind_ok]
            have key : ∀ p : Buf, p.length ≤ (c :: r).length →
                ((if p.length = (c :: r).length then (pure none : Res (Option Buf))
                    else pure (some p)) = .fault .readPastEnd
                  ∨ (if p.length = (c :: r).length then (pure none : Res (Option Buf))
                    else pure (some p)) = .ok none
                  ∨ ∃ q, (if p.length = (c :: r).length then (pure none : Res (Option Buf))
                    else pure (some p)) = .ok (some q) ∧ q.length < (c :: r).length) := by
              intro p hp
              by_cases he : p.length = (c :: r).length
              · rw [if_pos he]; exact Or.inr (Or.inl rfl)
              · rw [if_neg he]; exact Or.inr (Or.inr ⟨p, rfl, by omega⟩)
            match p1, hl1, hp1 with
            | e :: r1, hl1, _ =>
              simp only []
              by_cases hdot : e = '.'
              · rw [if_pos hdot]
                match r1, hl1 with
                | [], _ => exact Or.inl rfl
                | e1 :: r2, hl1 =>
                  simp only []
                  by_cases hdig : fts5_isdigit e1 = true
                  · rw [if_pos hdig]
                    rcases digitLoop_cases r2 with h2 | ⟨p2, h2, hl2, _⟩
                    · rw [h2]; exact Or.inl rfl
                    · rw [h2, bind_ok]
                      exact key p2 (by simp only [List.length_cons] at hl1 hp0 ⊢; omega)
                  · rw [if_neg hdig, bind_ok]
                    exact key _ (by omega)
              · rw [if_neg hdot, bind_ok]
                exact key _ (by omega)

/-- The loop of `fts5ConfigSkipArgs` terminates: on a buffer of fewer than
`fuel` bytes it never runs out of fuel. -/
theorem skipArgsLoop_fuel (fuel : Nat) :
    ∀ b : Buf, b.length < fuel → skipArgsLoop fuel (some b) ≠ .fault .fuel := by
  induction fuel with
  | zero => intro b hb; exact absurd hb (Nat.not_lt_zero _)
  | succ fuel ih =>
    intro b hb
    rw [skipArgsLoop]
    simp only [fts5ConfigSkipWhitespace]
    rcases skipSpaces_cases b with h1 | ⟨p1, h1, hl1, _⟩
    · rw [h1]; simp
    · rw [h1]
      simp only [bind_ok, pure_eq_ok]
      rcases skipLiteral_cases p1 with h2 | h2 | ⟨p2, h2, hl2⟩
      · rw [h2]; simp
      · rw [h2]; simp
      · rw [h2]
        simp only [bind_ok]
        rcases skipSpaces_cases p2 with h3 | ⟨p3, h3, hl3, hp3⟩
        · rw [h3]; simp
        · rw [h3]
          simp only [bind_ok]
          match p3, hl3, hp3 with
          | c :: r, hl3, _ =>
            simp only []
            by_cases hc : c = ')'
            · rw [if_pos hc]; simp
            · rw [if_neg hc]
              by_cases hcomma : c = ','
              · rw [if_neg (by simpa using hcomma)]
                exact ih r (by simp only [List.length_cons] at hl3; omega)
              · rw [if_pos hcomma]; simp

/-- The loop of `fts5ConfigSkipArgs` terminates on every buffer. -/
theorem skipArgs_terminates (pIn : Buf) : fts5ConfigSkipArgs pIn ≠ .fault .fuel :=
  skipArgsLoop_fuel (pIn.length + 1) pIn (Nat.lt_succ_self _)

theorem dequoteLoop_ne_fuel (q : Char) (n : Nat) :
    ∀ (b : Buf) (out : Text), b.length ≤ n → dequoteLoop q b out ≠ .fault .fuel := by
  induction n with
  | zero =>
    intro b out hb
    have : b = [] := List.length_eq_zero.mp (Nat.le_zero.mp hb)
    subst this
    simp [dequoteLoop]
  | succ n ih =>
    intro b out hb
    rw [dequoteLoop.eq_def]
    match b, hb with
    | [], _ => simp
    | c :: r, hb =>
      simp only [List.length_cons] at hb
      simp only []
      split_ifs with h1 h2
      · simp
      · match r, hb with
        | [], _ => simp
        | d :: r2, hb =>
          simp only []
          split_ifs <;>
            first
            | exact ih r2 _ (by simp only [List.length_cons] at hb; omega)
            | simp
      · exact ih r _ (by omega)

theorem sqlite3Fts5Dequote_ne_fuel (z : Buf) : sqlite3Fts5Dequote z ≠ .fault .fuel := by
  unfold sqlite3Fts5Dequote
  match z with
  | [] => simp
  | quote :: r =>
    simp only []
    split_ifs
    · apply bind_ne_fuel
      · unfold fts5Dequote
        simp only []
        apply bind_ne_fuel
        · exact dequoteLoop_ne_fuel _ r.length r [] (le_refl _)
        · intro a _; simp
      · intro a _; simp
    · simp

/-- The token loop of the `tokenize` directive terminates: on a buffer of
fewer than `fuel` bytes it never runs out of fuel. -/
theorem tokenizeLoop_fuel (fuel : Nat) :
    ∀ (b : Buf) (azArg : List Text), b.length < fuel →
      tokenizeLoop fuel (some b) azArg ≠ .fault .fuel := by
  induction fuel with
  | zero => intro b _ hb; exact absurd hb (Nat.not_lt_zero _)
  | succ fuel ih =>
    intro b azArg hb
    match b, hb with
    | [], _ => simp [tokenizeLoop]
    | c :: r, hb =>
      obtain ⟨k, rfl⟩ : ∃ k, fuel = k + 1 :=
        ⟨fuel - 1, by simp only [List.length_cons] at hb; omega⟩
      rw [tokenizeLoop]
      by_cases hc : c = NUL
      · rw [if_pos hc]; simp
      · rw [if_neg hc]
        rcases skipSpaces_cases (c :: r) with h1 | ⟨p2, h1, hl1, hp2⟩
        · rw [h1]; simp
        · rw [h1, bind_ok]
          match p2, hl1, hp2 with
          | c2 :: r2, hl1, _ =>
            simp only []
            have hscan : ∀ x : Res (Option Buf),
                (x = .fault .readPastEnd ∨ x = .ok none
                  ∨ ∃ p, x = .ok (some p) ∧ p.length < (c2 :: r2).length) →
                (x >>= fun p =>
                  match p with
                  | none => tokenizeLoop (k + 1) none azArg
                  | some p => do
                    let pSpace ← sqlite3Fts5Dequote (between (c2 :: r2) p ++ [NUL])
                    let p ← skipSpaces p
                    tokenizeLoop (k + 1) (some p) (azArg ++ [cstr pSpace]))
                  ≠ .fault .fuel := by
              intro x hx
              rcases hx with h | h | ⟨p, h, hl⟩
              · rw [h]; simp
              · rw [h]; simp [tokenizeLoop]
              · rw [h, bind_ok]
                simp only []
                apply bind_ne_fuel
                · exact sqlite3Fts5Dequote_ne_fuel _
                · intro pSpace _
                  rcases skipSpaces_cases p with h3 | ⟨p3, h3, hl3, _⟩
                  · rw [h3]; simp
                  · rw [h3, bind_ok]
                    exact ih p3 _ (by omega)
            by_cases hq : c2 = SQ
            · rw [if_pos hq]
              exact hscan _ (skipLiteral_cases (c2 :: r2))
            · rw [if_neg hq]
              refine hscan _ ?_
              rcases skipBareword_cases (c2 :: r2) with h | h | ⟨p, h, hl, _⟩
              · exact Or.inl h
              · exact Or.inr (Or.inl h)
              · exact Or.inr (Or.inr ⟨p, h, hl⟩)

/-- The token loop of the `tokenize` directive terminates on every buffer. -/
theorem tokenizeLoop_terminates (zArg : Buf) (azArg : List Text) :
    tokenizeLoop (zArg.length + 1) (some zArg) azArg ≠ .fault .fuel :=
  tokenizeLoop_fuel (zArg.length + 1) zArg azArg (Nat.lt_succ_self _)

/-! ## The tokens of a tokenize directive -/

theorem strlen_ok (b : Buf) (h : NUL ∈ b) : ∃ n, strlen b = .ok n := by
  induction b with
  | nil => simp at h
  | cons c r ih =>
    by_cases hc : c = NUL
    · exact ⟨0, by simp [strlen, hc]⟩
    · have hr : NUL ∈ r := by
        rcases List.mem_cons.mp h with h | h
        · exact absurd h.symm hc
        · exact h
      obtain ⟨n, hn⟩ := ih hr
      exact ⟨n + 1, by simp [strlen, hc, hn]⟩

theorem token_head (tok name : Text) (ht : TokenizeToken tok name) :
    ∃ c r, tok = c :: r ∧ c ≠ ' ' ∧ c ≠ NUL := by
  cases ht with
  | bareword c w hchars hq =>
    have hc := hchars c (by simp)
    refine ⟨c, w, rfl, ?_, ?_⟩
    · rintro rfl; exact absurd hc (by decide)
    · rintro rfl; exact absurd hc (by decide)
  | quoted s hs => exact ⟨SQ, _, rfl, by decide, by decide⟩

/-- One iteration of the token loop on a token that is followed by a space or
by the end of the text: the string the token stands for is added to the list,
and the loop goes on after the spaces that follow. -/
theorem tokenizeLoop_token (fuel : Nat) (tok name : Text) (ht : TokenizeToken tok name)
    (d : Char) (tl : Buf) (hd : d = ' ' ∨ d = NUL) (azArg : List Text) :
    tokenizeLoop (fuel + 1) (some (tok ++ d :: tl)) azArg
      = (skipSpaces (d :: tl) >>= fun p => tokenizeLoop fuel (some p) (azArg ++ [name])) := by
  have hdq : d ≠ SQ := by rcases hd with rfl | rfl <;> decide
  have hdb : isBarewordChar d = false := by rcases hd with rfl | rfl <;> decide
  cases ht with
  | bareword c w hchars hq =>
    have hc := hchars c (by simp)
    have hcn : c ≠ NUL := by rintro rfl; exact absurd hc (by decide)
    have hcs : fts5_iswhitespace c = false := by
      have : c ≠ ' ' := by rintro rfl; exact absurd hc (by decide)
      simpa [fts5_iswhitespace] using this
    have hcq : c ≠ SQ := by rintro rfl; exact absurd hq (by decide)
    have hnul : NUL ∉ c :: w := fun h => bareword_ne_nul NUL (hchars NUL h) rfl
    have hloop := barewordLoop_run (c :: w) hchars d tl hdb
    have hbet := between_append (c :: w) (d :: tl)
    have hdeq : sqlite3Fts5Dequote (c :: w ++ [NUL]) = .ok (c :: w ++ [NUL]) := by
      have h1 : ¬ (c = '[' ∨ c = SQ ∨ c = DQ ∨ c = BQ) := by
        intro h
        have : fts5_isopenquote c = true := by
          rcases h with rfl | rfl | rfl | rfl <;> decide
        rw [hq] at this
        exact absurd this (by decide)
      simp only [sqlite3Fts5Dequote, List.cons_append, if_neg h1, pure_eq_ok]
    have hcstr : cstr (c :: w ++ [NUL]) = c :: w := cstr_append_nul (c :: w) hnul []
    have hlen : ¬ ((d :: tl).length = (c :: (w ++ d :: tl)).length) := by
      simp only [List.length_cons, List.length_append]
      omega
    have hsp : skipSpaces (c :: (w ++ d :: tl)) = .ok (c :: (w ++ d :: tl)) := by
      simp [skipSpaces, hcs]
    simp only [List.cons_append] at hloop hbet hdeq hcstr ⊢
    rw [tokenizeLoop]
    simp only [if_neg hcn, hsp, bind_ok, if_neg hcq, fts5ConfigSkipBareword, hloop, if_neg hlen,
      pure_eq_ok, hbet, List.cons_append, hdeq, hcstr]
  | quoted s hs =>
    have hscan := skipLiteral_string name hs d tl hdq
    have hbet := between_append (SQ :: doubleQuotes SQ name ++ [SQ]) (d :: tl)
    obtain ⟨z, hz⟩ := fts5Dequote_doubled SQ name (by decide) hs []
    have hcl : closeQuote SQ = SQ := by decide
    rw [hcl] at hz
    simp only [List.cons_append, List.append_assoc, List.singleton_append,
      List.nil_append] at hscan hbet hz ⊢
    have hdeq : sqlite3Fts5Dequote (SQ :: (doubleQuotes SQ name ++ [SQ, NUL]))
        = .ok (name ++ NUL :: z) := by
      simp only [sqlite3Fts5Dequote, hz, bind_ok, pure_eq_ok]
      simp
    have hcstr : cstr (name ++ NUL :: z) = name := cstr_append_nul name hs z
    have hsp : skipSpaces (SQ :: (doubleQuotes SQ name ++ SQ :: d :: tl))
        = .ok (SQ :: (doubleQuotes SQ name ++ SQ :: d :: tl)) := by
      simp [skipSpaces, show fts5_iswhitespace SQ = false by decide]
    rw [tokenizeLoop]
    simp only [if_neg (show SQ ≠ NUL by decide), hsp, bind_ok, if_true, hscan, hbet,
      List.cons_append, List.append_assoc, List.singleton_append, List.nil_append, hdeq, hcstr]

theorem spacedRun_cons (e : Text × Nat) (ts : List (Text × Nat)) :
    spacedRun (e :: ts) = e.1 ++ spaces (e.2 + 1) ++ spacedRun ts := by
  simp [spacedRun, List.flatMap_cons]

theorem spacedRun_head (last lastName : Text) (hlast : TokenizeToken last lastName)
    (ts : List (Text × Nat)) (names : List Text)
    (hts : List.Forall₂ (fun e n => TokenizeToken e.1 n) ts names) :
    ∃ c r, spacedRun ts ++ last ++ [NUL] = c :: r ∧ c ≠ ' ' := by
  cases hts with
  | nil =>
    obtain ⟨c, r, rfl, hc, _⟩ := token_head last lastName hlast
    exact ⟨c, r ++ [NUL], by simp [spacedRun], hc⟩
  | @cons e n ts names he _ =>
    obtain ⟨c, r, hcr, hc, _⟩ := token_head e.1 n he
    refine ⟨c, r ++ spaces (e.2 + 1) ++ spacedRun ts ++ last ++ [NUL], ?_, hc⟩
    rw [spacedRun_cons, hcr]
    simp [List.append_assoc]

/-- The token loop on tokens separated by runs of spaces: it ends at the
terminator with the strings the tokens stand for, in order. -/
theorem tokenizeLoop_tokens (last lastName : Text) (hlast : TokenizeToken last lastName)
    (ts : List (Text × Nat)) (names : List Text)
    (hts : List.Forall₂ (fun e n => TokenizeToken e.1 n) ts names) :
    ∀ (fuel : Nat) (azArg : List Text), ts.length + 2 ≤ fuel →
      tokenizeLoop fuel (some (spacedRun ts ++ last ++ [NUL])) azArg
        = .ok (some [NUL], azArg ++ names ++ [lastName]) := by
  induction hts with
  | nil =>
    intro fuel azArg hfuel
    obtain ⟨k, rfl⟩ : ∃ k, fuel = k + 2 := ⟨fuel - 2, by simp at hfuel; omega⟩
    have h := tokenizeLoop_token (k + 1) last lastName hlast NUL [] (Or.inr rfl) azArg
    have hsp : skipSpaces [NUL] = .ok [NUL] := by decide
    rw [hsp, bind_ok] at h
    simp only [spacedRun, List.flatMap_nil, List.nil_append, List.append_nil]
    rw [h]
    simp [tokenizeLoop]
  | @cons e n ts names he hts ih =>
    intro fuel azArg hfuel
    obtain ⟨k, rfl⟩ : ∃ k, fuel = k + 1 := ⟨fuel - 1, by simp at hfuel; omega⟩
    obtain ⟨c, r, hcr, hc⟩ := spacedRun_head last lastName hlast ts names hts
    have htxt : spacedRun (e :: ts) ++ last ++ [NUL]
        = e.1 ++ ' ' :: (spaces e.2 ++ c :: r) := by
      rw [spacedRun_cons, ← hcr]
      simp [spaces, List.replicate_succ, List.append_assoc]
    have hsp : skipSpaces (' ' :: (spaces e.2 ++ c :: r)) = .ok (c :: r) := by
      have := skipSpaces_spaces (e.2 + 1) c r hc
      simpa [spaces, List.replicate_succ] using this
    have h := tokenizeLoop_token k e.1 n he ' ' (spaces e.2 ++ c :: r) (Or.inl rfl) azArg
    rw [hsp, bind_ok] at h
    rw [htxt, h, ← hcr, ih k (azArg ++ [n]) (by simp only [List.length_cons] at hfuel; omega)]
    simp [List.append_assoc]

theorem length_spacedRun_ge (ts : List (Text × Nat)) : ts.length ≤ (spacedRun ts).length := by
  induction ts with
  | nil => simp [spacedRun]
  | cons e ts ih =>
    rw [spacedRun_cons]
    simp only [List.length_cons, List.length_append, spaces, List.length_replicate]
    omega

/-- The `tokenize` directive on one or more tokens separated by runs of
spaces, each a non-empty bareword or a well-formed single-quoted literal, on a
configuration that holds no tokenizer yet: the registry is called with the
strings the tokens stand for, in order, and its result is stored. -/
theorem tokenize_directive_tokens (maxPrefix : Nat) (pGlobal : Fts5Global)
    (pConfig : Fts5Config) (zCmd : Buf) (nCmd : Nat) (zErr : Option Text)
    (ts : List (Text × Nat)) (names : List Text) (last lastName : Text)
    (hcmd1 : sqlite3_strnicmp "prefix".toList zCmd nCmd ≠ 0)
    (hcmd2 : sqlite3_strnicmp "tokenize".toList zCmd nCmd = 0)
    (hnone : pConfig.pTok = none)
    (hts : List.Forall₂ (fun e n => TokenizeToken e.1 n) ts names)
    (hlast : TokenizeToken last lastName) :
    fts5ConfigParseSpecial maxPrefix pGlobal pConfig zCmd nCmd
        (spacedRun ts ++ last ++ [NUL]) zErr
      = .ok ((pGlobal.sqlite3Fts5GetTokenizer (names ++ [lastName])).1,
          { pConfig with
            pTok := (pGlobal.sqlite3Fts5GetTokenizer (names ++ [lastName])).2.1
            pTokApi := (pGlobal.sqlite3Fts5GetTokenizer (names ++ [lastName])).2.2 },
          if (pGlobal.sqlite3Fts5GetTokenizer (names ++ [lastName])).1 ≠ SQLITE_OK then
            some "error in tokenizer constructor".toList
          else zErr) := by
  obtain ⟨n, hn⟩ := strlen_ok (spacedRun ts ++ last ++ [NUL]) (by simp)
  have hloop := tokenizeLoop_tokens last lastName hlast ts names hts
    ((spacedRun ts ++ last ++ [NUL]).length + 1) []
    (by
      have := length_spacedRun_ge ts
      simp only [List.length_append, List.length_singleton]
      omega)
  unfold fts5ConfigParseSpecial
  rw [if_neg hcmd1, if_pos hcmd2, hn, bind_ok, hnone]
  simp only [hloop, bind_ok, List.nil_append, pure_eq_ok]

/-! ## Failures of the rank-spec parser -/

/-- The rank parser hands back no partial output: whenever it returns, either
the result code is `SQLITE_OK`, or it is `SQLITE_ERROR` and both outputs are
null. -/
theorem parseRank_no_partial_output (zIn : Option Buf) (rc : Nat) (zRank zRankArgs : Option Text)
    (h : fts5ConfigParseRank zIn = .ok (rc, zRank, zRankArgs)) :
    rc = SQLITE_OK ∨ (rc = SQLITE_ERROR ∧ zRank = none ∧ zRankArgs = none) := by
  unfold fts5ConfigParseRank at h
  cases h1 : fts5ConfigSkipWhitespace zIn with
  | fault e => rw [h1] at h; simp at h
  | ok p =>
    rw [h1, bind_ok] at h
    cases p with
    | none => simp at h
    | some pRank =>
      simp only [] at h
      cases h2 : fts5ConfigSkipBareword pRank with
      | fault e => rw [h2] at h; simp at h
      | ok q =>
        rw [h2, bind_ok] at h
        cases q with
        | none =>
          simp only [pure_eq_ok, Res.ok.injEq, Prod.mk.injEq] at h
          exact Or.inr ⟨h.1.symm, h.2.1.symm, h.2.2.symm⟩
        | some q =>
          simp only [] at h
          cases h3 : skipSpaces q with
          | fault e => rw [h3] at h; simp at h
          | ok q2 =>
            rw [h3, bind_ok] at h
            match q2, h with
            | [], h => simp at h
            | c :: q3, h =>
              simp only [] at h
              by_cases hc : c ≠ '('
              · rw [if_pos hc] at h
                simp only [pure_eq_ok, Res.ok.injEq, Prod.mk.injEq] at h
                exact Or.inr ⟨h.1.symm, h.2.1.symm, h.2.2.symm⟩
              · rw [if_neg hc] at h
                match q3, h with
                | [], h => simp at h
                | x :: xs, h =>
                  simp only [] at h
                  cases h4 : skipSpaces (x :: xs) with
                  | fault e => rw [h4] at h; simp at h
                  | ok q4 =>
                    rw [h4, bind_ok] at h
                    match q4, h with
                    | [], h => simp at h
                    | c2 :: q5, h =>
                      simp only [] at h
                      by_cases hc2 : c2 ≠ ')'
                      · rw [if_pos hc2] at h
                        cases h5 : fts5ConfigSkipArgs (c2 :: q5) with
                        | fault e => rw [h5] at h; simp at h
                        | ok q6 =>
                          rw [h5, bind_ok] at h
                          cases q6 with
                          | none =>
                            simp only [pure_eq_ok, Res.ok.injEq, Prod.mk.injEq] at h
                            exact Or.inr ⟨h.1.symm, h.2.1.symm, h.2.2.symm⟩
                          | some q6 =>
                            simp only [] at h
                            split_ifs at h <;>
                              simp only [pure_eq_ok, Res.ok.injEq, Prod.mk.injEq] at h <;>
                              exact Or.inl h.1.symm
                      · rw [if_neg hc2] at h
                        simp only [pure_eq_ok, Res.ok.injEq, Prod.mk.injEq] at h
                        exact Or.inl h.1.symm

/-- A rank text with no leading bareword: after optional spaces comes a
character that no bareword contains (the end of the text included). -/
theorem parseRank_no_bareword (a0 : Nat) (c : Char) (rest : Buf)
    (hc : isBarewordChar c = false) (hsp : c ≠ ' ') :
    fts5ConfigParseRank (some (spaces a0 ++ c :: rest)) = .ok (SQLITE_ERROR, none, none) := by
  have h1 : skipSpaces (spaces a0 ++ c :: rest) = .ok (c :: rest) :=
    skipSpaces_spaces a0 c rest hsp
  have h2 : barewordLoop (c :: rest) = .ok (c :: rest) := by simp [barewordLoop, hc]
  unfold fts5ConfigParseRank
  simp only [fts5ConfigSkipWhitespace, h1, bind_ok, pure_eq_ok, fts5ConfigSkipBareword, h2,
    if_true]

/-- A rank text whose bareword is not followed, after optional spaces, by an
opening parenthesis (the end of the text included). -/
theorem parseRank_no_paren (a0 a1 : Nat) (f : Text) (hne : f ≠ [])
    (hf : ∀ c ∈ f, isBarewordChar c = true) (c : Char) (rest : Buf)
    (hc : isBarewordChar c = false) (hsp : c ≠ ' ') (hparen : c ≠ '(') :
    fts5ConfigParseRank (some (spaces a0 ++ f ++ spaces a1 ++ c :: rest))
      = .ok (SQLITE_ERROR, none, none) := by
  obtain ⟨x, w, rfl⟩ := List.exists_cons_of_ne_nil hne
  have hx : x ≠ ' ' := by
    have := hf x (by simp)
    rintro rfl
    exact absurd this (by decide)
  obtain ⟨e, r, he, hee⟩ := spaces_cons_head a1 c rest
  have hnb : isBarewordChar e = false := by
    rcases hee with rfl | rfl
    · decide
    · exact hc
  have h1 : skipSpaces (spaces a0 ++ x :: (w ++ (spaces a1 ++ c :: rest)))
      = .ok (x :: (w ++ (spaces a1 ++ c :: rest))) := skipSpaces_spaces a0 x _ hx
  have h2 : barewordLoop (x :: (w ++ (spaces a1 ++ c :: rest)))
      = .ok (spaces a1 ++ c :: rest) := by
    have := barewordLoop_run (x :: w) hf e r hnb
    rw [← he] at this
    simpa using this
  have h3 : skipSpaces (spaces a1 ++ c :: rest) = .ok (c :: rest) :=
    skipSpaces_spaces a1 c _ hsp
  have h5 : ¬ ((spaces a1 ++ c :: rest).length
      = (x :: (w ++ (spaces a1 ++ c :: rest))).length) := by
    simp only [List.length_cons, List.length_append]
    omega
  unfold fts5ConfigParseRank
  simp only [List.append_assoc, List.cons_append, fts5ConfigSkipWhitespace, h1, bind_ok,
    pure_eq_ok, fts5ConfigSkipBareword, h2, if_neg h5, h3, ne_eq, hparen, not_false_eq_true,
    if_true]

/-! ## The spans the number case accepts -/

theorem digitLoop_span (b p : Buf) (h : digitLoop b = .ok p) :
    ∃ ds, b = ds ++ p ∧ ∀ c ∈ ds, c.isDigit = true := by
  induction b with
  | nil => simp [digitLoop] at h
  | cons c r ih =>
    by_cases hc : fts5_isdigit c = true
    · simp only [digitLoop, hc, if_true] at h
      obtain ⟨ds, hds, hall⟩ := ih h
      refine ⟨c :: ds, by rw [hds]; rfl, ?_⟩
      intro x hx
      rcases List.mem_cons.mp hx with rfl | hx
      · exact (isdigit_iff _).mp hc
      · exact hall x hx
    · simp only [digitLoop, hc, Bool.false_eq_true, if_false, Res.ok.injEq] at h
      exact ⟨[], by rw [h]; rfl, by simp⟩

/-- Every span the number case of `fts5ConfigSkipLiteral` accepts is an
optional sign, digits (possibly none), and optionally a dot followed by at
least one digit; the span is not empty, but it may be the sign alone. -/
theorem skipLiteral_number_span (c : Char) (r p : Buf)
    (hn : ¬ (c = 'n' ∨ c = 'N')) (hx : ¬ (c = 'x' ∨ c = 'X')) (hq : c ≠ SQ)
    (h : fts5ConfigSkipLiteral (some (c :: r)) = .ok (some p)) :
    ∃ sign ds frac, isSign sign ∧ (∀ x ∈ ds, x.isDigit = true)
      ∧ (frac = [] ∨ ∃ f fs, frac = '.' :: f :: fs ∧ ∀ x ∈ f :: fs, x.isDigit = true)
      ∧ c :: r = sign ++ ds ++ frac ++ p ∧ sign ++ ds ++ frac ≠ [] := by
  rw [skipLiteral_number c r hn hx hq] at h
  obtain ⟨sign, hsign, hcr⟩ : ∃ sign, isSign sign
      ∧ c :: r = sign ++ (if c = '+' ∨ c = '-' then r else c :: r) := by
    by_cases hs : c = '+' ∨ c = '-'
    · rw [if_pos hs]
      rcases hs with rfl | rfl
      · exact ⟨['+'], Or.inr (Or.inl rfl), rfl⟩
      · exact ⟨['-'], Or.inr (Or.inr rfl), rfl⟩
    · rw [if_neg hs]
      exact ⟨[], Or.inl rfl, rfl⟩
  generalize (if c = '+' ∨ c = '-' then r else c :: r) = p0 at h hcr
  have fin : ∀ (ds frac : Text) (q : Buf), p0 = ds ++ frac ++ q →
      (∀ x ∈ ds, x.isDigit = true) →
      (frac = [] ∨ ∃ f fs, frac = '.' :: f :: fs ∧ ∀ x ∈ f :: fs, x.isDigit = true) →
      (if q.length = (c :: r).length then (pure none : Res (Option Buf)) else pure (some q))
        = .ok (some p) →
      ∃ sign ds frac, isSign sign ∧ (∀ x ∈ ds, x.isDigit = true)
        ∧ (frac = [] ∨ ∃ f fs, frac = '.' :: f :: fs ∧ ∀ x ∈ f :: fs, x.isDigit = true)
        ∧ c :: r = sign ++ ds ++ frac ++ p ∧ sign ++ ds ++ frac ≠ [] := by
    intro ds frac q hp0 hds hfrac hres
    by_cases hl : q.length = (c :: r).length
    · rw [if_pos hl] at hres; simp at hres
    · rw [if_neg hl] at hres
      simp only [pure_eq_ok, Res.ok.injEq, Option.some.injEq] at hres
      subst hres
      refine ⟨sign, ds, frac, hsign, hds, hfrac, ?_, ?_⟩
      · rw [hcr, hp0]; simp [List.append_assoc]
      · intro hnil
        apply hl
        rw [hcr, hp0]
        have h0 : (sign ++ ds ++ frac).length = 0 := by rw [hnil]; rfl
        simp only [List.length_append] at h0 ⊢
        omega
  cases h1 : digitLoop p0 with
  | fault e => rw [h1] at h; simp at h
  | ok p1 =>
    rw [h1, bind_ok] at h
    obtain ⟨ds, hds, hall⟩ := digitLoop_span p0 p1 h1
    match p1, h, hds with
    | [], h, _ => simp at h
    | e :: r1, h, hds =>
      simp only [] at h
      by_cases hdot : e = '.'
      · rw [if_pos hdot] at h
        match r1, h, hds with
        | [], h, _ => simp at h
        | e1 :: r2, h, hds =>
          simp only [] at h
          by_cases hdig : fts5_isdigit e1 = true
          · rw [if_pos hdig] at h
            cases h2 : digitLoop r2 with
            | fault e => rw [h2] at h; simp at h
            | ok p2 =>
              rw [h2, bind_ok] at h
              obtain ⟨fs, hfs, hfall⟩ := digitLoop_span r2 p2 h2
              refine fin ds ('.' :: e1 :: fs) p2 ?_ hall (Or.inr ⟨e1, fs, rfl, ?_⟩) h
              · rw [hds, hdot, hfs]; simp [List.append_assoc]
              · intro x hx
                rcases List.mem_cons.mp hx with rfl | hx
                · exact (isdigit_iff _).mp hdig
                · exact hfall x hx
          · rw [if_neg hdig, bind_ok] at h
            exact fin ds [] (e :: e1 :: r2) (by rw [hds]; simp) hall (Or.inl rfl) h
      · rw [if_neg hdot, bind_ok] at h
        exact fin ds [] (e :: r1) (by rw [hds]; simp) hall (Or.inl rfl) h

/-! ## Locality of the scanners

Each scanner, run on a buffer whose last byte is the terminator, leaves a
cursor inside that buffer; and when the cursor is left before the terminator,
the scan did not depend on the terminator, so it runs the same way when the
terminator is replaced by any other bytes. -/

theorem skipSpaces_ext (a : Buf) :
    ∀ p, skipSpaces (a ++ [NUL]) = .ok p →
      ∃ w p', a = w ++ p' ∧ p = p' ++ [NUL]
        ∧ (p' ≠ [] → ∀ t : Buf, skipSpaces (a ++ t) = .ok (p' ++ t)) := by
  induction a with
  | nil =>
    intro p h
    have h0 : skipSpaces [NUL] = .ok [NUL] := by decide
    rw [List.nil_append, h0, Res.ok.injEq] at h
    exact ⟨[], [], rfl, h.symm, fun hne => absurd rfl hne⟩
  | cons c a ih =>
    intro p h
    by_cases hc : fts5_iswhitespace c = true
    · simp only [List.cons_append, skipSpaces, hc, if_true] at h
      obtain ⟨w, p', ha, hp, hext⟩ := ih p h
      refine ⟨c :: w, p', by rw [ha]; rfl, hp, fun hne t => ?_⟩
      simp only [List.cons_append, skipSpaces, hc, if_true]
      exact hext hne t
    · simp only [List.cons_append, skipSpaces, hc, Bool.false_eq_true, if_false,
        Res.ok.injEq] at h
      refine ⟨[], c :: a, rfl, by rw [← h]; rfl, fun _ t => ?_⟩
      simp only [List.cons_append, skipSpaces, hc, Bool.false_eq_true, if_false]
      rfl

theorem barewordLoop_ext (a : Buf) :
    ∀ p, barewordLoop (a ++ [NUL]) = .ok p →
      ∃ w p', a = w ++ p' ∧ p = p' ++ [NUL]
        ∧ (p' ≠ [] → ∀ t : Buf, barewordLoop (a ++ t) = .ok (p' ++ t)) := by
  induction a with
  | nil =>
    intro p h
    have h0 : barewordLoop [NUL] = .ok [NUL] := by decide
    rw [List.nil_append, h0, Res.ok.injEq] at h
    exact ⟨[], [], rfl, h.symm, fun hne => absurd rfl hne⟩
  | cons c a ih =>
    intro p h
    by_cases hc : isBarewordChar c = true
    · simp only [List.cons_append, barewordLoop, hc, if_true] at h
      obtain ⟨w, p', ha, hp, hext⟩ := ih p h
      refine ⟨c :: w, p', by rw [ha]; rfl, hp, fun hne t => ?_⟩
      simp only [List.cons_append, barewordLoop, hc, if_true]
      exact hext hne t
    · simp only [List.cons_append, barewordLoop, hc, Bool.false_eq_true, if_false,
        Res.ok.injEq] at h
      refine ⟨[], c :: a, rfl, by rw [← h]; rfl, fun _ t => ?_⟩
      simp only [List.cons_append, barewordLoop, hc, Bool.false_eq_true, if_false]
      rfl

theorem digitLoop_ext (a : Buf) :
    ∀ p, digitLoop (a ++ [NUL]) = .ok p →
      ∃ w p', a = w ++ p' ∧ p = p' ++ [NUL]
        ∧ (p' ≠ [] → ∀ t : Buf, digitLoop (a ++ t) = .ok (p' ++ t)) := by
  induction a with
  | nil =>
    intro p h
    have h0 : digitLoop [NUL] = .ok [NUL] := by decide
    rw [List.nil_append, h0, Res.ok.injEq] at h
    exact ⟨[], [], rfl, h.symm, fun hne => absurd rfl hne⟩
  | cons c a ih =>
    intro p h
    by_cases hc : fts5_isdigit c = true
    · simp only [List.cons_append, digitLoop, hc, if_true] at h
      obtain ⟨w, p', ha, hp, hext⟩ := ih p h
      refine ⟨c :: w, p', by rw [ha]; rfl, hp, fun hne t => ?_⟩
      simp only [List.cons_append, digitLoop, hc, if_true]
      exact hext hne t
    · simp only [List.cons_append, digitLoop, hc, Bool.false_eq_true, if_false,
        Res.ok.injEq] at h
      refine ⟨[], c :: a, rfl, by rw [← h]; rfl, fun _ t => ?_⟩
      simp only [List.cons_append, digitLoop, hc, Bool.false_eq_true, if_false]
      rfl

theorem hexLoop_ext (a : Buf) :
    ∀ p, hexLoop (a ++ [NUL]) = .ok p →
      ∃ w p', a = w ++ p' ∧ p = p' ++ [NUL]
        ∧ (p' ≠ [] → ∀ t : Buf, hexLoop (a ++ t) = .ok (p' ++ t)) := by
  induction a with
  | nil =>
    intro p h
    have h0 : hexLoop [NUL] = .ok [NUL] := by decide
    rw [List.nil_append, h0, Res.ok.injEq] at h
    exact ⟨[], [], rfl, h.symm, fun hne => absurd rfl hne⟩
  | cons c a ih =>
    intro p h
    by_cases hc : isHexChar c = true
    · simp only [List.cons_append, hexLoop, hc, if_true] at h
      obtain ⟨w, p', ha, hp, hext⟩ := ih p h
      refine ⟨c :: w, p', by rw [ha]; rfl, hp, fun hne t => ?_⟩
      simp only [List.cons_append, hexLoop, hc, if_true]
      exact hext hne t
    · simp only [List.cons_append, hexLoop, hc, Bool.false_eq_true, if_false,
        Res.ok.injEq] at h
      refine ⟨[], c :: a, rfl, by rw [← h]; rfl, fun _ t => ?_⟩
      simp only [List.cons_append, hexLoop, hc, Bool.false_eq_true, if_false]
      rfl

theorem stringLoop_close (d : Char) (r : Buf) (hd : d ≠ SQ) :
    stringLoop (SQ :: d :: r) = .ok (some (d :: r)) := by
  rw [stringLoop.eq_def]
  simp [hd]

theorem stringLoop_other_nul (c : Char) (r : Buf) (hc : c ≠ SQ) :
    stringLoop (c :: NUL :: r) = .ok none := by
  rw [stringLoop.eq_def]
  simp [hc]

theorem stringLoop_pair_nul (r : Buf) : stringLoop (SQ :: SQ :: NUL :: r) = .ok none := by
  rw [stringLoop.eq_def]
  simp

theorem stringLoop_ext (n : Nat) :
    ∀ a : Buf, a.length ≤ n → ∀ p, stringLoop (a ++ [NUL]) = .ok (some p) →
      ∃ w p', a = w ++ p' ∧ p = p' ++ [NUL]
        ∧ (p' ≠ [] → ∀ t : Buf, stringLoop (a ++ t) = .ok (some (p' ++ t))) := by
  induction n with
  | zero =>
    intro a ha p h
    have : a = [] := List.length_eq_zero.mp (Nat.le_zero.mp ha)
    subst this
    have h0 : stringLoop ([] ++ [NUL]) = .fault .readPastEnd := by decide
    rw [h0] at h
    simp at h
  | succ n ih =>
    intro a ha p h
    match a, ha, h with
    | [], _, h =>
      have h0 : stringLoop ([] ++ [NUL]) = .fault .readPastEnd := by decide
      rw [h0] at h
      simp at h
    | [c], _, h =>
      by_cases hc : c = SQ
      · subst hc
        have h0 : stringLoop ([SQ] ++ [NUL]) = .ok (some [NUL]) := by decide
        rw [h0] at h
        simp only [Res.ok.injEq, Option.some.injEq] at h
        exact ⟨[SQ], [], rfl, h.symm, fun hne => absurd rfl hne⟩
      · have h0 : stringLoop ([c] ++ [NUL]) = .ok none := stringLoop_other_nul c [] hc
        rw [h0] at h
        simp at h
    | c :: d :: a2, ha, h =>
      simp only [List.length_cons] at ha
      simp only [List.cons_append] at h
      by_cases hc : c = SQ
      · subst hc
        by_cases hd : d = SQ
        · subst hd
          match a2, ha, h with
          | [], _, h =>
            rw [List.nil_append, stringLoop_pair_nul] at h
            simp at h
          | e :: a3, ha, h =>
            by_cases he : e = NUL
            · subst he
              rw [List.cons_append, stringLoop_pair_nul] at h
              simp at h
            · rw [List.cons_append, stringLoop_pair e _ he] at h
              obtain ⟨w, p', hw, hp, hext⟩ := ih (e :: a3)
                (by simp only [List.length_cons] at ha ⊢; omega) p h
              refine ⟨SQ :: SQ :: w, p', by rw [hw]; rfl, hp, fun hne t => ?_⟩
              have := hext hne t
              simp only [List.cons_append] at this ⊢
              rw [stringLoop_pair e _ he]
              exact this
        · rw [stringLoop_close d _ hd] at h
          simp only [Res.ok.injEq, Option.some.injEq] at h
          refine ⟨[SQ], d :: a2, rfl, by rw [← h]; rfl, fun _ t => ?_⟩
          simp only [List.cons_append]
          exact stringLoop_close d _ hd
      · by_cases hd : d = NUL
        · subst hd
          rw [stringLoop_other_nul c _ hc] at h
          simp at h
        · rw [stringLoop_other c d _ hc hd] at h
          obtain ⟨w, p', hw, hp, hext⟩ := ih (d :: a2)
            (by simp only [List.length_cons]; omega) p h
          refine ⟨c :: w, p', by rw [hw]; rfl, hp, fun hne t => ?_⟩
          have := hext hne t
          simp only [List.cons_append] at this ⊢
          rw [stringLoop_other c d _ hc hd]
          exact this

/-- When `sqlite3_strnicmp` finds `n` bytes of a buffer equal to the first `n`
bytes of a NUL-free keyword, the buffer holds at least `n` bytes before its
first NUL. -/
theorem strnicmp_zero_take (n : Nat) :
    ∀ (kw : Text) (b : Buf), NUL ∉ kw → n ≤ kw.length → sqlite3_strnicmp kw b n = 0 →
      ∃ w rest, b = w ++ rest ∧ w.length = n ∧ NUL ∉ w := by
  induction n with
  | zero => intro kw b _ _ _; exact ⟨[], b, rfl, rfl, by simp⟩
  | succ n ih =>
    intro kw b hkw hlen h
    match kw, hkw, hlen, h with
    | [], _, hlen, _ => simp at hlen
    | k :: kw, hkw, hlen, h =>
      have hk : k ≠ NUL := fun e => hkw (by simp [e])
      have hkw2 : NUL ∉ kw := fun e => hkw (by simp [e])
      simp only [sqlite3_strnicmp, List.headD_cons, List.tail_cons] at h
      by_cases hcond : k ≠ NUL ∧ upperToLower k = upperToLower (b.headD NUL)
      · rw [if_pos hcond] at h
        have hb : b.headD NUL ≠ NUL := by
          intro e
          rw [e] at hcond
          exact hk (upperToLower_eq_nul k (by rw [hcond.2]; decide))
        match b, h, hb with
        | [], _, hb => simp at hb
        | x :: b, h, hb =>
          simp only [List.headD_cons] at hb
          simp only [List.tail_cons] at h
          obtain ⟨w, rest, hw, hwl, hwn⟩ := ih kw b hkw2
            (by simp only [List.length_cons] at hlen; omega) h
          refine ⟨x :: w, rest, by rw [hw]; rfl, by simp [hwl], ?_⟩
          intro hm
          rcases List.mem_cons.mp hm with e | e
          · exact hb e.symm
          · exact hwn e
      · rw [if_neg hcond] at h
        exfalso
        have heq : upperToLower k = upperToLower (b.headD NUL) :=
          char_toNat_inj _ _ (by omega)
        exact hcond ⟨hk, heq⟩

/-- The first `n` bytes of the buffer decide `sqlite3_strnicmp`. -/
theorem strnicmp_append (n : Nat) :
    ∀ (kw : Text) (w x y : Buf), n ≤ w.length →
      sqlite3_strnicmp kw (w ++ x) n = sqlite3_strnicmp kw (w ++ y) n := by
  induction n with
  | zero => intro kw w x y _; rfl
  | succ n ih =>
    intro kw w x y hw
    match w, hw with
    | [], hw => simp at hw
    | b :: w, hw =>
      simp only [List.cons_append, sqlite3_strnicmp, List.headD_cons, List.tail_cons]
      rw [ih kw.tail w x y (by simp only [List.length_cons] at hw; omega)]

/-- A buffer that ends with its terminator, split after a NUL-free part. -/
theorem append_nul_split (a w rest : Buf) (h : a ++ [NUL] = w ++ rest) (hw : NUL ∉ w) :
    ∃ p', rest = p' ++ [NUL] ∧ a = w ++ p' := by
  rcases List.eq_nil_or_concat rest with rfl | ⟨p', x, rfl⟩
  · exfalso
    rw [List.append_nil] at h
    exact hw (by rw [← h]; simp)
  · rw [List.concat_eq_append, ← List.append_assoc] at h
    have := List.append_inj' h rfl
    refine ⟨p', ?_, this.1⟩
    rw [List.concat_eq_append]
    have hx : [NUL] = [x] := this.2
    rw [hx]

theorem skipLiteral_ext_null (c : Char) (r p : Buf) (hn : c = 'n' ∨ c = 'N')
    (h : fts5ConfigSkipLiteral (some (c :: r ++ [NUL])) = .ok (some p)) :
    ∃ w p', c :: r = w ++ p' ∧ p = p' ++ [NUL]
      ∧ (p' ≠ [] → (∀ x, p' ≠ '.' :: x) →
          ∀ t : Buf, fts5ConfigSkipLiteral (some (c :: r ++ t)) = .ok (some (p' ++ t))) := by
  rw [fts5ConfigSkipLiteral.eq_def] at h
  simp only [List.cons_append, if_pos hn] at h
  by_cases hcmp : sqlite3_strnicmp "null".toList (c :: (r ++ [NUL])) 4 = 0
  · rw [if_pos hcmp] at h
    simp only [Res.ok.injEq, Option.some.injEq] at h
    obtain ⟨w, rest, hw, hwl, hwn⟩ :=
      strnicmp_zero_take 4 "null".toList (c :: (r ++ [NUL])) (by decide) (by decide) hcmp
    obtain ⟨p', hrest, ha⟩ := append_nul_split (c :: r) w rest (by simpa using hw) hwn
    refine ⟨w, p', ha, ?_, fun _ _ t => ?_⟩
    · rw [← h, hw, List.drop_left' hwl, hrest]
    · have e1 : c :: r ++ t = w ++ (p' ++ t) := by rw [ha, List.append_assoc]
      have e2 : sqlite3_strnicmp "null".toList (w ++ (p' ++ t)) 4 = 0 := by
        rw [strnicmp_append 4 "null".toList w (p' ++ t) rest (le_of_eq hwl.symm), ← hw]
        exact hcmp
      rw [fts5ConfigSkipLiteral.eq_def]
      simp only [List.cons_append, if_pos hn]
      have e3 : c :: (r ++ t) = w ++ (p' ++ t) := by simpa using e1
      rw [e3, if_pos e2, List.drop_left' hwl]
  · rw [if_neg hcmp] at h
    simp at h

theorem skipLiteral_ext_blob (c : Char) (r p : Buf) (hn : ¬ (c = 'n' ∨ c = 'N'))
    (hx : c = 'x' ∨ c = 'X')
    (h : fts5ConfigSkipLiteral (some (c :: r ++ [NUL])) = .ok (some p)) :
    ∃ w p', c :: r = w ++ p' ∧ p = p' ++ [NUL]
      ∧ (p' ≠ [] → (∀ x, p' ≠ '.' :: x) →
          ∀ t : Buf, fts5ConfigSkipLiteral (some (c :: r ++ t)) = .ok (some (p' ++ t))) := by
  rw [fts5ConfigSkipLiteral.eq_def] at h
  simp only [List.cons_append, if_neg hn, if_pos hx] at h
  match r, h with
  | [], h =>
    simp only [List.nil_append, show (NUL = SQ) = False from by decide, if_false] at h
    simp at h
  | d :: r1, h =>
    simp only [List.cons_append] at h
    by_cases hd : d = SQ
    · rw [if_pos hd] at h
      cases h1 : hexLoop (r1 ++ [NUL]) with
      | fault e => rw [h1] at h; simp at h
      | ok ph =>
        rw [h1, bind_ok] at h
        obtain ⟨wh, ph', hr1, hph, hext⟩ := hexLoop_ext r1 ph h1
        subst hph
        match ph', h, hext, hr1 with
        | [], h, _, _ =>
          simp only [List.nil_append, show (NUL = SQ) = False from by decide, false_and,
            if_false, pure_eq_ok] at h
          simp at h
        | e :: r2', h, hext, hr1 =>
          simp only [List.cons_append] at h
          by_cases hcond : e = SQ
              ∧ ((c :: d :: (r1 ++ [NUL])).length - (e :: (r2' ++ [NUL])).length) % 2 = 0
          · rw [if_pos hcond] at h
            simp only [pure_eq_ok, Res.ok.injEq, Option.some.injEq] at h
            refine ⟨c :: d :: (wh ++ [e]), r2', ?_, h.symm, fun _ _ t => ?_⟩
            · rw [hr1]; simp
            · have h2 := hext (by simp) t
              rw [fts5ConfigSkipLiteral.eq_def]
              simp only [List.cons_append, if_neg hn, if_pos hx, if_pos hd, h2, bind_ok]
              have hcond2 : e = SQ
                  ∧ ((c :: d :: (r1 ++ t)).length - (e :: (r2' ++ t)).length) % 2 = 0 := by
                refine ⟨hcond.1, ?_⟩
                have := hcond.2
                rw [hr1] at this ⊢
                simp only [List.length_cons, List.length_append, List.length_nil] at this ⊢
                omega
              rw [if_pos hcond2]
              rfl
          · rw [if_neg hcond] at h
            simp at h
    · rw [if_neg hd] at h
      simp at h

theorem skipLiteral_ext_string (r p : Buf)
    (h : fts5ConfigSkipLiteral (some (SQ :: r ++ [NUL])) = .ok (some p)) :
    ∃ w p', SQ :: r = w ++ p' ∧ p = p' ++ [NUL]
      ∧ (p' ≠ [] → (∀ x, p' ≠ '.' :: x) →
          ∀ t : Buf, fts5ConfigSkipLiteral (some (SQ :: r ++ t)) = .ok (some (p' ++ t))) := by
  have e : ∀ t : Buf, fts5ConfigSkipLiteral (some (SQ :: r ++ t)) = stringLoop (r ++ t) := by
    intro t
    rw [fts5ConfigSkipLiteral.eq_def]
    simp only [List.cons_append]
    rw [if_neg (by decide), if_neg (by decide), if_pos trivial]
  rw [e] at h
  obtain ⟨w, p', hw, hp, hext⟩ := stringLoop_ext r.length r (le_refl _) p h
  refine ⟨SQ :: w, p', by rw [hw]; rfl, hp, fun hne _ t => ?_⟩
  rw [e]
  exact hext hne t

/-- The last step of the number case, `if( p==pIn ) p = 0;`, does not depend
on what follows the cursor. -/
theorem number_check_ext (c : Char) (r q' p : Buf)
    (h : (if (q' ++ [NUL]).length = (c :: (r ++ [NUL])).length
          then (pure none : Res (Option Buf)) else pure (some (q' ++ [NUL]))) = .ok (some p)) :
    p = q' ++ [NUL] ∧ ∀ t : Buf,
      (if (q' ++ t).length = (c :: (r ++ t)).length
        then (pure none : Res (Option Buf)) else pure (some (q' ++ t))) = .ok (some (q' ++ t)) := by
  by_cases hl : (q' ++ [NUL]).length = (c :: (r ++ [NUL])).length
  · rw [if_pos hl] at h
    simp at h
  · rw [if_neg hl] at h
    simp only [pure_eq_ok, Res.ok.injEq, Option.some.injEq] at h
    refine ⟨h.symm, fun t => ?_⟩
    rw [if_neg]
    · rfl
    · simp only [List.length_append, List.length_cons, List.length_nil] at hl ⊢
      omega

theorem skipLiteral_ext_number (c : Char) (r p : Buf)
    (hn : ¬ (c = 'n' ∨ c = 'N')) (hx : ¬ (c = 'x' ∨ c = 'X')) (hq : c ≠ SQ)
    (h : fts5ConfigSkipLiteral (some (c :: r ++ [NUL])) = .ok (some p)) :
    ∃ w p', c :: r = w ++ p' ∧ p = p' ++ [NUL]
      ∧ (p' ≠ [] → (∀ x, p' ≠ '.' :: x) →
          ∀ t : Buf, fts5ConfigSkipLiteral (some (c :: r ++ t)) = .ok (some (p' ++ t))) := by
  obtain ⟨sgn, a0, ha, hp0⟩ : ∃ sgn a0, c :: r = sgn ++ a0
      ∧ ∀ t : Buf, (if c = '+' ∨ c = '-' then r ++ t else c :: (r ++ t)) = a0 ++ t := by
    by_cases hs : c = '+' ∨ c = '-'
    · exact ⟨[c], r, rfl, fun t => by rw [if_pos hs]⟩
    · exact ⟨[], c :: r, rfl, fun t => by rw [if_neg hs]; rfl⟩
  have hnum : ∀ t : Buf, fts5ConfigSkipLiteral (some (c :: r ++ t))
      = (do
          let p ← digitLoop (a0 ++ t)
          let p ← (match p with
            | [] => Res.fault Fault.readPastEnd
            | e :: r1 =>
              if e = '.' then
                match r1 with
                | [] => Res.fault Fault.readPastEnd
                | e1 :: r2 => if fts5_isdigit e1 then digitLoop r2 else Res.ok p
              else Res.ok p)
          if p.length = (c :: (r ++ t)).length then pure none else pure (some p)) := by
    intro t
    rw [List.cons_append, skipLiteral_number c (r ++ t) hn hx hq, hp0]
  rw [hnum] at h
  cases h1 : digitLoop (a0 ++ [NUL]) with
  | fault e => rw [h1] at h; simp at h
  | ok p1 =>
    rw [h1, bind_ok] at h
    obtain ⟨w1, p1', ha0, hp1, hext1⟩ := digitLoop_ext a0 p1 h1
    subst hp1
    match p1', h, hext1, ha0 with
    | [], h, _, _ =>
      simp only [List.nil_append, show (NUL = '.') = False from by decide, if_false,
        bind_ok] at h
      have := (number_check_ext c r [] p (by simpa using h)).1
      exact ⟨c :: r, [], by simp, this, fun hne => absurd rfl hne⟩
    | e :: r1', h, hext1, ha0 =>
      simp only [List.cons_append] at h
      by_cases hdot : e = '.'
      · rw [if_pos hdot] at h
        match r1', h, hext1, ha0 with
        | [], h, _, ha0 =>
          simp only [List.nil_append, show fts5_isdigit NUL = false from by decide,
            Bool.false_eq_true, if_false, bind_ok] at h
          have := (number_check_ext c r [e] p (by simpa using h)).1
          refine ⟨sgn ++ w1, [e], by rw [ha, ha0, List.append_assoc], this, fun _ hnd => ?_⟩
          exact absurd (by rw [hdot]) (hnd [])
        | e1 :: r2', h, hext1, ha0 =>
          simp only [List.cons_append] at h
          by_cases hdig : fts5_isdigit e1 = true
          · rw [if_pos hdig] at h
            cases h2 : digitLoop (r2' ++ [NUL]) with
            | fault e => rw [h2] at h; simp at h
            | ok p2 =>
              rw [h2, bind_ok] at h
              obtain ⟨w2, p2', hr2, hp2, hext2⟩ := digitLoop_ext r2' p2 h2
              subst hp2
              obtain ⟨hp, hfin⟩ := number_check_ext c r p2' p h
              refine ⟨sgn ++ w1 ++ e :: e1 :: w2, p2', ?_, hp, fun hne _ t => ?_⟩
              · rw [ha, ha0, hr2]; simp [List.append_assoc]
              · have e1t := hext1 (by simp) t
                have e2t := hext2 hne t
                rw [hnum, e1t, bind_ok]
                simp only [List.cons_append, if_pos hdot, if_pos hdig, e2t, bind_ok]
                exact hfin t
          · rw [if_neg hdig, bind_ok] at h
            have := (number_check_ext c r (e :: e1 :: r2') p (by simpa using h)).1
            refine ⟨sgn ++ w1, e :: e1 :: r2', by rw [ha, ha0, List.append_assoc], this,
              fun _ hnd => ?_⟩
            exact absurd (by rw [hdot]) (hnd (e1 :: r2'))
      · rw [if_neg hdot, bind_ok] at h
        obtain ⟨hp, hfin⟩ := number_check_ext c r (e :: r1') p (by simpa using h)
        refine ⟨sgn ++ w1, e :: r1', by rw [ha, ha0, List.append_assoc], hp, fun _ _ t => ?_⟩
        have e1t := hext1 (by simp) t
        rw [hnum, e1t, bind_ok]
        simp only [List.cons_append, if_neg hdot, bind_ok]
        exact hfin t

/-- Locality of `fts5ConfigSkipLiteral`: a successful scan of a buffer that
ends with its terminator leaves the cursor inside the buffer, and when the
cursor is left before the terminator, at a character other than a dot, the
scan gives the same span whatever bytes replace the terminator. -/
theorem skipLiteral_ext (a p : Buf)
    (h : fts5ConfigSkipLiteral (some (a ++ [NUL])) = .ok (some p)) :
    ∃ w p', a = w ++ p' ∧ p = p' ++ [NUL]
      ∧ (p' ≠ [] → (∀ x, p' ≠ '.' :: x) →
          ∀ t : Buf, fts5ConfigSkipLiteral (some (a ++ t)) = .ok (some (p' ++ t))) := by
  match a, h with
  | [], h =>
    have h0 : fts5ConfigSkipLiteral (some ([] ++ [NUL])) = .ok none := by decide
    rw [h0] at h
    simp at h
  | c :: r, h =>
    by_cases hn : c = 'n' ∨ c = 'N'
    · exact skipLiteral_ext_null c r p hn h
    · by_cases hx : c = 'x' ∨ c = 'X'
      · exact skipLiteral_ext_blob c r p hn hx h
      · by_cases hq : c = SQ
        · subst hq
          exact skipLiteral_ext_string r p h
        · exact skipLiteral_ext_number c r p hn hx hq h

/-- Locality of the loop of `fts5ConfigSkipArgs`: when it stops at a closing
parenthesis in a buffer that ends with its terminator, it stops at the same
parenthesis whatever bytes replace the terminator, on at least as much fuel. -/
theorem skipArgsLoop_ext (fuel : Nat) :
    ∀ (a p : Buf) (fuel' : Nat), fuel ≤ fuel' →
      skipArgsLoop fuel (some (a ++ [NUL])) = .ok (some p) →
      ∃ w p', a = w ++ p' ∧ p = p' ++ [NUL] ∧ p' ≠ []
        ∧ ∀ t : Buf, skipArgsLoop fuel' (some (a ++ t)) = .ok (some (p' ++ t)) := by
  induction fuel with
  | zero =>
    intro a p fuel' _ h
    simp [skipArgsLoop] at h
  | succ fuel ih =>
    intro a p fuel' hfuel h
    obtain ⟨k, rfl⟩ : ∃ k, fuel' = k + 1 := ⟨fuel' - 1, by omega⟩
    rw [skipArgsLoop] at h
    simp only [fts5ConfigSkipWhitespace] at h
    cases h1 : skipSpaces (a ++ [NUL]) with
    | fault e => rw [h1] at h; simp at h
    | ok p1 =>
      rw [h1] at h
      simp only [bind_ok, pure_eq_ok] at h
      obtain ⟨w1, p1', ha, hp1, hext1⟩ := skipSpaces_ext a p1 h1
      subst hp1
      cases h2 : fts5ConfigSkipLiteral (some (p1' ++ [NUL])) with
      | fault e => rw [h2] at h; simp at h
      | ok q =>
        rw [h2] at h
        simp only [bind_ok] at h
        match q, h, h2 with
        | none, h, _ => simp at h
        | some p2, h, h2 =>
          simp only [] at h
          obtain ⟨w2, p2', hp1', hp2, hext2⟩ := skipLiteral_ext p1' p2 h2
          subst hp2
          cases h3 : skipSpaces (p2' ++ [NUL]) with
          | fault e => rw [h3] at h; simp at h
          | ok p3 =>
            rw [h3] at h
            simp only [bind_ok] at h
            obtain ⟨w3, p3', hp2', hp3, hext3⟩ := skipSpaces_ext p2' p3 h3
            subst hp3
            match p3', h, h3, hext3, hp2' with
            | [], h, _, _, _ =>
              simp only [List.nil_append, show (NUL = ')') = False from by decide, if_false,
                ne_eq, show (NUL = ',') = False from by decide, not_false_eq_true, if_true,
                pure_eq_ok] at h
              simp at h
            | c :: r', h, h3, hext3, hp2' =>
              simp only [List.cons_append] at h
              have hdelim : c = ')' ∨ c = ',' := by
                by_contra hcon
                rw [if_neg (fun e => hcon (Or.inl e)),
                  if_pos (fun e => hcon (Or.inr e))] at h
                simp at h
              have hp2ne : p2' ≠ [] := by rw [hp2']; simp
              have hp1ne : p1' ≠ [] := by rw [hp1', hp2']; simp
              have hnd : ∀ x, p2' ≠ '.' :: x := by
                intro x hx
                rw [hx, List.cons_append, skipSpaces_stop '.' _ (by decide)] at h3
                simp only [Res.ok.injEq, List.cons_append, List.cons.injEq] at h3
                rcases hdelim with e | e <;> rw [e] at h3 <;> exact absurd h3.1 (by decide)
              have e1 := fun t : Buf => hext1 hp1ne t
              have e2 := fun t : Buf => hext2 hp2ne hnd t
              have e3 := fun t : Buf => hext3 (by simp) t
              by_cases hc : c = ')'
              · rw [if_pos hc] at h
                simp only [pure_eq_ok, Res.ok.injEq, Option.some.injEq] at h
                refine ⟨w1 ++ w2 ++ w3, c :: r', ?_, h.symm, by simp, fun t => ?_⟩
                · rw [ha, hp1', hp2']; simp [List.append_assoc]
                · rw [skipArgsLoop]
                  simp only [fts5ConfigSkipWhitespace, e1 t, bind_ok, pure_eq_ok, e2 t, e3 t,
                    List.cons_append, if_pos hc]
              · have hcomma : c = ',' := hdelim.resolve_left hc
                rw [if_neg hc, if_neg (by simpa using hcomma)] at h
                obtain ⟨w4, p', hr', hp, hpne, hext4⟩ := ih r' p k (by omega) h
                refine ⟨w1 ++ w2 ++ w3 ++ c :: w4, p', ?_, hp, hpne, fun t => ?_⟩
                · rw [ha, hp1', hp2', hr']; simp [List.append_assoc]
                · rw [skipArgsLoop]
                  simp only [fts5ConfigSkipWhitespace, e1 t, bind_ok, pure_eq_ok, e2 t, e3 t,
                    List.cons_append, if_neg hc]
                  rw [if_neg (by simpa using hcomma)]
                  exact hext4 t

/-! ## Text after the closing parenthesis of a rank specification -/

/-- C21: `fts5ConfigParseRank` does not depend on the text after the `)` that
closes the argument list: for every rank text `u` on which it succeeds and
every string `s`, it also succeeds on `u ++ s`, with the same function name and
the same raw arguments. -/
theorem parseRank_ignores_trailing (u s : Text) (zRank zRankArgs : Option Text)
    (h : fts5ConfigParseRank (some (u ++ [NUL])) = .ok (SQLITE_OK, zRank, zRankArgs)) :
    fts5ConfigParseRank (some (u ++ s ++ [NUL])) = .ok (SQLITE_OK, zRank, zRankArgs) := by
  have hne : SQLITE_ERROR ≠ SQLITE_OK := by decide
  have hargs0 : fts5ConfigSkipArgs [NUL] = .ok none := by decide
  rw [List.append_assoc]
  generalize ht : s ++ [NUL] = t
  have htlen : 1 ≤ t.length := by rw [← ht]; simp
  unfold fts5ConfigParseRank at h
  simp only [fts5ConfigSkipWhitespace] at h
  cases h1 : skipSpaces (u ++ [NUL]) with
  | fault e => rw [h1] at h; simp at h
  | ok pr =>
    rw [h1] at h
    simp only [bind_ok, pure_eq_ok, fts5ConfigSkipBareword] at h
    obtain ⟨w1, pr', hu, hpr, hext1⟩ := skipSpaces_ext u pr h1
    subst hpr
    cases h2 : barewordLoop (pr' ++ [NUL]) with
    | fault e => rw [h2] at h; simp at h
    | ok q =>
      rw [h2] at h
      simp only [bind_ok] at h
      obtain ⟨f, q', hpr', hq, hext2⟩ := barewordLoop_ext pr' q h2
      subst hq
      by_cases hl : (q' ++ [NUL]).length = (pr' ++ [NUL]).length
      · rw [if_pos hl] at h
        simp [hne] at h
      · rw [if_neg hl] at h
        simp only [bind_ok] at h
        cases h3 : skipSpaces (q' ++ [NUL]) with
        | fault e => rw [h3] at h; simp at h
        | ok q2 =>
          rw [h3] at h
          simp only [bind_ok] at h
          obtain ⟨w3, q2', hq', hq2, hext3⟩ := skipSpaces_ext q' q2 h3
          subst hq2
          match q2', h, hext3, hq' with
          | [], h, _, _ =>
            simp only [List.nil_append, ne_eq, show (NUL = '(') = False from by decide,
              not_false_eq_true, if_true] at h
            simp [hne] at h
          | c :: q3', h, hext3, hq' =>
            simp only [List.cons_append] at h
            by_cases hc : c ≠ '('
            · rw [if_pos hc] at h
              simp [hne] at h
            · rw [if_neg hc] at h
              match q3', h, hext3, hq' with
              | [], h, _, _ =>
                simp only [List.nil_append] at h
                have hsp : skipSpaces [NUL] = .ok [NUL] := by decide
                rw [hsp] at h
                simp only [bind_ok, ne_eq, show (NUL = ')') = False from by decide,
                  not_false_eq_true, if_true, hargs0] at h
                simp [hne] at h
              | x :: q3'', h, hext3, hq' =>
                simp only [List.cons_append] at h
                cases h4 : skipSpaces (x :: (q3'' ++ [NUL])) with
                | fault e => rw [h4] at h; simp at h
                | ok q4 =>
                  rw [h4] at h
                  simp only [bind_ok] at h
                  obtain ⟨w4, q4', hq3, hq4, hext4⟩ := skipSpaces_ext (x :: q3'') q4 h4
                  subst hq4
                  have hq'ne : q' ≠ [] := by rw [hq']; simp
                  have hpr'ne : pr' ≠ [] := by rw [hpr', hq']; simp
                  have e1 := hext1 hpr'ne t
                  have e2 := hext2 hq'ne t
                  have e3 := hext3 (by simp) t
                  have hl2 : ¬ ((q' ++ t).length = (pr' ++ t).length) := by
                    simp only [List.length_append] at hl ⊢
                    omega
                  have hb1 : between (pr' ++ [NUL]) (q' ++ [NUL]) = f := by
                    rw [hpr', List.append_assoc]; exact between_append f _
                  have hb2 : between (pr' ++ t) (q' ++ t) = f := by
                    rw [hpr', List.append_assoc]; exact between_append f _
                  rw [hb1] at h
                  have hgoal : fts5ConfigParseRank (some (u ++ t))
                      = (do
                          let p ← skipSpaces (x :: (q3'' ++ t))
                          match p with
                          | [] => Res.fault Fault.readPastEnd
                          | c :: _ =>
                            if c ≠ ')' then do
                              let q ← fts5ConfigSkipArgs p
                              match q with
                              | none => pure (SQLITE_ERROR, none, none)
                              | some q =>
                                if q.length ≠ p.length then
                                  pure (SQLITE_OK, some f, some (between p q))
                                else pure (SQLITE_OK, some f, none)
                            else pure (SQLITE_OK, some f, none)) := by
                    unfold fts5ConfigParseRank
                    simp only [fts5ConfigSkipWhitespace, e1, bind_ok, pure_eq_ok,
                      fts5ConfigSkipBareword, e2, if_neg hl2, e3, List.cons_append, if_neg hc,
                      hb2]
                  rw [hgoal]
                  match q4', h, hext4, hq3 with
                  | [], h, _, _ =>
                    simp only [List.nil_append, ne_eq, show (NUL = ')') = False from by decide,
                      not_false_eq_true, if_true, hargs0, bind_ok] at h
                    simp [hne] at h
                  | c2 :: q5', h, hext4, hq3 =>
                    have e4 := hext4 (by simp) t
                    simp only [List.cons_append] at h e4
                    rw [e4, bind_ok]
                    simp only []
                    by_cases hc2 : c2 ≠ ')'
                    · rw [if_pos hc2] at h ⊢
                      cases h5 : fts5ConfigSkipArgs (c2 :: (q5' ++ [NUL])) with
                      | fault e => rw [h5] at h; simp at h
                      | ok q6 =>
                        rw [h5] at h
                        simp only [bind_ok] at h
                        match q6, h, h5 with
                        | none, h, _ => simp [hne] at h
                        | some p6, h, h5 =>
                          simp only [] at h
                          unfold fts5ConfigSkipArgs at h5
                          obtain ⟨w5, p6', hq5, hp6, hp6ne, hext5⟩ :=
                            skipArgsLoop_ext _ (c2 :: q5') p6 ((c2 :: (q5' ++ t)).length + 1)
                              (by
                                simp only [List.length_cons, List.length_append,
                                  List.length_nil]
                                omega) h5
                          subst hp6
                          have e5 : fts5ConfigSkipArgs (c2 :: (q5' ++ t))
                              = .ok (some (p6' ++ t)) := by
                            unfold fts5ConfigSkipArgs
                            exact hext5 t
                          have hb3 : between (c2 :: (q5' ++ [NUL])) (p6' ++ [NUL]) = w5 := by
                            have := between_append w5 (p6' ++ [NUL])
                            rw [← List.append_assoc, ← hq5] at this
                            exact this
                          have hb4 : between (c2 :: (q5' ++ t)) (p6' ++ t) = w5 := by
                            have := between_append w5 (p6' ++ t)
                            rw [← List.append_assoc, ← hq5] at this
                            exact this
                          rw [e5, bind_ok]
                          simp only []
                          rw [hb3] at h
                          rw [hb4]
                          by_cases hl3 : (p6' ++ [NUL]).length ≠ (c2 :: (q5' ++ [NUL])).length
                          · rw [if_pos hl3] at h
                            rw [if_pos]
                            · exact h
                            · simp only [List.length_cons, List.length_append,
                                List.length_nil, ne_eq] at hl3 ⊢
                              omega
                          · rw [if_neg hl3] at h
                            rw [if_neg]
                            · exact h
                            · simp only [List.length_cons, List.length_append,
                                List.length_nil, ne_eq, not_not] at hl3 ⊢
                              omega
                    · rw [if_neg hc2] at h ⊢
                      exact h

/-- The rank text `bm25(1)` and the same text followed by ` trailing`. -/
theorem parseRank_ignores_trailing_witness :
    fts5ConfigParseRank (some ("bm25(1)".toList ++ [NUL]))
        = .ok (SQLITE_OK, some "bm25".toList, some "1".toList)
    ∧ fts5ConfigParseRank (some ("bm25(1)".toList ++ " trailing".toList ++ [NUL]))
        = .ok (SQLITE_OK, some "bm25".toList, some "1".toList) :=
  ⟨rfl, parseRank_ignores_trailing "bm25(1)".toList " trailing".toList _ _ rfl⟩

end Fts5
